import Mathlib

/-!
# rtmpcast / testpattern / waveform: FLV record layout, parsing and pacing

A shallow embedding of the byte-level helpers and the main loops of the three
programs (`rtmpcast.c`, `testpattern.c`, `waveform.c`).

Conventions
* A byte is a `Nat` below 256; memory is a total map from addresses to bytes
  and a pointer is an address.
* `uint32_t` arithmetic is reduced modulo `2 ^ 32` where the C code can wrap.
* `int` is 32 bits wide.  The width in bits of `unsigned long` is the explicit
  parameter `W` of the rtmpcast readers (64 on LP64 Linux, 32 on ILP32).
* A `double` is a dyadic rational and every operation rounds its exact result
  to 53 bits, to nearest even (`F64`).
* Library calls whose outcome the programs test (`malloc`, `fopen`, librtmp,
  `select`, the encoders, `gettimeofday`, signals) are fields of an
  environment; what a program does is the list of its events.
* A source region read through a pointer (a C string, an SPS, a NAL payload) is
  the list of the bytes of memory from that pointer on; it lies outside the
  tag buffer that the writers fill.
* The bit pattern of a `double` handed to the AMF writers is a `Nat` below
  `2 ^ 64`; the byte order of the host is a parameter.
-/

/-- Memory: a total map from addresses to byte values. -/
abbrev Mem := Nat → Nat

/-- The assignment `*a = v`. -/
def store (m : Mem) (a v : Nat) : Mem := fun x => if x = a then v else m x

/-- The call `memcpy(dst, src, n)`, the source region given as the list of its bytes. -/
def memcpy (m : Mem) (dst : Nat) (src : List Nat) (n : Nat) : Mem :=
  fun x => if dst ≤ x ∧ x < dst + n then src.getD (x - dst) 0 else m x

/-- The `n` bytes of memory starting at address `a`. -/
def readBytes (m : Mem) (a n : Nat) : List Nat := (List.range n).map (fun i => m (a + i))

/-- Conversion of a C integer to `uint32_t`. -/
def toU32 (i : Int) : Nat := (i % 4294967296).toNat

/-! ### IEEE 754 binary64 arithmetic

A finite `double` is a dyadic rational `num / 2 ^ exp`.  Every operation computes the exact
result and rounds it to 53 significant bits, to nearest, ties to even.  The exponent range
is not modelled: the values of the programs stay far from overflow and from subnormals. -/

/-- Number of low bits `n` has beyond 53 (0 when `n < 2 ^ 53`); the first argument bounds the
recursion and `n` itself is enough. -/
def shiftNeeded : Nat → Nat → Nat
  | 0, _ => 0
  | fuel + 1, n => if n < 9007199254740992 then 0 else shiftNeeded fuel (n / 2) + 1

/-- Rounds the integer `n`, which stands for a value in `[n, n + 1)` that exceeds `n` exactly
when `sticky` is set, to 53 significant bits: to nearest, ties to even. -/
def roundNat (n : Nat) (sticky : Bool) : Nat :=
  let s := shiftNeeded n n
  if s = 0 then n
  else
    let q := n / 2 ^ s
    let r := n % 2 ^ s
    let half := 2 ^ (s - 1)
    if half < r ∨ (r = half ∧ (sticky = true ∨ q % 2 = 1)) then (q + 1) * 2 ^ s else q * 2 ^ s

/-- A finite `double`: the value `num / 2 ^ exp`. -/
structure F64 where
  num : Int
  exp : Nat
deriving DecidableEq, Repr

namespace F64

/-- Rounding of an exact dyadic result to a `double`. -/
def round (x : F64) : F64 :=
  if 0 ≤ x.num then ⟨roundNat x.num.toNat false, x.exp⟩
  else ⟨-(roundNat (-x.num).toNat false : Int), x.exp⟩

/-- Conversion of an unsigned integer to `double`. -/
def ofNat (n : Nat) : F64 := round ⟨n, 0⟩

/-- Product `a * b` of two `double`s. -/
def mul (a b : F64) : F64 := round ⟨a.num * b.num, a.exp + b.exp⟩

/-- Difference `a - b` of two `double`s. -/
def sub (a b : F64) : F64 := round ⟨a.num * 2 ^ b.exp - b.num * 2 ^ a.exp, a.exp + b.exp⟩

/-- Quotient `a / b` of two positive `double`s: the quotient is taken with `k` fraction bits,
enough for it to have more than 53 bits, and rounded with the remainder as sticky bit. -/
def div (a b : F64) : F64 :=
  let p := a.num.toNat * 2 ^ b.exp
  let q := b.num.toNat * 2 ^ a.exp
  let k := 64 + q
  ⟨roundNat (p * 2 ^ k / q) (p * 2 ^ k % q != 0), k⟩

/-- Conversion of a `double` to a signed integer type: truncation toward zero. -/
def toInt (x : F64) : Int :=
  if 0 ≤ x.num then ((x.num.toNat / 2 ^ x.exp : Nat) : Int)
  else -(((-x.num).toNat / 2 ^ x.exp : Nat) : Int)

end F64

/-- The delay as the spec words it, in whole milliseconds: `max(0, n * T - elapsed)` for the
nominal tick `T = 1000 / fps` milliseconds, rounded down. -/
def specDelay (fps n elapsed : Nat) : Nat := (1000 * n - fps * elapsed) / fps

/-- Diagnostics written to stderr by testpattern and waveform. -/
inductive GenDiag where
  | encode | rtmpWriteFrame | select | aacEncode | aacNoBytes | rtmpWriteAudio
  | allocTag | rtmpObject | connect | connectStream | rtmpWrite
  | encodeHeaders | multipleSps | multiplePps | missingSpsPps
  | aacOpen | aacSetParam | aacInit | aacInfo
deriving DecidableEq, Repr

/-- Observable actions of testpattern and waveform, in program order. -/
inductive GenEvent where
  | frameLine (frame time : Nat)
  | debugWrite (bytes : List Nat)
  | rtmpWrite (bytes : List Nat)
  | diag (d : GenDiag)
  | readPacket
  | gettimeofday
  | usleep (useconds : Nat)
  | usage
  | debugOpen
  | aacInfoLine
  | malloc
  | rtmpAlloc
  | rtmpConnect
  | rtmpConnectStream
deriving DecidableEq, Repr

namespace testpattern

/-- Writer `u16be(p, value)`: returns the memory and `p + 2`. -/
def u16be (m : Mem) (p value : Nat) : Mem × Nat :=
  let m := store m p (value >>> 8 &&& 0xFF)
  let m := store m (p + 1) (value &&& 0xFF)
  (m, p + 2)

/-- Writer `u24be(p, value)`: returns the memory and `p + 3`. -/
def u24be (m : Mem) (p value : Nat) : Mem × Nat :=
  let m := store m p (value >>> 16 &&& 0xFF)
  let m := store m (p + 1) (value >>> 8 &&& 0xFF)
  let m := store m (p + 2) (value &&& 0xFF)
  (m, p + 3)

/-- Writer `u32be(p, value)`: returns the memory and `p + 4`. -/
def u32be (m : Mem) (p value : Nat) : Mem × Nat :=
  let m := store m p (value >>> 24 &&& 0xFF)
  let m := store m (p + 1) (value >>> 16 &&& 0xFF)
  let m := store m (p + 2) (value >>> 8 &&& 0xFF)
  let m := store m (p + 3) (value &&& 0xFF)
  (m, p + 4)

/-- Function `flv_TagHeader(p, type, timestamp)`: sets up the first 11 bytes of a tag and
returns the pointer to the start of the payload area.  Bytes 1 to 3 are skipped. -/
def flv_TagHeader (m : Mem) (p type timestamp : Nat) : Mem × Nat :=
  let m := store m p type
  let p := p + 1
  let p := p + 3
  let (m, p) := u24be m p (timestamp &&& 0x00FFFFFF)
  let m := store m p (timestamp >>> 24 &&& 0xFF)
  let p := p + 1
  u24be m p 0

/-- Function `flv_TagFinish(tag, p)`: backpatches the payload size into bytes 1 to 3, appends
the tag size at `p` and returns the complete tag size.  There is no failure path. -/
def flv_TagFinish (m : Mem) (tag p : Nat) : Mem × Nat :=
  let payloadSize := toU32 ((p : Int) - ((tag : Int) + 11))
  let m := (u24be m (tag + 1) payloadSize).1
  let m := (u32be m p ((11 + payloadSize) % 4294967296)).1
  (m, (11 + payloadSize + 4) % 4294967296)

/-- The sequence used at every call site: `flv_TagHeader`, the payload copied at the returned
pointer, the pointer advanced past it, `flv_TagFinish`.  Returns the memory and the value
returned by `flv_TagFinish`. -/
def buildTag (m : Mem) (tag type timestamp : Nat) (payload : List Nat) : Mem × Nat :=
  let (m, p) := flv_TagHeader m tag type timestamp
  let m := memcpy m p payload payload.length
  let p := p + payload.length
  flv_TagFinish m tag p

/-- Macro `FPS`. -/
def FPS : Nat := 24

/-- Macro `TIMESTAMP_INCREMENT`, `(1000.0 / FPS)`: the `double` nearest to 1000/24. -/
def TIMESTAMP_INCREMENT : F64 := F64.div (F64.ofNat 1000) (F64.ofNat FPS)

/-- Function `getTimestamp()` for the `timeval` that `gettimeofday` filled in: milliseconds,
converted to `uint32_t`. -/
def getTimestamp (tv_sec tv_usec : Nat) : Nat := (tv_sec * 1000 + tv_usec / 1000) % 4294967296

/-- The value of `delay_time` in `main`:
`(frame * TIMESTAMP_INCREMENT) - (getTimestamp() - start)` with `now` the value returned by
`getTimestamp()`; the difference of the two `uint32_t` is taken modulo `2 ^ 32`, the rest is
`double` arithmetic, and the result is truncated to `int64_t`. -/
def delay_time (frame now start : Nat) : Int :=
  F64.toInt (F64.sub (F64.mul (F64.ofNat frame) TIMESTAMP_INCREMENT)
    (F64.ofNat ((now + 4294967296 - start) % 4294967296)))

/-- The statements after `delay_time` is computed: `usleep(1000 * delay_time)` when it is
positive, the argument converted to the 32-bit `useconds_t`. -/
def sleepEvents (delay : Int) : List GenEvent :=
  if 0 < delay then [.usleep ((1000 * delay).toNat % 4294967296)] else []

/-- Function `flv_AVCVideoPacket(p, keyframe, type, composition_time)`: `type` is stored into
a byte, `composition_time` is converted to the `uint32_t` parameter of `u24be`. -/
def flv_AVCVideoPacket (m : Mem) (p keyframe type : Nat) (composition_time : Int) : Mem × Nat :=
  let m := if keyframe ≠ 0 then store m p 0x17 else store m p 0x27
  let m := store m (p + 1) (type % 256)
  u24be m (p + 2) (toU32 composition_time)

/-- The argument `frame * TIMESTAMP_INCREMENT` of `flv_TagHeader`: a `double` converted to
`uint32_t` (truncated; taken modulo `2 ^ 32` beyond the range of the type). -/
def tagTimestamp (frame : Nat) : Nat :=
  (F64.toInt (F64.mul (F64.ofNat frame) TIMESTAMP_INCREMENT)).toNat % 4294967296

/-- Exit status `EXIT_FAILURE`. -/
def EXIT_FAILURE : Nat := 1

/-- What the generation loop cannot decide itself, by iteration number (from 0): the result
of `x264_encoder_encode` (`frame_size`, the bytes at `nals[0].p_payload`,
`pic_out.b_keyframe`), the results of `RTMP_Write`, `select` and `FD_ISSET`, whether a signal
arrives during the iteration, and the `timeval` (`tv_sec`, `tv_usec`) that `gettimeofday`
returns. -/
structure Env where
  tag : Nat
  encode : Nat → Int × List Nat × Nat
  writeOk : Nat → Bool
  selectOk : Nat → Bool
  readable : Nat → Bool
  signal : Nat → Bool
  clock : Nat → Nat × Nat

/-- The variables of `main` that change in the generation loop; `start` does not. -/
structure LoopState where
  mem : Mem
  frame : Nat
  running : Bool
  iter : Nat

/-- Result of one iteration: a jump to `restoreSig` with the exit status, or the state at the
next evaluation of `while (running)`; both with the events issued. -/
inductive StepResult where
  | exit (ret : Nat) (events : List GenEvent)
  | next (s : LoopState) (events : List GenEvent)

/-- The body of `while (running)` in `main` of testpattern.c; `W` is the width of
`unsigned long` (the type of `frame`) and `start` the value of `getTimestamp()` before the
loop. -/
def step (W : Nat) (env : Env) (start : Nat) (s : LoopState) : StepResult :=
  let tag := env.tag
  let (frame_size, nal, b_keyframe) := env.encode s.iter
  if frame_size < 0 then .exit EXIT_FAILURE [.diag .encode]
  else
    let (mem, sent, failed) :=
      if 0 < frame_size then
        let (m, p) := flv_TagHeader s.mem tag 9 (tagTimestamp s.frame)
        let (m, p) := flv_AVCVideoPacket m p b_keyframe 1 0
        let m := memcpy m p nal frame_size.toNat
        let p := p + frame_size.toNat
        let (m, tagSize) := flv_TagFinish m tag p
        (m, [GenEvent.debugWrite (readBytes m tag tagSize), .rtmpWrite (readBytes m tag tagSize)],
          !env.writeOk s.iter)
      else (s.mem, [], false)
    if failed then .exit EXIT_FAILURE (sent ++ [.diag .rtmpWriteFrame])
    else if !env.selectOk s.iter then .exit EXIT_FAILURE (sent ++ [.diag .select])
    else
      let rp := if env.readable s.iter then [GenEvent.readPacket] else []
      let frame := (s.frame + 1) % 2 ^ W
      let now := getTimestamp (env.clock s.iter).1 (env.clock s.iter).2
      .next { mem := mem, frame := frame, running := s.running && !env.signal s.iter,
              iter := s.iter + 1 }
        (sent ++ rp ++ .gettimeofday :: sleepEvents (delay_time frame now start))

/-- The state at the start of the iteration reached after `k` more iterations of the loop,
`none` when the loop ends before. -/
def stateAfter (W : Nat) (env : Env) (start : Nat) : Nat → LoopState → Option LoopState
  | 0, s => some s
  | k + 1, s =>
    if !s.running then none
    else
      match step W env start s with
      | .exit _ _ => none
      | .next s' _ => stateAfter W env start k s'

end testpattern

namespace rtmpcast

/-- Value of an expression of type `int` whose mathematical value is `n`, after the
conversion to `unsigned long` of `W` bits: the low 32 bits are read as a two's complement
number and a negative number is extended with one bits. -/
def intToULong (W n : Nat) : Nat :=
  if n % 4294967296 < 2147483648 then n % 4294967296
  else (n % 4294967296 + (2 ^ W - 4294967296)) % 2 ^ W

/-- Reader `u24be(p)`: the operands are promoted to `int`, the result converted to
`unsigned long`. -/
def u24be (W : Nat) (m : Mem) (p : Nat) : Nat :=
  intToULong W (m p <<< 16 ||| m (p + 1) <<< 8 ||| m (p + 2))

/-- Reader `u32be(p)`: the operands are promoted to `int`, so a first byte of 0x80 or more
makes the `int` negative before the conversion to `unsigned long`. -/
def u32be (W : Nat) (m : Mem) (p : Nat) : Nat :=
  intToULong W (m p <<< 24 ||| m (p + 1) <<< 16 ||| m (p + 2) <<< 8 ||| m (p + 3))

/-- The header fields of a record as the read loop of `main` parses them from `tag`. -/
structure TagFields where
  payloadType : Nat
  payloadSize : Nat
  timestamp : Nat
  streamId : Nat
deriving DecidableEq, Repr

/-- The parse of the 11-byte header in `main`:
`timestamp = u24be(tag + 4) | (tag[7] << 24)` mixes an `unsigned long` with an `int`. -/
def parseHeader (W : Nat) (m : Mem) (tag : Nat) : TagFields :=
  { payloadType := m tag
    payloadSize := u24be W m (tag + 1)
    timestamp := u24be W m (tag + 4) ||| intToULong W (m (tag + 7) <<< 24)
    streamId := u24be W m (tag + 8) }

/-- The check `u32be(tag + (11 + payloadSize)) != 11 + payloadSize` of `main`, negated:
true when the record is accepted. -/
def trailerOk (W : Nat) (m : Mem) (tag payloadSize : Nat) : Bool :=
  u32be W m (tag + (11 + payloadSize)) == (11 + payloadSize) % 2 ^ W

end rtmpcast

namespace rtmpcast

/-- Exit status `EXIT_SUCCESS`. -/
def EXIT_SUCCESS : Nat := 0

/-- Exit status `EXIT_FAILURE`. -/
def EXIT_FAILURE : Nat := 1

/-- A stdio input stream: the bytes that can be read from it, the file position, the
end-of-file indicator, and whether running out of bytes is a read error (`endIsError`)
instead of end of file. -/
structure FILE where
  data : List Nat
  pos : Nat
  eof : Bool
  endIsError : Bool

/-- The call `fread(ptr, 1, n, f)` (also `fread(ptr, n, 1, f)` for the bytes it transfers):
copies the bytes available, up to `n`, advances the position, and on a short count sets the
end-of-file indicator unless the stream ends in an error.  Returns the count, the stream and
the memory. -/
def fread (f : FILE) (m : Mem) (ptr n : Nat) : Nat × FILE × Mem :=
  let got := min n (f.data.length - f.pos)
  let m := memcpy m ptr (f.data.drop f.pos) got
  (got, { f with pos := f.pos + got, eof := f.eof || (decide (got < n) && !f.endIsError) }, m)

/-- The call `fseek(f, offset, SEEK_SET)` with an `unsigned long` argument converted to
`long`: a negative offset fails and leaves the stream unchanged, any other offset becomes
the position and clears the end-of-file indicator.  The result is not checked by `main`. -/
def fseek (W : Nat) (f : FILE) (offset : Nat) : FILE :=
  if offset % 2 ^ W < 2 ^ (W - 1) then { f with pos := offset % 2 ^ W, eof := false } else f

/-- Diagnostics written by `main` to stderr (`perror`, `fputs`, `fprintf`). -/
inductive Diag where
  | allocTag | openFlv | notFlv | rtmpObject | connect | connectStream
  | shortHeader | shortPayload | shortTagSize | sizeMismatch | rtmpWrite | select
deriving DecidableEq, Repr

/-- Observable actions of `main`, in program order. -/
inductive Event where
  | usage
  | malloc
  | fopen
  | diag (d : Diag)
  | containsVideo
  | containsAudio
  | startOffset (n : Nat)
  | rtmpAlloc
  | rtmpConnect
  | rtmpConnectStream
  | rtmpWrite (bytes : List Nat)
  | readPacket
  | usleep (useconds : Nat)
deriving DecidableEq, Repr

/-- What `main` cannot decide itself: arguments, allocation and library results, and the
signals delivered while the loop runs.  The functions are indexed by the number of the loop
iteration, counted from 0. -/
structure Env where
  argc : Nat
  mallocOk : Bool
  tag : Nat
  mem : Mem
  flv : Option FILE
  rtmpAllocOk : Bool
  connectOk : Bool
  connectStreamOk : Bool
  writeOk : Nat → Bool
  selectOk : Nat → Bool
  readable : Nat → Bool
  signal : Nat → Bool

/-- The variables of `main` that live across iterations of the read loop. -/
structure LoopState where
  flv : FILE
  mem : Mem
  prevTimestamp : Nat
  running : Bool
  iter : Nat

/-- Result of one iteration of the read loop: a jump to `restoreSig` with the exit status,
or the state at the next evaluation of `while (running)`; both with the events issued. -/
inductive StepResult where
  | exit (ret : Nat) (events : List Event)
  | next (s : LoopState) (events : List Event)

/-- The body of `while (running)` in `main`. -/
def step (W : Nat) (env : Env) (s : LoopState) : StepResult :=
  let tag := env.tag
  let (n, flv, mem) := fread s.flv s.mem tag 11
  if 11 ≠ n then
    if flv.eof then
      .next { s with flv := flv, mem := mem, running := false, iter := s.iter + 1 } []
    else
      .exit EXIT_FAILURE [.diag .shortHeader]
  else
    let h := parseHeader W mem tag
    let (n, flv, mem) := fread flv mem (tag + 11) h.payloadSize
    if h.payloadSize ≠ n then .exit EXIT_FAILURE [.diag .shortPayload]
    else
      let (n, flv, mem) := fread flv mem (tag + 11 + h.payloadSize) 4
      if 4 ≠ n then .exit EXIT_FAILURE [.diag .shortTagSize]
      else if !trailerOk W mem tag h.payloadSize then .exit EXIT_FAILURE [.diag .sizeMismatch]
      else
        let w := Event.rtmpWrite (readBytes mem tag (11 + h.payloadSize + 4))
        if !env.writeOk s.iter then .exit EXIT_FAILURE [w, .diag .rtmpWrite]
        else if !env.selectOk s.iter then .exit EXIT_FAILURE [w, .diag .select]
        else
          let rp := if env.readable s.iter then [Event.readPacket] else []
          let running := s.running && !env.signal s.iter
          if s.prevTimestamp < h.timestamp then
            .next { flv := flv, mem := mem, prevTimestamp := h.timestamp, running := running,
                    iter := s.iter + 1 }
              (w :: rp ++ [.usleep ((h.timestamp - s.prevTimestamp) % 4294967296)])
          else
            .next { flv := flv, mem := mem, prevTimestamp := s.prevTimestamp,
                    running := running, iter := s.iter + 1 }
              (w :: rp)

/-- The loop `while (running) { ... }` of `main`, with a bound on the number of evaluations
of the condition; `none` when the bound is reached.  Returns the exit status and the events
issued from this point on. -/
def loop (W : Nat) (env : Env) : Nat → LoopState → Option (Nat × List Event)
  | 0, _ => none
  | fuel + 1, s =>
    if !s.running then some (EXIT_SUCCESS, [])
    else
      match step W env s with
      | .exit ret events => some (ret, events)
      | .next s' events => (loop W env fuel s').map (fun r => (r.1, events ++ r.2))

/-- The function `main` of rtmpcast.c: exit status and events.  Every iteration that
continues consumes at least 15 bytes of the stream, so the bound given to `loop` is never
reached (`main_total`). -/
def main (W : Nat) (env : Env) : Option (Nat × List Event) :=
  if env.argc ≠ 3 then some (EXIT_SUCCESS, [.usage])
  else if !env.mallocOk then some (EXIT_FAILURE, [.malloc, .diag .allocTag])
  else
    match env.flv with
    | none => some (EXIT_FAILURE, [.malloc, .fopen, .diag .openFlv])
    | some flv =>
      let tag := env.tag
      let (_, flv, mem) := fread flv env.mem tag 9
      if u32be W mem tag ≠ 0x464C5601 then
        some (EXIT_FAILURE, [.malloc, .fopen, .diag .notFlv])
      else
        let video := if mem (tag + 4) &&& 0x01 ≠ 0 then [Event.containsVideo] else []
        let audio := if mem (tag + 4) &&& 0x04 ≠ 0 then [Event.containsAudio] else []
        let flvStartTag := u32be W mem (tag + 5)
        let pre := [Event.malloc, .fopen] ++ video ++ audio ++ [.startOffset flvStartTag,
          .rtmpAlloc]
        if !env.rtmpAllocOk then some (EXIT_FAILURE, pre ++ [.diag .rtmpObject])
        else if !env.connectOk then
          some (EXIT_FAILURE, pre ++ [.rtmpConnect, .diag .connect])
        else if !env.connectStreamOk then
          some (EXIT_FAILURE, pre ++ [.rtmpConnect, .rtmpConnectStream, .diag .connectStream])
        else
          let flv := fseek W flv ((flvStartTag + 4) % 2 ^ W)
          let s : LoopState :=
            { flv := flv, mem := mem, prevTimestamp := 0, running := true, iter := 0 }
          (loop W env (flv.data.length + 2) s).map
            (fun r => (r.1, pre ++ [.rtmpConnect, .rtmpConnectStream] ++ r.2))

/-! ### The read loop seen on the bytes that remain in the stream

The loop reads every byte it parses in the same iteration, so its behaviour is a function of
the bytes from the file position to the end.  `recStep` and `recLoop` describe `step` and
`loop` on that list; `step_abs` and `loop_abs` prove the correspondence. -/

/-- Big-endian value of the 3 bytes at index `i` of `d`. -/
def be24 (d : List Nat) (i : Nat) : Nat :=
  d.getD i 0 * 65536 + d.getD (i + 1) 0 * 256 + d.getD (i + 2) 0

/-- Big-endian value of the 4 bytes at index `i` of `d`. -/
def be32 (d : List Nat) (i : Nat) : Nat :=
  d.getD i 0 * 16777216 + d.getD (i + 1) 0 * 65536 + d.getD (i + 2) 0 * 256 + d.getD (i + 3) 0

/-- The timestamp `main` computes from a record that starts `d`:
`u24be(tag + 4) | (tag[7] << 24)`. -/
def parsedTimestamp (W : Nat) (d : List Nat) : Nat :=
  be24 d 4 ||| intToULong W (d.getD 7 0 <<< 24)

/-- The loop state without the tag buffer: `rest` holds the bytes from the file position to
the end of the stream. -/
structure RecState where
  rest : List Nat
  eof : Bool
  endIsError : Bool
  prevTimestamp : Nat
  running : Bool
  iter : Nat

/-- Result of one iteration on a `RecState`. -/
inductive RecResult where
  | exit (ret : Nat) (events : List Event)
  | next (s : RecState) (events : List Event)

/-- The part of a `LoopState` the loop depends on. -/
def abs (s : LoopState) : RecState :=
  { rest := s.flv.data.drop s.flv.pos, eof := s.flv.eof, endIsError := s.flv.endIsError,
    prevTimestamp := s.prevTimestamp, running := s.running, iter := s.iter }

/-- One iteration of the read loop on the remaining bytes. -/
def recStep (W : Nat) (env : Env) (p : RecState) : RecResult :=
  if p.rest.length < 11 then
    if p.eof || !p.endIsError then
      .next { p with rest := [], eof := true, running := false, iter := p.iter + 1 } []
    else .exit EXIT_FAILURE [.diag .shortHeader]
  else
    let size := be24 p.rest 1
    if p.rest.length < 11 + size then .exit EXIT_FAILURE [.diag .shortPayload]
    else if p.rest.length < 15 + size then .exit EXIT_FAILURE [.diag .shortTagSize]
    else if be32 p.rest (11 + size) ≠ 11 + size then .exit EXIT_FAILURE [.diag .sizeMismatch]
    else
      let timestamp := parsedTimestamp W p.rest
      let w := Event.rtmpWrite (p.rest.take (15 + size))
      if !env.writeOk p.iter then .exit EXIT_FAILURE [w, .diag .rtmpWrite]
      else if !env.selectOk p.iter then .exit EXIT_FAILURE [w, .diag .select]
      else
        let rp := if env.readable p.iter then [Event.readPacket] else []
        .next
          { rest := p.rest.drop (15 + size), eof := p.eof, endIsError := p.endIsError,
            prevTimestamp := if p.prevTimestamp < timestamp then timestamp else p.prevTimestamp,
            running := p.running && !env.signal p.iter, iter := p.iter + 1 }
          (w :: rp ++ if p.prevTimestamp < timestamp then
              [.usleep ((timestamp - p.prevTimestamp) % 4294967296)] else [])

/-- The read loop on the remaining bytes, with the same bound as `loop`. -/
def recLoop (W : Nat) (env : Env) : Nat → RecState → Option (Nat × List Event)
  | 0, _ => none
  | fuel + 1, p =>
    if !p.running then some (EXIT_SUCCESS, [])
    else
      match recStep W env p with
      | .exit ret events => some (ret, events)
      | .next p' events => (recLoop W env fuel p').map (fun r => (r.1, events ++ r.2))

end rtmpcast

namespace rtmpcast

/-- The byte lists handed to `RTMP_Write`, in order. -/
def writes : List Event → List (List Nat)
  | [] => []
  | .rtmpWrite b :: es => b :: writes es
  | _ :: es => writes es

/-- Record grammar of the spec at the head of `d`: an 11-byte header whose bytes 1 to 3 hold
the payload size big-endian, `size` payload bytes, and a 4-byte big-endian trailer equal to
`11 + size`. -/
def validHead (d : List Nat) : Prop :=
  11 ≤ d.length ∧ 15 + be24 d 1 ≤ d.length ∧ be32 d (11 + be24 d 1) = 11 + be24 d 1

instance (d : List Nat) : Decidable (validHead d) := by
  unfold validHead
  infer_instance

/-- The records of the spec's grammar found one after the other from the head of `d`, each as
its `11 + size + 4` bytes; stops at the first position that does not start a record.  The
first argument bounds the number of records (`d.length` is enough). -/
def splitRecords : Nat → List Nat → List (List Nat)
  | 0, _ => []
  | n + 1, d =>
    if validHead d then d.take (15 + be24 d 1) :: splitRecords n (d.drop (15 + be24 d 1))
    else []

end rtmpcast

namespace rtmpcast

/-- The argument of the first `usleep` before the next `RTMP_Write`, 0 when there is none. -/
def sleepAfter : List Event → Nat
  | [] => 0
  | .usleep n :: _ => n
  | .rtmpWrite _ :: _ => 0
  | _ :: es => sleepAfter es

/-- For every record handed to `RTMP_Write`, in order, the argument of the `usleep` issued
for it (0 when `usleep` is not called for it). -/
def sleepPerRecord : List Event → List Nat
  | [] => []
  | .rtmpWrite _ :: es => sleepAfter es :: sleepPerRecord es
  | _ :: es => sleepPerRecord es

/-- The delay section of the loop body on a list of timestamps: with `prev` the value of
`prevTimestamp`, a timestamp above `prev` costs `usleep(timestamp - prev)` (the argument
converted to the 32-bit `useconds_t`) and becomes `prev`; any other costs nothing. -/
def paced : Nat → List Nat → List Nat
  | _, [] => []
  | prev, t :: ts =>
    if prev < t then (t - prev) % 4294967296 :: paced t ts else 0 :: paced prev ts

/-- The sleeps as the spec words them: `max(0, timestamp[n] - timestamp[n-1])` for record `n`,
the timestamp before the first record being `prev`. -/
def specSleeps : Nat → List Nat → List Nat
  | _, [] => []
  | prev, t :: ts => (t - prev) :: specSleeps t ts

/-- The sleeps as amended: for each timestamp its excess over the largest timestamp before it
(`m` at the start), zero when it is not larger, reduced to the 32 bits of `useconds_t`. -/
def excessSleeps : Nat → List Nat → List Nat
  | _, [] => []
  | m, t :: ts => (t - m) % 4294967296 :: excessSleeps (max m t) ts

end rtmpcast

/-- The sample file with a third record of timestamp 20 inserted before the last one: record
timestamps 0, 40, 20, 90. -/
def unorderedFlv : List Nat :=
  [0x46, 0x4C, 0x56, 1, 5, 0, 0, 0, 9, 0, 0, 0, 0,
   9, 0, 0, 1, 0, 0, 0, 0, 0, 0, 0, 0xAB, 0, 0, 0, 12,
   8, 0, 0, 2, 0, 0, 40, 0, 0, 0, 0, 0xCD, 0xEF, 0, 0, 0, 13,
   8, 0, 0, 0, 0, 0, 20, 0, 0, 0, 0, 0, 0, 0, 11,
   9, 0, 0, 0, 0, 0, 90, 0, 0, 0, 0, 0, 0, 0, 11]

/-- A generation environment for testpattern: the tag buffer at address 0, every frame
encoded as the key frame `[1, 2, 3]`, every call successful, no signal, and the clock reading
60 ms at every call. -/
def sampleGenEnv : testpattern.Env :=
  { tag := 0, encode := fun _ => (3, [1, 2, 3], 1), writeOk := fun _ => true,
    selectOk := fun _ => true, readable := fun _ => false, signal := fun _ => false,
    clock := fun _ => (0, 60000) }

/-- A small FLV file: the 9-byte header (video and audio present, first record at offset 9),
the 4 bytes of PreviousTagSize0, and three records with the timestamps 0, 40 and 90 and
payloads of 1, 2 and 0 bytes. -/
def sampleFlv : List Nat :=
  [0x46, 0x4C, 0x56, 1, 5, 0, 0, 0, 9, 0, 0, 0, 0,
   9, 0, 0, 1, 0, 0, 0, 0, 0, 0, 0, 0xAB, 0, 0, 0, 12,
   8, 0, 0, 2, 0, 0, 40, 0, 0, 0, 0, 0xCD, 0xEF, 0, 0, 0, 13,
   9, 0, 0, 0, 0, 0, 90, 0, 0, 0, 0, 0, 0, 0, 11]

/-- An environment in which every call succeeds and no signal arrives: three arguments,
the tag buffer at address 0 of a zeroed memory, the input file holding `data`. -/
def sampleEnv (data : List Nat) : rtmpcast.Env :=
  { argc := 3, mallocOk := true, tag := 0, mem := fun _ => 0,
    flv := some ⟨data, 0, false, false⟩, rtmpAllocOk := true, connectOk := true,
    connectStreamOk := true, writeOk := fun _ => true, selectOk := fun _ => true,
    readable := fun _ => false, signal := fun _ => false }

namespace waveform

/-- Writer `u24be(p, value)` of waveform.c. -/
def u24be (m : Mem) (p value : Nat) : Mem × Nat :=
  let m := store m p (value >>> 16 &&& 0xFF)
  let m := store m (p + 1) (value >>> 8 &&& 0xFF)
  let m := store m (p + 2) (value &&& 0xFF)
  (m, p + 3)

/-- Writer `u32be(p, value)` of waveform.c. -/
def u32be (m : Mem) (p value : Nat) : Mem × Nat :=
  let m := store m p (value >>> 24 &&& 0xFF)
  let m := store m (p + 1) (value >>> 16 &&& 0xFF)
  let m := store m (p + 2) (value >>> 8 &&& 0xFF)
  let m := store m (p + 3) (value &&& 0xFF)
  (m, p + 4)

/-- Function `flv_TagFinish(tag, p)` of waveform.c. -/
def flv_TagFinish (m : Mem) (tag p : Nat) : Mem × Nat :=
  let payloadSize := toU32 ((p : Int) - ((tag : Int) + 11))
  let m := (u24be m (tag + 1) payloadSize).1
  let m := (u32be m p ((11 + payloadSize) % 4294967296)).1
  (m, (11 + payloadSize + 4) % 4294967296)

/-- Macro `SAMPLE_RATE`. -/
def SAMPLE_RATE : Nat := 44100

/-- Macro `SAMPLE_COUNT`. -/
def SAMPLE_COUNT : Nat := 1024

/-- Macro `TIMESTAMP_INCREMENT`, `(1000.0 / (SAMPLE_RATE / SAMPLE_COUNT))`: the inner
quotient is a division of two `int` constants. -/
def TIMESTAMP_INCREMENT : F64 :=
  F64.div (F64.ofNat 1000) (F64.ofNat (SAMPLE_RATE / SAMPLE_COUNT))

/-- Function `getTimestamp()` of waveform.c. -/
def getTimestamp (tv_sec tv_usec : Nat) : Nat := (tv_sec * 1000 + tv_usec / 1000) % 4294967296

/-- The value of `delay_time` in `main` of waveform.c, the same expression as in
testpattern.c. -/
def delay_time (frame now start : Nat) : Int :=
  F64.toInt (F64.sub (F64.mul (F64.ofNat frame) TIMESTAMP_INCREMENT)
    (F64.ofNat ((now + 4294967296 - start) % 4294967296)))

/-- The statements after `delay_time` is computed, as in testpattern.c. -/
def sleepEvents (delay : Int) : List GenEvent :=
  if 0 < delay then [.usleep ((1000 * delay).toNat % 4294967296)] else []

/-- Function `flv_TagHeader(p, type, timestamp)` of waveform.c. -/
def flv_TagHeader (m : Mem) (p type timestamp : Nat) : Mem × Nat :=
  let m := store m p type
  let p := p + 1
  let p := p + 3
  let (m, p) := u24be m p (timestamp &&& 0x00FFFFFF)
  let m := store m p (timestamp >>> 24 &&& 0xFF)
  let p := p + 1
  u24be m p 0

/-- Function `flv_AVCVideoPacket(p, keyframe, type, composition_time)` of waveform.c, where
`type` is a `uint8_t`. -/
def flv_AVCVideoPacket (m : Mem) (p keyframe type : Nat) (composition_time : Int) : Mem × Nat :=
  let m := if keyframe ≠ 0 then store m p 0x17 else store m p 0x27
  let m := store m (p + 1) type
  u24be m (p + 2) (toU32 composition_time)

/-- The argument `frame * TIMESTAMP_INCREMENT` of `flv_TagHeader`: a `double` converted to
`uint32_t` (truncated; taken modulo `2 ^ 32` beyond the range of the type). -/
def tagTimestamp (frame : Nat) : Nat :=
  (F64.toInt (F64.mul (F64.ofNat frame) TIMESTAMP_INCREMENT)).toNat % 4294967296

/-- Exit status `EXIT_FAILURE`. -/
def EXIT_FAILURE : Nat := 1

/-- What the generation loop of waveform cannot decide itself, by iteration number: the
result of `x264_encoder_encode` (`frame_size`, the bytes at `nals[0].p_payload`,
`pic_out.b_keyframe`), the result of `aacEncEncode` (whether it is `AACENC_OK`,
`numOutBytes`, the bytes of `outBuffer`), the results of the two `RTMP_Write`, of `select`
and `FD_ISSET`, signals, and the `timeval` of `gettimeofday`. -/
structure Env where
  tag : Nat
  encodeVideo : Nat → Int × List Nat × Nat
  encodeAudio : Nat → Bool × Int × List Nat
  videoWriteOk : Nat → Bool
  audioWriteOk : Nat → Bool
  selectOk : Nat → Bool
  readable : Nat → Bool
  signal : Nat → Bool
  clock : Nat → Nat × Nat

/-- The variables of `main` that change in the generation loop. -/
structure LoopState where
  mem : Mem
  frame : Nat
  running : Bool
  iter : Nat

/-- Result of one iteration: an exit with its status (a jump to `restoreSig`, or the
`return 1` after a failed `aacEncEncode`), or the state at the next evaluation of
`while (running)`. -/
inductive StepResult where
  | exit (ret : Nat) (events : List GenEvent)
  | next (s : LoopState) (events : List GenEvent)

/-- The body of `while (running)` in `main` of waveform.c: a video record, then an audio
record. -/
def step (W : Nat) (env : Env) (start : Nat) (s : LoopState) : StepResult :=
  let tag := env.tag
  let line := GenEvent.frameLine s.frame
    ((F64.toInt (F64.mul (F64.ofNat s.frame) TIMESTAMP_INCREMENT)).toNat % 2 ^ W)
  let (frame_size, nal, b_keyframe) := env.encodeVideo s.iter
  if frame_size ≤ 0 then .exit EXIT_FAILURE [line, .diag .encode]
  else
    let (m, p) := flv_TagHeader s.mem tag 9 (tagTimestamp s.frame)
    let (m, p) := flv_AVCVideoPacket m p b_keyframe 1 0
    let m := memcpy m p nal frame_size.toNat
    let p := p + frame_size.toNat
    let (m, tagSize) := flv_TagFinish m tag p
    let video := [line, GenEvent.debugWrite (readBytes m tag tagSize),
      .rtmpWrite (readBytes m tag tagSize)]
    if !env.videoWriteOk s.iter then .exit EXIT_FAILURE (video ++ [.diag .rtmpWriteFrame])
    else
      let (ok, numOutBytes, outBuffer) := env.encodeAudio s.iter
      if !ok then .exit 1 (video ++ [.diag .aacEncode])
      else
        let (mem, audio, failed) :=
          if numOutBytes ≤ 0 then (m, [GenEvent.diag .aacNoBytes], false)
          else
            let (m, p) := flv_TagHeader m tag 8 (tagTimestamp s.frame)
            let m := store m p 0xAF
            let p := p + 1
            let m := store m p 1
            let p := p + 1
            let m := memcpy m p outBuffer numOutBytes.toNat
            let p := p + numOutBytes.toNat
            let (m, tagSize) := flv_TagFinish m tag p
            (m, [GenEvent.debugWrite (readBytes m tag tagSize),
              .rtmpWrite (readBytes m tag tagSize)], !env.audioWriteOk s.iter)
        if failed then .exit EXIT_FAILURE (video ++ audio ++ [.diag .rtmpWriteAudio])
        else if !env.selectOk s.iter then .exit EXIT_FAILURE (video ++ audio ++ [.diag .select])
        else
          let rp := if env.readable s.iter then [GenEvent.readPacket] else []
          let frame := (s.frame + 1) % 2 ^ W
          let now := getTimestamp (env.clock s.iter).1 (env.clock s.iter).2
          .next { mem := mem, frame := frame, running := s.running && !env.signal s.iter,
                  iter := s.iter + 1 }
            (video ++ audio ++ rp ++ .gettimeofday :: sleepEvents (delay_time frame now start))

/-- The state at the start of the iteration reached after `k` more iterations of the loop,
`none` when the loop ends before. -/
def stateAfter (W : Nat) (env : Env) (start : Nat) : Nat → LoopState → Option LoopState
  | 0, s => some s
  | k + 1, s =>
    if !s.running then none
    else
      match step W env start s with
      | .exit _ _ => none
      | .next s' _ => stateAfter W env start k s'

end waveform

/-- Big-endian rendering of `v` in `n` bytes (most significant byte first). -/
def beBytes : Nat → Nat → List Nat
  | 0, _ => []
  | n + 1, v => beBytes n (v / 256) ++ [v % 256]

/-! ### AMF writers, decoder configuration record and the `main` functions of the generators -/

/-- A sequence of memory writes `f` that starts at the pointer it is given writes exactly the
bytes `bs`: it returns the pointer advanced by their number, the bytes stand at the addresses
from the pointer on, and every other address keeps its content. -/
def isWrite (f : Mem → Nat → Mem × Nat) (bs : List Nat) : Prop :=
  ∀ m p, (f m p).2 = p + bs.length
    ∧ (∀ i, i < bs.length → (f m p).1 (p + i) = bs.getD i 0)
    ∧ (∀ x, x < p ∨ p + bs.length ≤ x → (f m p).1 x = m x)

/-- The call `strlen(str)` for the character array `s` followed by a terminating NUL. -/
def strlen (s : List Nat) : Nat := (s.takeWhile (fun c => c != 0)).length

/-- The array of an ASCII string literal: its characters and the terminating NUL. -/
def cstr (s : String) : List Nat := s.toList.map Char.toNat ++ [0]

/-- The object representation of the `double` with the IEEE 754 bit pattern `bits` in the
memory of the host: most significant byte first on a big-endian host, last on a
little-endian one. -/
def hostBytes (bigEndian : Bool) (bits : Nat) : List Nat :=
  if bigEndian then beBytes 8 bits else (beBytes 8 bits).reverse

/-- Number of bits of `n`; the first argument bounds the recursion and `n` is enough. -/
def bitLength : Nat → Nat → Nat
  | 0, _ => 0
  | fuel + 1, n => if n = 0 then 0 else bitLength fuel (n / 2) + 1

/-- The IEEE 754 binary64 bit pattern of a `double` (normal range). -/
def F64.toBits (x : F64) : Nat :=
  let a := x.num.natAbs
  if a = 0 then 0
  else
    let len := bitLength a a
    let mant := if len ≤ 53 then a * 2 ^ (53 - len) else a / 2 ^ (len - 53)
    let e : Int := (len : Int) - 1 - (x.exp : Int)
    (if x.num < 0 then 2 ^ 63 else 0) + (e + 1023).toNat * 2 ^ 52 + (mant - 2 ^ 52)

/-- Enum value `NAL_SPS` of x264.h. -/
def NAL_SPS : Int := 7

/-- Enum value `NAL_PPS` of x264.h. -/
def NAL_PPS : Int := 8

/-- The fields of an `x264_nal_t` that the programs read: `i_type`, `i_payload`, and the bytes
of memory from the address `p_payload` on. -/
structure Nal where
  i_type : Int
  i_payload : Int
  p_payload : List Nat
deriving DecidableEq, Repr

/-- Conversion of a C integer to `uint16_t`. -/
def toU16 (i : Int) : Nat := (i % 65536).toNat

/-- The element `pp_nal[i]`; outside the array the program would read foreign memory. -/
def nalAt (pp_nal : List Nal) (i : Int) : Nal := pp_nal.getD i.toNat ⟨0, 0, []⟩

/-- The arguments of the `RTMP_Write` calls among the events, in order. -/
def rtmpWrites : List GenEvent → List (List Nat)
  | [] => []
  | .rtmpWrite b :: rest => b :: rtmpWrites rest
  | _ :: rest => rtmpWrites rest

namespace testpattern

/-- Function `f64be(p, input)`: `input` is the bit pattern of the `double`, `bigEndian` the
byte order of the host.  The test compares the object representation of `1.0` with
`testBE`. -/
def f64be (bigEndian : Bool) (m : Mem) (p input : Nat) : Mem × Nat :=
  let value := hostBytes bigEndian input
  let testVal := hostBytes bigEndian 0x3FF0000000000000
  let testBE := [0x3F, 0xF0, 0, 0, 0, 0, 0, 0]
  if testVal = testBE then (memcpy m p value 8, p + 8)
  else ((List.range 8).foldl (fun m i => store m (p + i) (value.getD (7 - i) 0)) m, p + 8)

/-- Function `pstring(p, str)`: `string_length` is a `uint16_t`. -/
def pstring (m : Mem) (p : Nat) (str : List Nat) : Mem × Nat :=
  let string_length := strlen str % 65536
  let m := store m p (string_length >>> 8 &&& 0xFF)
  let m := store m (p + 1) (string_length &&& 0xFF)
  let m := memcpy m (p + 2) str string_length
  (m, p + 2 + string_length)

/-- Function `amf_number(p, value)`. -/
def amf_number (bigEndian : Bool) (m : Mem) (p value : Nat) : Mem × Nat :=
  let m := store m p 0x00
  f64be bigEndian m (p + 1) value

/-- Function `amf_string(p, str)`. -/
def amf_string (m : Mem) (p : Nat) (str : List Nat) : Mem × Nat :=
  let m := store m p 0x02
  pstring m (p + 1) str

/-- Function `amf_ecma_array(p, entries)`. -/
def amf_ecma_array (m : Mem) (p entries : Nat) : Mem × Nat :=
  let m := store m p 0x08
  u32be m (p + 1) entries

/-- Function `amf_ecma_array_end(p)`. -/
def amf_ecma_array_end (m : Mem) (p : Nat) : Mem × Nat := u24be m p 0x000009

/-- Function `amf_ecma_array_entry(p, str, value)`. -/
def amf_ecma_array_entry (bigEndian : Bool) (m : Mem) (p : Nat) (str : List Nat) (value : Nat) :
    Mem × Nat :=
  let (m, p) := pstring m p str
  amf_number bigEndian m p value

/-- Function `h264_AVCDecoderConfigurationRecord(p, sps, sps_length, pps, pps_length)`; `sps`
and `pps` are the bytes of memory from the two pointers on. -/
def h264_AVCDecoderConfigurationRecord (m : Mem) (p : Nat) (sps : List Nat) (sps_length : Nat)
    (pps : List Nat) (pps_length : Nat) : Mem × Nat :=
  let m := store m p 0x01
  let m := store m (p + 1) (sps.getD 1 0)
  let m := store m (p + 2) (sps.getD 2 0)
  let m := store m (p + 3) (sps.getD 3 0)
  let m := store m (p + 4) (0b11111100 ||| 0b11)
  let m := store m (p + 5) (0b11100000 ||| 1)
  let p := p + 6
  let (m, p) := u16be m p sps_length
  let m := memcpy m p sps sps_length
  let p := p + sps_length
  let (m, p) := u16be m p pps_length
  let m := memcpy m p pps pps_length
  let p := p + pps_length
  (m, p)

/-- The call sequence of an associative array: `amf_ecma_array(p, n)` for the `n` pairs of the
list, `amf_ecma_array_entry` for each pair in list order, `amf_ecma_array_end`. -/
def writeEcmaArray (bigEndian : Bool) (m : Mem) (p : Nat) (pairs : List (List Nat × Nat)) :
    Mem × Nat :=
  let r := amf_ecma_array m p pairs.length
  let r := pairs.foldl (fun r kv => amf_ecma_array_entry bigEndian r.1 r.2 kv.1 kv.2) r
  amf_ecma_array_end r.1 r.2

/-- Exit status `EXIT_SUCCESS`. -/
def EXIT_SUCCESS : Nat := 0

/-- Macro `WIDTH`. -/
def WIDTH : Nat := 640

/-- Macro `HEIGHT`. -/
def HEIGHT : Nat := 360

/-- The loop `for (int i = 0; i < pi_nal; i ++)` that locates the SPS and the PPS, from index
`i` on with the current `sps_id` and `pps_id`: the diagnostic of the `goto freeRTMP` taken,
or the final `sps_id` and `pps_id`. -/
def scanFrom : List Nal → Nat → Int → Int → Except GenDiag (Int × Int)
  | [], _, sps_id, pps_id => .ok (sps_id, pps_id)
  | nal :: rest, i, sps_id, pps_id =>
    if nal.i_type = NAL_SPS then
      if sps_id > -1 then .error .multipleSps else scanFrom rest (i + 1) i pps_id
    else if nal.i_type = NAL_PPS then
      if pps_id > -1 then .error .multiplePps else scanFrom rest (i + 1) sps_id i
    else scanFrom rest (i + 1) sps_id pps_id

/-- The statements of `main` that locate the SPS and PPS: the loop from `sps_id = -1`,
`pps_id = -1`, and the check that both were found. -/
def scan (pp_nal : List Nal) : Except GenDiag (Int × Int) :=
  match scanFrom pp_nal 0 (-1) (-1) with
  | .error d => .error d
  | .ok (sps_id, pps_id) =>
    if sps_id = -1 ∨ pps_id = -1 then .error .missingSpsPps else .ok (sps_id, pps_id)

/-- The statements of `main` that build the sequence header tag from the two NALs:
`flv_TagHeader(tag, 9, 0)`, `flv_AVCVideoPacket(p, 1, 0, 0)`,
`h264_AVCDecoderConfigurationRecord(p, sps.p_payload + 4, sps.i_payload,
pps.p_payload + 4, pps.i_payload)`, `flv_TagFinish`. -/
def sequenceHeader (m : Mem) (tag : Nat) (sps pps : Nal) : Mem × Nat :=
  let (m, p) := flv_TagHeader m tag 9 0
  let (m, p) := flv_AVCVideoPacket m p 1 0 0
  let (m, p) := h264_AVCDecoderConfigurationRecord m p (sps.p_payload.drop 4)
    (toU16 sps.i_payload) (pps.p_payload.drop 4) (toU16 pps.i_payload)
  flv_TagFinish m tag p

/-- The statements of `main` that build the onMetaData tag. -/
def metaDataTag (bigEndian : Bool) (m : Mem) (tag : Nat) : Mem × Nat :=
  let (m, p) := flv_TagHeader m tag 18 0
  let (m, p) := amf_string m p (cstr "onMetaData")
  let (m, p) := amf_ecma_array m p 4
  let (m, p) := amf_ecma_array_entry bigEndian m p (cstr "width") (F64.toBits (F64.ofNat WIDTH))
  let (m, p) := amf_ecma_array_entry bigEndian m p (cstr "height") (F64.toBits (F64.ofNat HEIGHT))
  let (m, p) := amf_ecma_array_entry bigEndian m p (cstr "framerate") (F64.toBits (F64.ofNat FPS))
  let (m, p) := amf_ecma_array_entry bigEndian m p (cstr "videocodecid")
    (F64.toBits (F64.ofNat 7))
  let (m, p) := amf_ecma_array_end m p
  flv_TagFinish m tag p

/-- How the loop `while (running)` ended: by a jump out of it with the exit status, or by its
condition, with the state then. -/
inductive LoopEnd where
  | exit (ret : Nat)
  | done (s : LoopState)

/-- The loop `while (running) { ... }` of `main`, with a bound on the number of evaluations
of its condition (`none` when the bound is reached: the loop runs until a signal or a
failure). -/
def loop (W : Nat) (env : Env) (start : Nat) :
    Nat → LoopState → Option (LoopEnd × List GenEvent)
  | 0, _ => none
  | fuel + 1, s =>
    if !s.running then some (.done s, [])
    else
      match step W env start s with
      | .exit ret events => some (.exit ret, events)
      | .next s' events => (loop W env start fuel s').map (fun r => (r.1, events ++ r.2))

/-- The statements after the loop that send the end-of-stream indicator, for the final value
of `frame`: the tag is built, mirrored and written; a failed write sets `ret`. -/
def endOfStream (m : Mem) (tag frame : Nat) (writeOk : Bool) : Nat × List GenEvent :=
  let (m, p) := flv_TagHeader m tag 9 (tagTimestamp frame)
  let (m, p) := flv_AVCVideoPacket m p 1 2 0
  let (m, tagSize) := flv_TagFinish m tag p
  let sent := [GenEvent.debugWrite (readBytes m tag tagSize), .rtmpWrite (readBytes m tag tagSize)]
  if !writeOk then (EXIT_FAILURE, sent ++ [.diag .rtmpWrite]) else (EXIT_SUCCESS, sent)

/-- The loop and the statements that follow it up to `return ret`, from a loop state: exit
status and events. -/
def stream (W : Nat) (env : Env) (start : Nat) (eosWriteOk : Bool) (fuel : Nat) (s : LoopState) :
    Option (Nat × List GenEvent) :=
  match loop W env start fuel s with
  | none => none
  | some (.exit ret, events) => some (ret, events)
  | some (.done s', events) =>
    let r := endOfStream s'.mem env.tag s'.frame eosWriteOk
    some (r.1, events ++ r.2)

/-- What `main` of testpattern cannot decide itself: the argument count, the byte order of
the host, the memory, the results of `malloc` and of the librtmp calls, the result of
`x264_encoder_headers` (`header_size` and the array `pp_nal` of `pi_nal` NALs), the results
of the writes outside the loop, the environment of the loop and the `timeval` read before
it. -/
structure MainEnv where
  argc : Nat
  bigEndian : Bool
  mem : Mem
  mallocOk : Bool
  rtmpAllocOk : Bool
  connectOk : Bool
  connectStreamOk : Bool
  metaWriteOk : Bool
  header_size : Int
  pp_nal : List Nal
  headerWriteOk : Bool
  startClock : Nat × Nat
  eosWriteOk : Bool
  loopEnv : Env

/-- The array `flvHeader` written to the sidecar file. -/
def flvHeader : List Nat := [0x46, 0x4C, 0x56, 0x01, 0x01, 0, 0, 0, 9, 0, 0, 0, 0]

/-- The function `main` of testpattern.c (with `DEBUG` set): exit status and events; `fuel`
bounds the number of loop iterations. -/
def main (W : Nat) (env : MainEnv) (fuel : Nat) : Option (Nat × List GenEvent) :=
  if env.argc ≠ 2 then some (EXIT_SUCCESS, [.usage])
  else
    let tag := env.loopEnv.tag
    let e0 := [GenEvent.debugOpen, .debugWrite flvHeader, .malloc]
    if !env.mallocOk then some (EXIT_FAILURE, e0 ++ [.diag .allocTag])
    else if !env.rtmpAllocOk then some (EXIT_FAILURE, e0 ++ [.rtmpAlloc, .diag .rtmpObject])
    else if !env.connectOk then
      some (EXIT_FAILURE, e0 ++ [.rtmpAlloc, .rtmpConnect, .diag .connect])
    else if !env.connectStreamOk then
      some (EXIT_FAILURE, e0 ++ [.rtmpAlloc, .rtmpConnect, .rtmpConnectStream,
        .diag .connectStream])
    else
      let (m, tagSize) := metaDataTag env.bigEndian env.mem tag
      let e1 := e0 ++ [.rtmpAlloc, .rtmpConnect, .rtmpConnectStream,
        .debugWrite (readBytes m tag tagSize), .rtmpWrite (readBytes m tag tagSize)]
      if !env.metaWriteOk then some (EXIT_FAILURE, e1 ++ [.diag .rtmpWrite])
      else if env.header_size ≤ 0 then some (EXIT_FAILURE, e1 ++ [.diag .encodeHeaders])
      else
        match scan env.pp_nal with
        | .error d => some (EXIT_FAILURE, e1 ++ [.diag d])
        | .ok (sps_id, pps_id) =>
          let (m, tagSize) :=
            sequenceHeader m tag (nalAt env.pp_nal sps_id) (nalAt env.pp_nal pps_id)
          let e2 := e1 ++ [.debugWrite (readBytes m tag tagSize),
            .rtmpWrite (readBytes m tag tagSize)]
          if !env.headerWriteOk then some (EXIT_FAILURE, e2 ++ [.diag .rtmpWrite])
          else
            let start := getTimestamp env.startClock.1 env.startClock.2
            let s : LoopState := { mem := m, frame := 0, running := true, iter := 0 }
            (stream W env.loopEnv start env.eosWriteOk fuel s).map
              (fun r => (r.1, e2 ++ .gettimeofday :: r.2))

end testpattern

namespace waveform

/-- Writer `u16be(p, value)` of waveform.c. -/
def u16be (m : Mem) (p value : Nat) : Mem × Nat :=
  let m := store m p (value >>> 8 &&& 0xFF)
  let m := store m (p + 1) (value &&& 0xFF)
  (m, p + 2)

/-- Function `pstring(p, str)` of waveform.c: the length goes through `u16be`. -/
def pstring (m : Mem) (p : Nat) (str : List Nat) : Mem × Nat :=
  let string_length := strlen str % 65536
  let (m, p) := u16be m p string_length
  let m := memcpy m p str string_length
  (m, p + string_length)

/-- Function `h264_AVCDecoderConfigurationRecord` of waveform.c. -/
def h264_AVCDecoderConfigurationRecord (m : Mem) (p : Nat) (sps : List Nat) (sps_length : Nat)
    (pps : List Nat) (pps_length : Nat) : Mem × Nat :=
  let m := store m p 0x01
  let m := store m (p + 1) (sps.getD 1 0)
  let m := store m (p + 2) (sps.getD 2 0)
  let m := store m (p + 3) (sps.getD 3 0)
  let m := store m (p + 4) (0b11111100 ||| 0b11)
  let m := store m (p + 5) (0b11100000 ||| 1)
  let p := p + 6
  let (m, p) := u16be m p sps_length
  let m := memcpy m p sps sps_length
  let p := p + sps_length
  let (m, p) := u16be m p pps_length
  let m := memcpy m p pps pps_length
  let p := p + pps_length
  (m, p)

/-- The statements of `main` of waveform.c that build the sequence header tag: the SPS is
taken from `pp_nal[0]` and the PPS from `pp_nal[1]`, without a scan. -/
def sequenceHeader (m : Mem) (tag : Nat) (pp_nal : List Nal) : Mem × Nat :=
  let (m, p) := flv_TagHeader m tag 9 0
  let (m, p) := flv_AVCVideoPacket m p 1 0 0
  let (m, p) := h264_AVCDecoderConfigurationRecord m p ((nalAt pp_nal 0).p_payload.drop 4)
    (toU16 (nalAt pp_nal 0).i_payload) ((nalAt pp_nal 1).p_payload.drop 4)
    (toU16 (nalAt pp_nal 1).i_payload)
  flv_TagFinish m tag p

/-- Exit status `EXIT_SUCCESS`. -/
def EXIT_SUCCESS : Nat := 0

/-- How the loop `while (running)` ended: by an exit out of it with the status, or by its
condition, with the state then. -/
inductive LoopEnd where
  | exit (ret : Nat)
  | done (s : LoopState)

/-- The loop `while (running) { ... }` of `main` of waveform.c, with a bound on the number of
evaluations of its condition. -/
def loop (W : Nat) (env : Env) (start : Nat) :
    Nat → LoopState → Option (LoopEnd × List GenEvent)
  | 0, _ => none
  | fuel + 1, s =>
    if !s.running then some (.done s, [])
    else
      match step W env start s with
      | .exit ret events => some (.exit ret, events)
      | .next s' events => (loop W env start fuel s').map (fun r => (r.1, events ++ r.2))

/-- The statements after the loop of waveform.c that send the end-of-stream indicator. -/
def endOfStream (m : Mem) (tag frame : Nat) (writeOk : Bool) : Nat × List GenEvent :=
  let (m, p) := flv_TagHeader m tag 9 (tagTimestamp frame)
  let (m, p) := flv_AVCVideoPacket m p 1 2 0
  let (m, tagSize) := flv_TagFinish m tag p
  let sent := [GenEvent.debugWrite (readBytes m tag tagSize), .rtmpWrite (readBytes m tag tagSize)]
  if !writeOk then (EXIT_FAILURE, sent ++ [.diag .rtmpWrite]) else (EXIT_SUCCESS, sent)

/-- The loop of waveform.c and the statements that follow it up to `return ret`, from a loop
state: exit status and events. -/
def stream (W : Nat) (env : Env) (start : Nat) (eosWriteOk : Bool) (fuel : Nat) (s : LoopState) :
    Option (Nat × List GenEvent) :=
  match loop W env start fuel s with
  | none => none
  | some (.exit ret, events) => some (ret, events)
  | some (.done s', events) =>
    let r := endOfStream s'.mem env.tag s'.frame eosWriteOk
    some (r.1, events ++ r.2)

end waveform

/-! ### Values named by the claims -/

/-- The value of a big-endian byte sequence. -/
def fromBE (bs : List Nat) : Nat := bs.foldl (fun acc b => acc * 256 + b) 0

/-- The end-of-stream record with the timestamp `ts` as the specification words it: type 9,
size 5, the low 24 bits of the timestamp and its high byte, stream id 0, payload
`17 02 00 00 00`, trailer 16. -/
def specEosRecord (ts : Nat) : List Nat :=
  [9, 0, 0, 5] ++ beBytes 3 (ts % 16777216)
    ++ [ts / 16777216 % 256, 0, 0, 0, 0x17, 2, 0, 0, 0, 0, 0, 0, 16]

/-- The wire form of an associative array of (key, number) pairs as the specification words
it: the marker 0x08, the count in 4 bytes big-endian, per pair the key length in 2 bytes
big-endian, the key bytes, the marker 0x00 and the 8 bytes of the number, and the end marker
`00 00 09`. -/
def specEcmaBytes (pairs : List (List Nat × Nat)) : List Nat :=
  [8] ++ beBytes 4 pairs.length
    ++ (pairs.map (fun kv => beBytes 2 kv.1.length ++ kv.1 ++ 0 :: beBytes 8 kv.2)).flatten
    ++ [0, 0, 9]

/-- Reader of `count` (key, number) pairs of the wire form of the specification: for each, a
2-byte big-endian length, the key bytes, the marker 0x00 and 8 bytes of the number.  Returns
the pairs and the bytes left. -/
def specDecodePairs : Nat → List Nat → Option (List (List Nat × Nat) × List Nat)
  | 0, bs => some ([], bs)
  | count + 1, hi :: lo :: rest =>
    let len := hi * 256 + lo
    if rest.length < len + 9 then none
    else if (rest.drop len).head? ≠ some 0 then none
    else
      (specDecodePairs count (rest.drop (len + 9))).map
        (fun r => ((rest.take len, fromBE ((rest.drop (len + 1)).take 8)) :: r.1, r.2))
  | _ + 1, _ => none

/-- Reader of the wire form of an associative array of the specification: the marker 0x08,
the 4-byte big-endian count, that many pairs, and the end marker `00 00 09`.  Returns the
count and the pairs. -/
def specDecodeEcmaArray : List Nat → Option (Nat × List (List Nat × Nat))
  | 8 :: c3 :: c2 :: c1 :: c0 :: rest =>
    match specDecodePairs (fromBE [c3, c2, c1, c0]) rest with
    | some (pairs, [0, 0, 9]) => some (fromBE [c3, c2, c1, c0], pairs)
    | _ => none
  | _ => none

/-- The header NALs of a sample encoder: a 4-byte SPS `67 42 C0 1E` and a 2-byte PPS `68 CE`,
each behind its 4-byte length prefix, one after the other in memory, followed by the bytes
`AA BB CC DD` of whatever comes next there. -/
def sampleHeaderNals : List Nal :=
  [⟨7, 8, [0, 0, 0, 4, 0x67, 0x42, 0xC0, 0x1E, 0, 0, 0, 2, 0x68, 0xCE, 0xAA, 0xBB, 0xCC, 0xDD]⟩,
   ⟨8, 6, [0, 0, 0, 2, 0x68, 0xCE, 0xAA, 0xBB, 0xCC, 0xDD]⟩]

/-- The generation environment `sampleGenEnv` with a signal during the second iteration. -/
def sampleCancelEnv : testpattern.Env := { sampleGenEnv with signal := fun k => k == 1 }

/-- A run of testpattern in which every call succeeds, on a little-endian host, with the
headers `sampleHeaderNals` and the loop environment `sampleCancelEnv`. -/
def sampleMainEnv : testpattern.MainEnv :=
  { argc := 2, bigEndian := false, mem := fun _ => 0, mallocOk := true, rtmpAllocOk := true,
    connectOk := true, connectStreamOk := true, metaWriteOk := true, header_size := 14,
    pp_nal := sampleHeaderNals, headerWriteOk := true, startClock := (0, 0),
    eosWriteOk := true, loopEnv := sampleCancelEnv }

/-- A generation environment for waveform: the tag buffer at address 0, every picture encoded
as the key frame `[1, 2, 3]`, every audio block as `[7, 7]`, every call successful, a signal
during the first iteration, and the clock reading 60 ms at every call. -/
def sampleWaveEnv : waveform.Env :=
  { tag := 0, encodeVideo := fun _ => (3, [1, 2, 3], 1), encodeAudio := fun _ => (true, 2, [7, 7]),
    videoWriteOk := fun _ => true, audioWriteOk := fun _ => true, selectOk := fun _ => true,
    readable := fun _ => false, signal := fun k => k == 0, clock := fun _ => (0, 60000) }

/-- Number of NALs of type `t` in the list. -/
def nalCount (t : Int) (l : List Nal) : Nat := l.countP (fun n => n.i_type == t)

/-- Index of the first NAL of type `t` in the list (its length when there is none). -/
def nalIndex (t : Int) (l : List Nal) : Nat := l.findIdx (fun n => n.i_type == t)

/-- The run `sampleMainEnv` with an encoder that reports a second SPS after the PPS. -/
def twoSpsEnv : testpattern.MainEnv :=
  { sampleMainEnv with
    pp_nal := sampleHeaderNals ++ [⟨7, 8, [0, 0, 0, 4, 0x67, 0x42, 0xC0, 0x1F]⟩] }

/-! ### Buffer accesses and the pacer of rtmpcast's read loop -/

namespace rtmpcast

/-- Macro `MAX_TAG_SIZE`, the argument of `malloc` for the tag buffer. -/
def MAX_TAG_SIZE : Nat := 11 + 16777215 + 4

/-- The regions of the tag buffer, each as (first index, number of bytes), that one iteration
of the read loop hands to `fread` for storing, parses, or hands to `RTMP_Write`, in program
order: the header read, `tag[0]`, `u24be(tag + 1)`, `u24be(tag + 4)`, `tag[7]`,
`u24be(tag + 8)`, the payload read, the trailer read, `u32be(tag + (11 + payloadSize))`, and
the write of `11 + payloadSize + 4` bytes.  The control flow is that of `step`. -/
def stepAccesses (W : Nat) (env : Env) (s : LoopState) : List (Nat × Nat) :=
  let tag := env.tag
  let (n, flv, mem) := fread s.flv s.mem tag 11
  if 11 ≠ n then [(0, 11)]
  else
    let h := parseHeader W mem tag
    let header := [(0, 11), (0, 1), (1, 3), (4, 3), (7, 1), (8, 3), (11, h.payloadSize)]
    let (n, flv, mem) := fread flv mem (tag + 11) h.payloadSize
    if h.payloadSize ≠ n then header
    else
      let (n, _, mem) := fread flv mem (tag + 11 + h.payloadSize) 4
      if 4 ≠ n then header ++ [(11 + h.payloadSize, 4)]
      else if !trailerOk W mem tag h.payloadSize then
        header ++ [(11 + h.payloadSize, 4), (11 + h.payloadSize, 4), (11 + h.payloadSize, 4)]
      else
        header ++ [(11 + h.payloadSize, 4), (11 + h.payloadSize, 4),
          (0, 11 + h.payloadSize + 4)]

/-- The state at the start of the iteration reached after `k` more iterations of the read
loop, `none` when the loop ends before. -/
def stateAfter (W : Nat) (env : Env) : Nat → LoopState → Option LoopState
  | 0, s => some s
  | k + 1, s =>
    if !s.running then none
    else
      match step W env s with
      | .exit _ _ => none
      | .next s' _ => stateAfter W env k s'

/-- The value of the variable `timestamp` in the iteration that starts in state `s` and
reads a whole header. -/
def iterTimestamp (W : Nat) (env : Env) (s : LoopState) : Nat :=
  (parseHeader W (fread s.flv s.mem env.tag 11).2.2 env.tag).timestamp

/-- The next `k` iterations of the read loop when each of them processes a record up to the
delay section: the state reached, the values of `timestamp` in these iterations (oldest
first) and the events; `none` when the loop ends, exits, or meets the end of the file
before. -/
def afterRecords (W : Nat) (env : Env) :
    Nat → LoopState → Option (LoopState × List Nat × List Event)
  | 0, s => some (s, [], [])
  | k + 1, s =>
    if !s.running then none
    else
      match step W env s with
      | .exit _ _ => none
      | .next s' events =>
        if 11 ≠ (fread s.flv s.mem env.tag 11).1 then none
        else
          (afterRecords W env k s').map
            (fun r => (r.1, iterTimestamp W env s :: r.2.1, events ++ r.2.2))

/-- The arguments of the `usleep` calls among the events, in order. -/
def usleeps : List Event → List Nat
  | [] => []
  | .usleep n :: es => n :: usleeps es
  | _ :: es => usleeps es

/-- The `usleep` arguments as the claim on the pacer words them, for the timestamps of the
records processed in order and `m` the largest timestamp before them: `timestamp - m` for a
timestamp strictly greater than `m`, no call otherwise. -/
def specPacerCalls : Nat → List Nat → List Nat
  | _, [] => []
  | m, t :: ts => if m < t then (t - m) :: specPacerCalls t ts else specPacerCalls m ts

end rtmpcast

/-- An FLV file with one record whose timestamp field holds `00 00 00` and the high byte
`80`, the timestamp 0x80000000, followed by a record with the timestamp 0x80000005. -/
def highTimestampFlv : List Nat :=
  [0x46, 0x4C, 0x56, 1, 5, 0, 0, 0, 9, 0, 0, 0, 0,
   9, 0, 0, 1, 0, 0, 0, 0x80, 0, 0, 0, 0xAB, 0, 0, 0, 12,
   9, 0, 0, 0, 0, 0, 5, 0x80, 0, 0, 0, 0, 0, 0, 11]

/-! ## Arithmetic of the byte helpers -/

theorem and_255 (x : Nat) : x &&& 255 = x % 256 :=
  Nat.and_pow_two_sub_one_eq_mod x 8

theorem and_ffffff (x : Nat) : x &&& 16777215 = x % 16777216 :=
  Nat.and_pow_two_sub_one_eq_mod x 24

theorem shr8 (x : Nat) : x >>> 8 = x / 256 := Nat.shiftRight_eq_div_pow x 8
theorem shr16 (x : Nat) : x >>> 16 = x / 65536 := Nat.shiftRight_eq_div_pow x 16
theorem shr24 (x : Nat) : x >>> 24 = x / 16777216 := Nat.shiftRight_eq_div_pow x 24

theorem or_bytes2 (a b : Nat) (hb : b < 256) : a <<< 8 ||| b = a * 256 + b := by
  rw [Nat.shiftLeft_eq, Nat.mul_comm a, ← Nat.mul_add_lt_is_or (by simpa using hb)]

theorem or_bytes3 (a b c : Nat) (hb : b < 256) (hc : c < 256) :
    a <<< 16 ||| b <<< 8 ||| c = a * 65536 + b * 256 + c := by
  have h1 : a <<< 16 ||| b <<< 8 = (a * 256 + b) <<< 8 := by
    rw [Nat.shiftLeft_eq, Nat.shiftLeft_eq, Nat.shiftLeft_eq, Nat.mul_comm a,
      ← Nat.mul_add_lt_is_or (by omega)]
    omega
  rw [h1, or_bytes2 _ _ hc]
  omega

theorem or_bytes4 (a b c d : Nat) (hb : b < 256) (hc : c < 256) (hd : d < 256) :
    a <<< 24 ||| b <<< 16 ||| c <<< 8 ||| d = a * 16777216 + b * 65536 + c * 256 + d := by
  have h1 : a <<< 24 ||| b <<< 16 ||| c <<< 8 = (a * 65536 + b * 256 + c) <<< 8 := by
    have h2 : a <<< 24 ||| b <<< 16 = (a * 256 + b) <<< 16 := by
      rw [Nat.shiftLeft_eq, Nat.shiftLeft_eq, Nat.shiftLeft_eq, Nat.mul_comm a,
        ← Nat.mul_add_lt_is_or (by omega)]
      omega
    rw [h2, Nat.shiftLeft_eq, Nat.shiftLeft_eq, Nat.shiftLeft_eq, Nat.mul_comm (a * 256 + b),
      ← Nat.mul_add_lt_is_or (by omega)]
    omega
  rw [h1, or_bytes2 _ _ hd]
  omega

theorem or_high (x b : Nat) (hx : x < 16777216) : x ||| b <<< 24 = b * 16777216 + x := by
  rw [Nat.or_comm, Nat.shiftLeft_eq, Nat.mul_comm b, ← Nat.mul_add_lt_is_or (by simpa using hx)]

theorem store_apply (m : Mem) (a v x : Nat) : store m a v x = if x = a then v else m x := rfl

theorem memcpy_apply (m : Mem) (dst : Nat) (src : List Nat) (n x : Nat) :
    memcpy m dst src n x = if dst ≤ x ∧ x < dst + n then src.getD (x - dst) 0 else m x := rfl

theorem readBytes_length (m : Mem) (a n : Nat) : (readBytes m a n).length = n := by
  simp [readBytes]

theorem readBytes_getElem (m : Mem) (a n i : Nat) (h : i < (readBytes m a n).length) :
    (readBytes m a n)[i] = m (a + i) := by
  simp [readBytes]

theorem readBytes_add (m : Mem) (a n k : Nat) :
    readBytes m a (n + k) = readBytes m a n ++ readBytes m (a + n) k := by
  apply List.ext_getElem
  · simp [readBytes_length]
  · intro i h1 h2
    rw [readBytes_getElem]
    by_cases hi : i < n
    · rw [List.getElem_append_left (by simpa [readBytes_length] using hi), readBytes_getElem]
    · rw [List.getElem_append_right (by simpa [readBytes_length] using hi), readBytes_getElem]
      simp only [readBytes_length]
      congr 1
      omega

theorem toU32_diff (tag S : Nat) :
    toU32 (((tag + 11 + S : Nat) : Int) - ((tag : Int) + 11)) = S % 4294967296 := by
  unfold toU32
  omega

namespace rtmpcast

theorem intToULong_small (W n : Nat) (h : n < 2147483648) : intToULong W n = n := by
  unfold intToULong
  rw [if_pos (by omega)]
  omega

theorem u24be_eq (W : Nat) (m : Mem) (p a b c : Nat) (h0 : m p = a) (h1 : m (p + 1) = b)
    (h2 : m (p + 2) = c) (ha : a < 256) (hb : b < 256) (hc : c < 256) :
    u24be W m p = a * 65536 + b * 256 + c := by
  unfold u24be
  rw [h0, h1, h2, or_bytes3 _ _ _ hb hc, intToULong_small]
  omega

theorem u32be_eq (W : Nat) (m : Mem) (p a b c d : Nat) (h0 : m p = a) (h1 : m (p + 1) = b)
    (h2 : m (p + 2) = c) (h3 : m (p + 3) = d) (ha : a < 128) (hb : b < 256) (hc : c < 256)
    (hd : d < 256) : u32be W m p = a * 16777216 + b * 65536 + c * 256 + d := by
  unfold u32be
  rw [h0, h1, h2, h3, or_bytes4 _ _ _ _ hb hc hd, intToULong_small]
  omega

end rtmpcast

namespace testpattern

theorem buildTag_eq (m : Mem) (tag t ts : Nat) (payload : List Nat)
    (hS : payload.length ≤ 16777215) :
    buildTag m tag t ts payload =
      ((u32be (u24be (memcpy (flv_TagHeader m tag t ts).1 (tag + 11) payload payload.length)
          (tag + 1) payload.length).1 (tag + 11 + payload.length) (11 + payload.length)).1,
        payload.length + 15) := by
  have hd := toU32_diff tag payload.length
  have e1 : payload.length % 4294967296 = payload.length := Nat.mod_eq_of_lt (by omega)
  have e2 : (11 + payload.length) % 4294967296 = 11 + payload.length :=
    Nat.mod_eq_of_lt (by omega)
  have e3 : (11 + payload.length + 4) % 4294967296 = payload.length + 15 := by omega
  show flv_TagFinish _ tag (tag + 11 + payload.length) = _
  simp only [flv_TagFinish, hd, e1, e2, e3]
  rfl

theorem buildTag_header (m : Mem) (tag t ts : Nat) (payload : List Nat)
    (hS : payload.length ≤ 16777215) :
    readBytes (buildTag m tag t ts payload).1 tag 11 =
      [t, payload.length / 65536 % 256, payload.length / 256 % 256, payload.length % 256,
        ts % 16777216 / 65536 % 256, ts % 16777216 / 256 % 256, ts % 16777216 % 256,
        ts / 16777216 % 256, 0, 0, 0] := by
  rw [buildTag_eq m tag t ts payload hS]
  show [_, _, _, _, _, _, _, _, _, _, _] = _
  simp (disch := omega) only [flv_TagHeader, u24be, u32be, store_apply, memcpy_apply,
    and_255, and_ffffff, shr8, shr16, shr24, if_pos, if_neg]
  simp

theorem buildTag_payload (m : Mem) (tag t ts : Nat) (payload : List Nat)
    (hS : payload.length ≤ 16777215) :
    readBytes (buildTag m tag t ts payload).1 (tag + 11) payload.length = payload := by
  rw [buildTag_eq m tag t ts payload hS]
  apply List.ext_getElem (readBytes_length _ _ _)
  intro i h1 h2
  rw [readBytes_getElem]
  simp (disch := omega) only [u24be, u32be, store_apply, memcpy_apply, if_pos, if_neg]
  simp [List.getD_eq_getElem?_getD, h2]

theorem buildTag_trailer (m : Mem) (tag t ts : Nat) (payload : List Nat)
    (hS : payload.length ≤ 16777215) :
    readBytes (buildTag m tag t ts payload).1 (tag + 11 + payload.length) 4 =
      [(11 + payload.length) / 16777216 % 256, (11 + payload.length) / 65536 % 256,
        (11 + payload.length) / 256 % 256, (11 + payload.length) % 256] := by
  rw [buildTag_eq m tag t ts payload hS]
  show [_, _, _, _] = _
  simp (disch := omega) only [u24be, u32be, store_apply, memcpy_apply,
    and_255, shr8, shr16, shr24, if_pos, if_neg]
  simp

end testpattern

/-! ## Round trip of a built record through the rtmpcast parser -/

/-- Round trip for timestamps below `2 ^ 31`, for every width `W ≥ 32` of `unsigned long`:
the rtmpcast parser recovers type, size, timestamp and payload of a record built by
`flv_TagHeader` + payload copy + `flv_TagFinish`, and its trailer check passes. -/
theorem round_trip_below_2_31 (W : Nat) (hW : 32 ≤ W) (m : Mem) (tag t ts : Nat)
    (payload : List Nat) (hts : ts < 2147483648) (hS : payload.length ≤ 16777215) :
    rtmpcast.parseHeader W (testpattern.buildTag m tag t ts payload).1 tag
        = ⟨t, payload.length, ts, 0⟩
      ∧ readBytes (testpattern.buildTag m tag t ts payload).1 (tag + 11) payload.length = payload
      ∧ rtmpcast.trailerOk W (testpattern.buildTag m tag t ts payload).1 tag payload.length
        = true := by
  have hh := testpattern.buildTag_header m tag t ts payload hS
  have ht := testpattern.buildTag_trailer m tag t ts payload hS
  have hp := testpattern.buildTag_payload m tag t ts payload hS
  generalize (testpattern.buildTag m tag t ts payload).1 = M at hh ht hp
  have hh' : [M tag, M (tag + 1), M (tag + 2), M (tag + 3), M (tag + 4), M (tag + 5),
      M (tag + 6), M (tag + 7), M (tag + 8), M (tag + 9), M (tag + 10)] = _ := hh
  have ht' : [M (tag + 11 + payload.length), M (tag + 11 + payload.length + 1),
      M (tag + 11 + payload.length + 2), M (tag + 11 + payload.length + 3)] = _ := ht
  simp only [List.cons.injEq, and_true] at hh' ht'
  obtain ⟨h0, h1, h2, h3, h4, h5, h6, h7, h8, h9, h10⟩ := hh'
  obtain ⟨g0, g1, g2, g3⟩ := ht'
  have hpow : 4294967296 ≤ 2 ^ W := by
    calc 4294967296 = 2 ^ 32 := by norm_num
      _ ≤ 2 ^ W := Nat.pow_le_pow_right (by norm_num) hW
  refine ⟨?_, hp, ?_⟩
  · unfold rtmpcast.parseHeader
    have e1 : rtmpcast.u24be W M (tag + 1) = payload.length := by
      rw [rtmpcast.u24be_eq W M (tag + 1) _ _ _ h1 h2 h3 (by omega) (by omega) (by omega)]
      omega
    have e2 : rtmpcast.u24be W M (tag + 4) = ts % 16777216 := by
      rw [rtmpcast.u24be_eq W M (tag + 4) _ _ _ h4 h5 h6 (by omega) (by omega) (by omega)]
      omega
    have e3 : rtmpcast.u24be W M (tag + 8) = 0 := by
      rw [rtmpcast.u24be_eq W M (tag + 8) _ _ _ h8 h9 h10 (by omega) (by omega) (by omega)]
    have e4 : rtmpcast.intToULong W (M (tag + 7) <<< 24) = M (tag + 7) <<< 24 := by
      apply rtmpcast.intToULong_small
      rw [Nat.shiftLeft_eq]
      omega
    have e5 : ts / 16777216 % 256 * 16777216 + ts % 16777216 = ts := by omega
    rw [e1, e2, e3, e4, or_high _ _ (by omega), h0, h7, e5]
  · unfold rtmpcast.trailerOk
    have b0 : (11 + payload.length) / 16777216 % 256 < 128 := by omega
    have b1 : (11 + payload.length) / 65536 % 256 < 256 := by omega
    have b2 : (11 + payload.length) / 256 % 256 < 256 := by omega
    have b3 : (11 + payload.length) % 256 < 256 := by omega
    have e6 := rtmpcast.u32be_eq W M (tag + 11 + payload.length) _ _ _ _ g0 g1 g2 g3 b0 b1 b2 b3
    have e7 : (11 + payload.length) % 2 ^ W = 11 + payload.length :=
      Nat.mod_eq_of_lt (by omega)
    rw [show tag + (11 + payload.length) = tag + 11 + payload.length by omega, e6, e7]
    simp only [beq_iff_eq]
    omega

/-! ## Claims on the tag builder -/

theorem beBytes_three (v : Nat) : beBytes 3 v = [v / 65536 % 256, v / 256 % 256, v % 256] := by
  simp [beBytes, Nat.div_div_eq_div_mul]

theorem beBytes_four (v : Nat) :
    beBytes 4 v = [v / 16777216 % 256, v / 65536 % 256, v / 256 % 256, v % 256] := by
  simp [beBytes, Nat.div_div_eq_div_mul]

/-- C1 (evaluation at the failing input): with a 64-bit `unsigned long`, the record built for
type 9, timestamp 0x80000000 and an empty payload is parsed by rtmpcast with the timestamp
0xFFFFFFFF80000000: the byte `tag[7] = 0x80` is promoted to `int`, the shift by 24 makes it
negative and the conversion to `unsigned long` extends the sign.  With a 32-bit
`unsigned long` the same record parses to 0x80000000. -/
theorem C1_timestamp_sign_extended :
    (rtmpcast.parseHeader 64 (testpattern.buildTag (fun _ => 0) 0 9 0x80000000 []).1 0).timestamp
        = 0xFFFFFFFF80000000
      ∧ (rtmpcast.parseHeader 64
          (testpattern.buildTag (fun _ => 0) 0 9 0x80000000 []).1 0).timestamp ≠ 0x80000000
      ∧ (rtmpcast.parseHeader 32
          (testpattern.buildTag (fun _ => 0) 0 9 0x80000000 []).1 0).timestamp = 0x80000000 := by
  decide

/-- C2: for every type `t`, 32-bit timestamp `ts`, payload of `S ≤ 16777215` bytes and every
prior memory `m`, `flv_TagHeader` returns `tag + 11` and after the payload copy and
`flv_TagFinish` the first `S + 15` bytes at `tag` are: `t`; `S` in 3 bytes big-endian;
`ts & 0xFFFFFF` in 3 bytes big-endian; the byte `ts >> 24`; three zero bytes; the payload;
`11 + S` in 4 bytes big-endian.  `flv_TagFinish` returns `S + 15`, and the bytes are the same
for any other prior memory `m'`. -/
theorem C2_record_layout (m : Mem) (tag t ts : Nat) (payload : List Nat)
    (hts : ts < 4294967296) (hS : payload.length ≤ 16777215) :
    (testpattern.flv_TagHeader m tag t ts).2 = tag + 11
      ∧ readBytes (testpattern.buildTag m tag t ts payload).1 tag (payload.length + 15)
          = [t] ++ beBytes 3 payload.length ++ beBytes 3 (ts &&& 0xFFFFFF) ++ [ts >>> 24]
            ++ [0, 0, 0] ++ payload ++ beBytes 4 (11 + payload.length)
      ∧ (testpattern.buildTag m tag t ts payload).2 = payload.length + 15
      ∧ ∀ m' : Mem,
          readBytes (testpattern.buildTag m' tag t ts payload).1 tag (payload.length + 15)
            = readBytes (testpattern.buildTag m tag t ts payload).1 tag
                (payload.length + 15) := by
  have key : ∀ m0 : Mem,
      readBytes (testpattern.buildTag m0 tag t ts payload).1 tag (payload.length + 15)
        = [t] ++ beBytes 3 payload.length ++ beBytes 3 (ts &&& 0xFFFFFF) ++ [ts >>> 24]
          ++ [0, 0, 0] ++ payload ++ beBytes 4 (11 + payload.length) := by
    intro m0
    rw [show payload.length + 15 = 11 + payload.length + 4 by omega, readBytes_add,
      readBytes_add, testpattern.buildTag_header m0 tag t ts payload hS,
      testpattern.buildTag_payload m0 tag t ts payload hS,
      show tag + (11 + payload.length) = tag + 11 + payload.length by omega,
      testpattern.buildTag_trailer m0 tag t ts payload hS, beBytes_three, beBytes_three,
      beBytes_four, and_ffffff, shr24]
    have e : ts / 16777216 % 256 = ts / 16777216 := Nat.mod_eq_of_lt (by omega)
    rw [e]
    simp
  refine ⟨rfl, key m, ?_, ?_⟩
  · rw [testpattern.buildTag_eq m tag t ts payload hS]
  · intro m'
    rw [key m', key m]

/-- Witness of C2 at type 9, timestamp 0x12345678, payload `[1, 2, 3]`, buffer at address 100
in a memory filled with the byte 7. -/
theorem C2_record_layout_witness :
    readBytes (testpattern.buildTag (fun _ => 7) 100 9 0x12345678 [1, 2, 3]).1 100 18
        = [9, 0, 0, 3, 0x34, 0x56, 0x78, 0x12, 0, 0, 0, 1, 2, 3, 0, 0, 0, 14]
      ∧ (testpattern.buildTag (fun _ => 7) 100 9 0x12345678 [1, 2, 3]).2 = 18 :=
  ⟨(C2_record_layout (fun _ => 7) 100 9 0x12345678 [1, 2, 3] (by decide) (by decide)).2.1,
    (C2_record_layout (fun _ => 7) 100 9 0x12345678 [1, 2, 3] (by decide) (by decide)).2.2.1⟩

/-- C3 (counterexample): for a payload of 16777216 bytes `flv_TagFinish`, in testpattern and
in waveform, returns normally with the record length 16777231 and the size field `00 00 00`,
the payload length truncated to 24 bits. -/
theorem C3_oversized_payload_not_rejected :
    (testpattern.flv_TagFinish (fun _ => 0xAA) 0 (11 + 16777216)).2 = 16777231
      ∧ readBytes (testpattern.flv_TagFinish (fun _ => 0xAA) 0 (11 + 16777216)).1 1 3 = [0, 0, 0]
      ∧ (waveform.flv_TagFinish (fun _ => 0xAA) 0 (11 + 16777216)).2 = 16777231
      ∧ readBytes (waveform.flv_TagFinish (fun _ => 0xAA) 0 (11 + 16777216)).1 1 3
          = [0, 0, 0] := by
  decide

/-- C3 (amended): `flv_TagFinish` has no length check and no error result.  For every payload
length `S` with `16777215 < S ≤ 4294967280` (the pointer `p` being `tag + 11 + S`) it returns
`S + 15`, writes `S mod 2 ^ 24` into the 3-byte size field at `tag + 1` and the trailer
`11 + S` in 4 bytes big-endian at `p`; the waveform copy of the function does the same. -/
theorem C3_finish_truncates_size (m : Mem) (tag S : Nat) (h1 : 16777215 < S)
    (h2 : S ≤ 4294967280) :
    (testpattern.flv_TagFinish m tag (tag + 11 + S)).2 = S + 15
      ∧ readBytes (testpattern.flv_TagFinish m tag (tag + 11 + S)).1 (tag + 1) 3
          = beBytes 3 (S % 16777216)
      ∧ readBytes (testpattern.flv_TagFinish m tag (tag + 11 + S)).1 (tag + 11 + S) 4
          = beBytes 4 (11 + S)
      ∧ waveform.flv_TagFinish m tag (tag + 11 + S)
          = testpattern.flv_TagFinish m tag (tag + 11 + S) := by
  have hd := toU32_diff tag S
  have e1 : S % 4294967296 = S := Nat.mod_eq_of_lt (by omega)
  have e2 : (11 + S) % 4294967296 = 11 + S := Nat.mod_eq_of_lt (by omega)
  have e3 : (11 + S + 4) % 4294967296 = S + 15 := by omega
  refine ⟨?_, ?_, ?_, rfl⟩
  · simp only [testpattern.flv_TagFinish, hd, e1, e3]
  · simp only [testpattern.flv_TagFinish, hd, e1, e2, beBytes_three]
    show [_, _, _] = _
    simp (disch := omega) only [testpattern.u24be, testpattern.u32be, store_apply,
      and_255, shr8, shr16, shr24, if_pos, if_neg]
    have a1 : S % 16777216 / 65536 % 256 = S / 65536 % 256 := by omega
    have a2 : S % 16777216 / 256 % 256 = S / 256 % 256 := by omega
    have a3 : S % 16777216 % 256 = S % 256 := by omega
    simp [a1, a2, a3]
  · simp only [testpattern.flv_TagFinish, hd, e1, e2, beBytes_four]
    show [_, _, _, _] = _
    simp (disch := omega) only [testpattern.u24be, testpattern.u32be, store_apply,
      and_255, shr8, shr16, shr24, if_pos, if_neg]
    simp

/-- Witness of the amended C3 at `S = 16777216`. -/
theorem C3_finish_truncates_size_witness :
    (16777215 < 16777216 ∧ 16777216 ≤ 4294967280)
      ∧ (testpattern.flv_TagFinish (fun _ => 0xAA) 0 (0 + 11 + 16777216)).2 = 16777216 + 15
      ∧ readBytes (testpattern.flv_TagFinish (fun _ => 0xAA) 0 (0 + 11 + 16777216)).1 (0 + 1) 3
          = beBytes 3 (16777216 % 16777216) :=
  ⟨by decide,
    (C3_finish_truncates_size (fun _ => 0xAA) 0 16777216 (by decide) (by decide)).1,
    (C3_finish_truncates_size (fun _ => 0xAA) 0 16777216 (by decide) (by decide)).2.1⟩

/-! ## The read loop of rtmpcast -/

namespace rtmpcast

theorem getD_drop (l : List Nat) (p i : Nat) : (l.drop p).getD i 0 = l.getD (p + i) 0 := by
  simp [List.getD_eq_getElem?_getD, List.getElem?_drop]

theorem getD_lt_256 (l : List Nat) (hb : ∀ b ∈ l, b < 256) (i : Nat) : l.getD i 0 < 256 := by
  rw [List.getD_eq_getElem?_getD]
  by_cases h : i < l.length
  · rw [List.getElem?_eq_getElem h]
    exact hb _ (List.getElem_mem h)
  · rw [List.getElem?_eq_none (by omega)]
    decide

theorem drop_bytes (l : List Nat) (hb : ∀ b ∈ l, b < 256) (p : Nat) :
    ∀ b ∈ l.drop p, b < 256 := fun b h => hb b (List.mem_of_mem_drop h)

theorem be24_lt (d : List Nat) (hb : ∀ b ∈ d, b < 256) (i : Nat) : be24 d i < 16777216 := by
  have h0 := getD_lt_256 d hb i
  have h1 := getD_lt_256 d hb (i + 1)
  have h2 := getD_lt_256 d hb (i + 2)
  unfold be24
  omega

theorem be32_lt (d : List Nat) (hb : ∀ b ∈ d, b < 256) (i : Nat) : be32 d i < 4294967296 := by
  have h0 := getD_lt_256 d hb i
  have h1 := getD_lt_256 d hb (i + 1)
  have h2 := getD_lt_256 d hb (i + 2)
  have h3 := getD_lt_256 d hb (i + 3)
  unfold be32
  omega

theorem u24be_of_bytes (W : Nat) (m : Mem) (p : Nat) (d : List Nat) (hb : ∀ b ∈ d, b < 256)
    (i : Nat) (h0 : m p = d.getD i 0) (h1 : m (p + 1) = d.getD (i + 1) 0)
    (h2 : m (p + 2) = d.getD (i + 2) 0) : u24be W m p = be24 d i :=
  u24be_eq W m p _ _ _ h0 h1 h2 (getD_lt_256 d hb _) (getD_lt_256 d hb _) (getD_lt_256 d hb _)

theorem u32be_of_bytes (W : Nat) (m : Mem) (p : Nat) (d : List Nat) (hb : ∀ b ∈ d, b < 256)
    (i : Nat) (h0 : m p = d.getD i 0) (h1 : m (p + 1) = d.getD (i + 1) 0)
    (h2 : m (p + 2) = d.getD (i + 2) 0) (h3 : m (p + 3) = d.getD (i + 3) 0) :
    u32be W m p = intToULong W (be32 d i) := by
  unfold u32be be32
  rw [h0, h1, h2, h3, or_bytes4 _ _ _ _ (getD_lt_256 d hb _) (getD_lt_256 d hb _)
    (getD_lt_256 d hb _)]

/-- For a value below `2 ^ 32` and a target below `2 ^ 31`, the sign-extending conversion
hits the target exactly when the value is the target. -/
theorem intToULong_eq_iff (W : Nat) (hW : 32 ≤ W) (v t : Nat) (hv : v < 4294967296)
    (ht : t < 2147483648) : intToULong W v = t % 2 ^ W ↔ v = t := by
  have hpow : 4294967296 ≤ 2 ^ W := by
    calc 4294967296 = 2 ^ 32 := by norm_num
      _ ≤ 2 ^ W := Nat.pow_le_pow_right (by norm_num) hW
  have e : t % 2 ^ W = t := Nat.mod_eq_of_lt (by omega)
  rw [e]
  unfold intToULong
  generalize 2 ^ W = P at hpow
  split
  · omega
  · rename_i h
    have e2 : (v % 4294967296 + (P - 4294967296)) % P = v + (P - 4294967296) :=
      by rw [Nat.mod_eq_of_lt hv]; exact Nat.mod_eq_of_lt (by omega)
    rw [e2]
    omega

theorem parseHeader_of_bytes (W : Nat) (m : Mem) (tag : Nat) (d : List Nat)
    (hb : ∀ b ∈ d, b < 256) (hm : ∀ i, i < 11 → m (tag + i) = d.getD i 0) :
    parseHeader W m tag = ⟨d.getD 0 0, be24 d 1, parsedTimestamp W d, be24 d 8⟩ := by
  unfold parseHeader parsedTimestamp
  rw [u24be_of_bytes W m (tag + 1) d hb 1 (hm 1 (by omega)) (hm 2 (by omega)) (hm 3 (by omega)),
    u24be_of_bytes W m (tag + 4) d hb 4 (hm 4 (by omega)) (hm 5 (by omega)) (hm 6 (by omega)),
    u24be_of_bytes W m (tag + 8) d hb 8 (hm 8 (by omega)) (hm 9 (by omega)) (hm 10 (by omega)),
    hm 7 (by omega), show m tag = d.getD 0 0 from hm 0 (by omega)]

theorem trailerOk_of_bytes (W : Nat) (hW : 32 ≤ W) (m : Mem) (tag size : Nat) (d : List Nat)
    (hb : ∀ b ∈ d, b < 256) (hs : size < 16777216)
    (hm : ∀ i, i < 4 → m (tag + 11 + size + i) = d.getD (11 + size + i) 0) :
    trailerOk W m tag size = decide (be32 d (11 + size) = 11 + size) := by
  unfold trailerOk
  rw [show tag + (11 + size) = tag + 11 + size by omega,
    u32be_of_bytes W m (tag + 11 + size) d hb (11 + size) (hm 0 (by omega)) (hm 1 (by omega))
      (hm 2 (by omega)) (hm 3 (by omega))]
  have := intToULong_eq_iff W hW (be32 d (11 + size)) (11 + size) (be32_lt d hb _) (by omega)
  by_cases h : be32 d (11 + size) = 11 + size
  · rw [this.mpr h]
    simp [h]
  · have h' : ¬ intToULong W (be32 d (11 + size)) = (11 + size) % 2 ^ W := fun c => h (this.mp c)
    simp [h, h']

/-- The body of the loop with the three `fread` results named. -/
theorem step_eq (W : Nat) (env : Env) (s : LoopState) :
    step W env s =
      (let r1 := fread s.flv s.mem env.tag 11
      if 11 ≠ r1.1 then
        if r1.2.1.eof then
          .next { s with flv := r1.2.1, mem := r1.2.2, running := false, iter := s.iter + 1 } []
        else .exit EXIT_FAILURE [.diag .shortHeader]
      else
        let h := parseHeader W r1.2.2 env.tag
        let r2 := fread r1.2.1 r1.2.2 (env.tag + 11) h.payloadSize
        if h.payloadSize ≠ r2.1 then .exit EXIT_FAILURE [.diag .shortPayload]
        else
          let r3 := fread r2.2.1 r2.2.2 (env.tag + 11 + h.payloadSize) 4
          if 4 ≠ r3.1 then .exit EXIT_FAILURE [.diag .shortTagSize]
          else if !trailerOk W r3.2.2 env.tag h.payloadSize then
            .exit EXIT_FAILURE [.diag .sizeMismatch]
          else
            let w := Event.rtmpWrite (readBytes r3.2.2 env.tag (11 + h.payloadSize + 4))
            if !env.writeOk s.iter then .exit EXIT_FAILURE [w, .diag .rtmpWrite]
            else if !env.selectOk s.iter then .exit EXIT_FAILURE [w, .diag .select]
            else
              let rp := if env.readable s.iter then [Event.readPacket] else []
              let running := s.running && !env.signal s.iter
              if s.prevTimestamp < h.timestamp then
                .next { flv := r3.2.1, mem := r3.2.2, prevTimestamp := h.timestamp,
                        running := running, iter := s.iter + 1 }
                  (w :: rp ++ [.usleep ((h.timestamp - s.prevTimestamp) % 4294967296)])
              else
                .next { flv := r3.2.1, mem := r3.2.2, prevTimestamp := s.prevTimestamp,
                        running := running, iter := s.iter + 1 }
                  (w :: rp)) := rfl

/-- One iteration of `step` is the iteration `recStep` on the remaining bytes. -/
theorem step_abs (W : Nat) (hW : 32 ≤ W) (env : Env) (s : LoopState)
    (hb : ∀ b ∈ s.flv.data, b < 256) :
    (∃ r e, step W env s = .exit r e ∧ recStep W env (abs s) = .exit r e) ∨
    (∃ s' e, step W env s = .next s' e ∧ recStep W env (abs s) = .next (abs s') e
      ∧ s'.flv.data = s.flv.data) := by
  obtain ⟨⟨data, pos, eof, eie⟩, mem, prev, running, iter⟩ := s
  simp only at hb
  have hdb := drop_bytes data hb pos
  have hlen : (data.drop pos).length = data.length - pos := List.length_drop _ _
  rw [step_eq]
  simp only [fread, abs, recStep]
  by_cases h11 : (data.drop pos).length < 11
  · have hmin : min 11 (data.length - pos) = data.length - pos := by omega
    have hne : (11 ≠ data.length - pos) := by omega
    have hlt : data.length - pos < 11 := by omega
    simp only [hmin, hne, h11, hlt, if_true, ne_eq, not_false_eq_true, decide_True,
      Bool.true_and]
    by_cases he : (eof || !eie) = true
    · right
      refine ⟨_, _, by rw [if_pos he], ?_, rfl⟩
      rw [if_pos he]
      simp only [he, RecResult.next.injEq, and_true, RecState.mk.injEq, true_and]
      exact (List.drop_eq_nil_of_le (by omega)).symm
    · left
      exact ⟨_, _, by rw [if_neg he], by rw [if_neg he]⟩
  · have hmin : min 11 (data.length - pos) = 11 := by omega
    have hph := parseHeader_of_bytes W (memcpy mem env.tag (data.drop pos) 11) env.tag
      (data.drop pos) hdb (fun i hi => by
        rw [memcpy_apply, if_pos (by omega)]
        congr 1
        omega)
    have hsz := be24_lt (data.drop pos) hdb 1
    simp only [hmin, hph, h11, ne_eq, not_true_eq_false, if_false, List.drop_drop]
    generalize hS : be24 (data.drop pos) 1 = S at hsz
    by_cases h2 : (data.drop pos).length < 11 + S
    · left
      have hne : ¬ S = min S (data.length - (pos + 11)) := by omega
      exact ⟨_, _, by rw [if_pos hne], by rw [if_pos h2]⟩
    · have hminS : min S (data.length - (pos + 11)) = S := by omega
      simp only [hminS, h2, not_true_eq_false, if_false]
      by_cases h3 : (data.drop pos).length < 15 + S
      · left
        have hne : ¬ 4 = min 4 (data.length - (pos + 11 + S)) := by omega
        exact ⟨_, _, by rw [if_pos hne], by rw [if_pos h3]⟩
      · have hmin4 : min 4 (data.length - (pos + 11 + S)) = 4 := by omega
        simp only [hmin4, h3, not_true_eq_false, if_false, Nat.lt_irrefl, decide_False,
          Bool.false_and, Bool.or_false]
        have hM : ∀ i, i < 15 + S →
            memcpy (memcpy (memcpy mem env.tag (data.drop pos) 11) (env.tag + 11)
              (data.drop (pos + 11)) S) (env.tag + 11 + S) (data.drop (pos + 11 + S)) 4
              (env.tag + i) = (data.drop pos).getD i 0 := by
          intro i hi
          simp only [memcpy_apply, getD_drop]
          by_cases c1 : i < 11
          · rw [if_neg (by omega), if_neg (by omega), if_pos (by omega)]
            congr 1
            omega
          · by_cases c2 : i < 11 + S
            · rw [if_neg (by omega), if_pos (by omega)]
              congr 1
              omega
            · rw [if_pos (by omega)]
              congr 1
              omega
        generalize memcpy (memcpy (memcpy mem env.tag (data.drop pos) 11) (env.tag + 11)
              (data.drop (pos + 11)) S) (env.tag + 11 + S) (data.drop (pos + 11 + S)) 4 = M
          at hM
        have htr := trailerOk_of_bytes W hW M env.tag S (data.drop pos) hdb hsz (fun i hi => by
          rw [show env.tag + 11 + S + i = env.tag + (11 + S + i) by omega]
          exact hM _ (by omega))
        have hrd : readBytes M env.tag (11 + S + 4) = (data.drop pos).take (15 + S) := by
          apply List.ext_getElem
          · rw [readBytes_length, List.length_take]
            omega
          · intro i h1 h2
            rw [readBytes_getElem, List.getElem_take, hM i (by rw [readBytes_length] at h1; omega),
              List.getD_eq_getElem?_getD, List.getElem?_eq_getElem]
            rfl
        rw [htr, hrd]
        have hpos : pos + 11 + S + 4 = pos + (15 + S) := by omega
        rw [hpos]
        by_cases c1 : be32 (data.drop pos) (11 + S) = 11 + S
        swap
        · left
          exact ⟨_, _, by rw [if_pos (by simp [c1])], by rw [if_pos c1]⟩
        simp only [c1, decide_True, Bool.not_true, Bool.false_eq_true, not_true_eq_false,
          ↓reduceIte]
        cases hw : env.writeOk iter
        · left
          simp only [Bool.not_false, ↓reduceIte]
          exact ⟨_, _, rfl, rfl⟩
        simp only [Bool.not_true, Bool.false_eq_true, ↓reduceIte]
        cases hs : env.selectOk iter
        · left
          simp only [Bool.not_false, ↓reduceIte]
          exact ⟨_, _, rfl, rfl⟩
        simp only [Bool.not_true, Bool.false_eq_true, ↓reduceIte]
        right
        by_cases c4 : prev < parsedTimestamp W (data.drop pos)
        · simp only [c4, ↓reduceIte]
          exact ⟨_, _, rfl, rfl, rfl⟩
        · simp only [c4, ↓reduceIte, List.append_nil]
          exact ⟨_, _, rfl, rfl, rfl⟩

/-- An iteration that continues either cleared `running` or consumed at least 15 bytes. -/
theorem step_next_measure (W : Nat) (env : Env) (s s' : LoopState) (e : List Event)
    (h : step W env s = .next s' e) :
    s'.flv.data = s.flv.data ∧ (s'.running = false ∨
      (s'.flv.data.length - s'.flv.pos) + 15 ≤ s.flv.data.length - s.flv.pos) := by
  rw [step_eq] at h
  simp only [fread] at h
  split_ifs at h <;> first
    | (injection h with h1 h2; subst h1; exact ⟨rfl, Or.inl rfl⟩)
    | (injection h with h1 h2; subst h1; refine ⟨rfl, Or.inr ?_⟩; simp only; omega)

theorem exists_map_some {α β : Type} (f : α → β) (o : Option α) (h : ∃ r, o = some r) :
    ∃ r, o.map f = some r := by
  obtain ⟨r, hr⟩ := h
  exact ⟨f r, by rw [hr]; rfl⟩

/-- The loop returns whenever the bound exceeds the number of unread bytes by 2. -/
theorem loop_total (W : Nat) (env : Env) (fuel : Nat) (s : LoopState)
    (h : (s.running = false ∧ 1 ≤ fuel) ∨ (s.flv.data.length - s.flv.pos) + 2 ≤ fuel) :
    ∃ r, loop W env fuel s = some r := by
  induction fuel generalizing s with
  | zero => omega
  | succ n ih =>
    unfold loop
    by_cases hr : (!s.running) = true
    · rw [if_pos hr]
      exact ⟨_, rfl⟩
    · rw [if_neg hr]
      have hrun : s.running = true := by simpa using hr
      have hfuel : (s.flv.data.length - s.flv.pos) + 2 ≤ n + 1 := by
        rcases h with ⟨h1, _⟩ | h
        · rw [h1] at hrun
          cases hrun
        · exact h
      cases hstep : step W env s with
      | exit ret events => exact ⟨_, rfl⟩
      | next s' events =>
        obtain ⟨hd, hm⟩ := step_next_measure W env s s' events hstep
        apply exists_map_some
        apply ih s'
        rcases hm with hm | hm
        · left
          exact ⟨hm, by omega⟩
        · right
          omega

/-- The model of `main` always returns: the bound of the loop is never reached. -/
theorem main_total (W : Nat) (env : Env) : ∃ r, main W env = some r := by
  unfold main
  by_cases h1 : env.argc ≠ 3
  · rw [if_pos h1]
    exact ⟨_, rfl⟩
  rw [if_neg h1]
  by_cases h2 : (!env.mallocOk) = true
  · rw [if_pos h2]
    exact ⟨_, rfl⟩
  rw [if_neg h2]
  cases hf : env.flv with
  | none => exact ⟨_, rfl⟩
  | some flv =>
    simp only
    by_cases h3 : u32be W (fread flv env.mem env.tag 9).2.2 env.tag ≠ 0x464C5601
    · rw [if_pos h3]
      exact ⟨_, rfl⟩
    rw [if_neg h3]
    by_cases h4 : (!env.rtmpAllocOk) = true
    · rw [if_pos h4]
      exact ⟨_, rfl⟩
    rw [if_neg h4]
    by_cases h5 : (!env.connectOk) = true
    · rw [if_pos h5]
      exact ⟨_, rfl⟩
    rw [if_neg h5]
    by_cases h6 : (!env.connectStreamOk) = true
    · rw [if_pos h6]
      exact ⟨_, rfl⟩
    rw [if_neg h6]
    apply exists_map_some
    apply loop_total
    right
    simp only [Nat.sub_le, Nat.add_le_add_iff_right]

/-- The loop `loop` is the loop `recLoop` on the remaining bytes. -/
theorem loop_abs (W : Nat) (hW : 32 ≤ W) (env : Env) (fuel : Nat) (s : LoopState)
    (hb : ∀ b ∈ s.flv.data, b < 256) : loop W env fuel s = recLoop W env fuel (abs s) := by
  induction fuel generalizing s with
  | zero => rfl
  | succ n ih =>
    unfold loop recLoop
    show (if (!s.running) = true then _ else _) = (if (!s.running) = true then _ else _)
    by_cases hr : (!s.running) = true
    · rw [if_pos hr, if_pos hr]
    · rw [if_neg hr, if_neg hr]
      rcases step_abs W hW env s hb with ⟨r, e, h1, h2⟩ | ⟨s', e, h1, h2, h3⟩
      · rw [h1, h2]
      · rw [h1, h2]
        simp only
        rw [ih s' (by rw [h3]; exact hb)]

end rtmpcast

namespace rtmpcast

/-- The events of an accepted record: the write, an optional inbound packet, an optional
sleep. -/
theorem recStep_valid (W : Nat) (env : Env) (p : RecState) (hv : validHead p.rest) :
    recStep W env p =
      (if !env.writeOk p.iter then
        .exit EXIT_FAILURE [.rtmpWrite (p.rest.take (15 + be24 p.rest 1)), .diag .rtmpWrite]
      else if !env.selectOk p.iter then
        .exit EXIT_FAILURE [.rtmpWrite (p.rest.take (15 + be24 p.rest 1)), .diag .select]
      else
        .next
          { rest := p.rest.drop (15 + be24 p.rest 1), eof := p.eof, endIsError := p.endIsError,
            prevTimestamp := if p.prevTimestamp < parsedTimestamp W p.rest then
              parsedTimestamp W p.rest else p.prevTimestamp,
            running := p.running && !env.signal p.iter, iter := p.iter + 1 }
          (.rtmpWrite (p.rest.take (15 + be24 p.rest 1))
            :: (if env.readable p.iter then [Event.readPacket] else [])
            ++ if p.prevTimestamp < parsedTimestamp W p.rest then
              [.usleep ((parsedTimestamp W p.rest - p.prevTimestamp) % 4294967296)] else [])) := by
  obtain ⟨h1, h2, h3⟩ := hv
  unfold recStep
  rw [if_neg (by omega)]
  simp only
  rw [if_neg (by omega), if_neg (by omega), if_neg (by simp [h3])]

/-- Without a record at the head, an iteration writes nothing: it ends the loop by clearing
`running` (fewer than 11 bytes left at end of file) or exits with `EXIT_FAILURE`. -/
theorem recStep_invalid (W : Nat) (env : Env) (p : RecState) (hv : ¬ validHead p.rest) :
    (p.rest.length < 11 ∧ recStep W env p =
        .next { p with rest := [], eof := true, running := false, iter := p.iter + 1 } [])
      ∨ ∃ d, recStep W env p = .exit EXIT_FAILURE [.diag d] := by
  unfold recStep
  by_cases h1 : p.rest.length < 11
  · rw [if_pos h1]
    by_cases h2 : (p.eof || !p.endIsError) = true
    · rw [if_pos h2]
      exact Or.inl ⟨h1, rfl⟩
    · rw [if_neg h2]
      exact Or.inr ⟨_, rfl⟩
  · rw [if_neg h1]
    simp only
    right
    by_cases h2 : p.rest.length < 11 + be24 p.rest 1
    · rw [if_pos h2]
      exact ⟨_, rfl⟩
    rw [if_neg h2]
    by_cases h3 : p.rest.length < 15 + be24 p.rest 1
    · rw [if_pos h3]
      exact ⟨_, rfl⟩
    rw [if_neg h3]
    by_cases h4 : be32 p.rest (11 + be24 p.rest 1) ≠ 11 + be24 p.rest 1
    · rw [if_pos h4]
      exact ⟨_, rfl⟩
    · exfalso
      apply hv
      exact ⟨by omega, by omega, by simpa using h4⟩

theorem splitRecords_fuel (n m : Nat) (d : List Nat) (hn : d.length ≤ n) (hm : d.length ≤ m) :
    splitRecords n d = splitRecords m d := by
  induction n generalizing m d with
  | zero =>
    have : d = [] := List.length_eq_zero.mp (by omega)
    subst this
    cases m with
    | zero => rfl
    | succ m => simp [splitRecords, validHead]
  | succ n ih =>
    cases m with
    | zero =>
      have : d = [] := List.length_eq_zero.mp (by omega)
      subst this
      simp [splitRecords, validHead]
    | succ m =>
      unfold splitRecords
      by_cases hv : validHead d
      · rw [if_pos hv, if_pos hv]
        have hl : (d.drop (15 + be24 d 1)).length + 15 ≤ d.length := by
          rw [List.length_drop]
          have := hv.2.1
          omega
        rw [ih m _ (by omega) (by omega)]
      · rw [if_neg hv, if_neg hv]

theorem splitRecords_valid (d : List Nat) (hv : validHead d) :
    splitRecords d.length d =
      d.take (15 + be24 d 1)
        :: splitRecords (d.drop (15 + be24 d 1)).length (d.drop (15 + be24 d 1)) := by
  have h15 : 15 ≤ d.length := by
    have := hv.2.1
    omega
  obtain ⟨k, hk⟩ : ∃ k, d.length = k + 1 := ⟨d.length - 1, by omega⟩
  have e : splitRecords (k + 1) d = if validHead d then
      d.take (15 + be24 d 1) :: splitRecords k (d.drop (15 + be24 d 1)) else [] := rfl
  rw [hk, e, if_pos hv]
  congr 1
  apply splitRecords_fuel
  · rw [List.length_drop]
    omega
  · exact Nat.le_refl _

theorem writes_accept (b : List Nat) (r : Bool) (c : Prop) [Decidable c] (n : Nat)
    (es : List Event) :
    writes ((.rtmpWrite b :: (if r then [Event.readPacket] else [])
      ++ if c then [.usleep n] else []) ++ es) = b :: writes es := by
  cases r <;> by_cases hc : c <;> simp [writes, hc]

theorem map_eq_some_pair {f : Nat × List Event → Nat × List Event}
    {o : Option (Nat × List Event)} {r : Nat × List Event} (h : o.map f = some r) :
    ∃ r', o = some r' ∧ f r' = r := by
  cases o with
  | none => cases h
  | some r' => exact ⟨r', rfl, by simpa using h⟩

/-- Every list handed to `RTMP_Write` in a run of the loop is a record of the grammar, and
the lists are the first records of the remaining bytes in their order. -/
theorem recLoop_writes_prefix (W : Nat) (env : Env) (fuel : Nat) (p : RecState) (ret : Nat)
    (events : List Event) (h : recLoop W env fuel p = some (ret, events)) :
    writes events <+: splitRecords p.rest.length p.rest := by
  induction fuel generalizing p ret events with
  | zero => cases h
  | succ n ih =>
    unfold recLoop at h
    by_cases hr : (!p.running) = true
    · rw [if_pos hr] at h
      injection h with h
      injection h with h1 h2
      subst h2
      exact List.nil_prefix
    rw [if_neg hr] at h
    by_cases hv : validHead p.rest
    · rw [recStep_valid W env p hv] at h
      rw [splitRecords_valid p.rest hv]
      cases hw : env.writeOk p.iter
      · simp only [hw, Bool.not_false, ↓reduceIte, Option.some.injEq, Prod.mk.injEq] at h
        rw [← h.2]
        simp [writes]
      simp only [hw, Bool.not_true, Bool.false_eq_true, ↓reduceIte] at h
      cases hs : env.selectOk p.iter
      · simp only [hs, Bool.not_false, ↓reduceIte, Option.some.injEq, Prod.mk.injEq] at h
        rw [← h.2]
        simp [writes]
      simp only [hs, Bool.not_true, Bool.false_eq_true, ↓reduceIte] at h
      obtain ⟨r', hr', hf⟩ := map_eq_some_pair h
      have := ih _ r'.1 r'.2 hr'
      simp only [Prod.mk.injEq] at hf
      rw [← hf.2, writes_accept]
      exact (List.prefix_cons_inj _).mpr this
    · rcases recStep_invalid W env p hv with ⟨_, h1⟩ | ⟨d, h1⟩
      · rw [h1] at h
        obtain ⟨r', hr', hf⟩ := map_eq_some_pair h
        cases n with
        | zero => cases hr'
        | succ n =>
          unfold recLoop at hr'
          simp only [Bool.not_false, ↓reduceIte, Option.some.injEq] at hr'
          rw [← hr'] at hf
          simp only [List.append_nil, Prod.mk.injEq] at hf
          rw [← hf.2]
          exact List.nil_prefix
      · rw [h1] at h
        simp only [Option.some.injEq, Prod.mk.injEq] at h
        rw [← h.2]
        exact List.nil_prefix

theorem splitRecords_invalid (n : Nat) (d : List Nat) (hv : ¬ validHead d) :
    splitRecords n d = [] := by
  cases n with
  | zero => rfl
  | succ n => simp [splitRecords, hv]

/-- When every write and `select` succeeds and no signal arrives, the loop writes every
record up to the first position that does not start one. -/
theorem recLoop_writes_all (W : Nat) (env : Env)
    (hgood : ∀ i, env.writeOk i = true ∧ env.selectOk i = true ∧ env.signal i = false)
    (fuel : Nat) (p : RecState) (hrun : p.running = true) (ret : Nat) (events : List Event)
    (h : recLoop W env fuel p = some (ret, events)) :
    writes events = splitRecords p.rest.length p.rest := by
  induction fuel generalizing p ret events with
  | zero => cases h
  | succ n ih =>
    unfold recLoop at h
    rw [if_neg (by simp [hrun])] at h
    by_cases hv : validHead p.rest
    · rw [recStep_valid W env p hv] at h
      rw [splitRecords_valid p.rest hv]
      simp only [(hgood p.iter).1, (hgood p.iter).2.1, (hgood p.iter).2.2, Bool.not_true,
        Bool.false_eq_true, ↓reduceIte, Bool.not_false, Bool.and_true] at h
      obtain ⟨r', hr', hf⟩ := map_eq_some_pair h
      have := ih
        { rest := p.rest.drop (15 + be24 p.rest 1), eof := p.eof, endIsError := p.endIsError,
          prevTimestamp := if p.prevTimestamp < parsedTimestamp W p.rest then
            parsedTimestamp W p.rest else p.prevTimestamp,
          running := p.running, iter := p.iter + 1 } hrun r'.1 r'.2 hr'
      simp only [Prod.mk.injEq] at hf
      rw [← hf.2, writes_accept, this]
    · rw [splitRecords_invalid _ _ hv]
      rcases recStep_invalid W env p hv with ⟨_, h1⟩ | ⟨d, h1⟩
      · rw [h1] at h
        obtain ⟨r', hr', hf⟩ := map_eq_some_pair h
        cases n with
        | zero => cases hr'
        | succ n =>
          unfold recLoop at hr'
          simp only [Bool.not_false, ↓reduceIte, Option.some.injEq] at hr'
          rw [← hr'] at hf
          simp only [List.append_nil, Prod.mk.injEq] at hf
          rw [← hf.2]
          rfl
      · rw [h1] at h
        simp only [Option.some.injEq, Prod.mk.injEq] at h
        rw [← h.2]
        rfl

/-- A complete record whose trailer differs from `11 + size` ends the loop at once with
`EXIT_FAILURE` and the size-mismatch diagnostic; nothing is written. -/
theorem recLoop_reject (W : Nat) (env : Env) (fuel : Nat) (p : RecState)
    (hrun : p.running = true) (h11 : 11 ≤ p.rest.length)
    (hlen : 15 + be24 p.rest 1 ≤ p.rest.length)
    (htr : be32 p.rest (11 + be24 p.rest 1) ≠ 11 + be24 p.rest 1) :
    recLoop W env (fuel + 1) p = some (EXIT_FAILURE, [.diag .sizeMismatch]) := by
  unfold recLoop
  rw [if_neg (by simp [hrun])]
  unfold recStep
  rw [if_neg (by omega)]
  simp only
  rw [if_neg (by omega), if_neg (by omega), if_pos htr]

theorem sleeps_accept (b : List Nat) (r : Bool) (c : Prop) [Decidable c] (n : Nat)
    (es : List Event) (hz : sleepAfter es = 0) :
    sleepPerRecord ((.rtmpWrite b :: (if r then [Event.readPacket] else [])
      ++ if c then [.usleep n] else []) ++ es) = (if c then n else 0) :: sleepPerRecord es := by
  cases r <;> by_cases hc : c <;> simp [sleepPerRecord, sleepAfter, hc, hz]

/-- The events of a run of the loop never start with a `usleep` that belongs to no record. -/
theorem recLoop_sleepAfter (W : Nat) (env : Env) (fuel : Nat) (p : RecState) (ret : Nat)
    (events : List Event) (h : recLoop W env fuel p = some (ret, events)) :
    sleepAfter events = 0 := by
  cases fuel with
  | zero => cases h
  | succ n =>
    unfold recLoop at h
    by_cases hr : (!p.running) = true
    · rw [if_pos hr] at h
      simp only [Option.some.injEq, Prod.mk.injEq] at h
      rw [← h.2]
      rfl
    rw [if_neg hr] at h
    by_cases hv : validHead p.rest
    · rw [recStep_valid W env p hv] at h
      cases hw : env.writeOk p.iter
      · simp only [hw, Bool.not_false, ↓reduceIte, Option.some.injEq, Prod.mk.injEq] at h
        rw [← h.2]
        rfl
      simp only [hw, Bool.not_true, Bool.false_eq_true, ↓reduceIte] at h
      cases hs : env.selectOk p.iter
      · simp only [hs, Bool.not_false, ↓reduceIte, Option.some.injEq, Prod.mk.injEq] at h
        rw [← h.2]
        rfl
      simp only [hs, Bool.not_true, Bool.false_eq_true, ↓reduceIte] at h
      obtain ⟨r', _, hf⟩ := map_eq_some_pair h
      simp only [Prod.mk.injEq] at hf
      rw [← hf.2]
      rfl
    · rcases recStep_invalid W env p hv with ⟨_, h1⟩ | ⟨d, h1⟩
      · rw [h1] at h
        obtain ⟨r', hr', hf⟩ := map_eq_some_pair h
        cases n with
        | zero => cases hr'
        | succ n =>
          unfold recLoop at hr'
          simp only [Bool.not_false, ↓reduceIte, Option.some.injEq] at hr'
          rw [← hr'] at hf
          simp only [List.append_nil, Prod.mk.injEq] at hf
          rw [← hf.2]
          rfl
      · rw [h1] at h
        simp only [Option.some.injEq, Prod.mk.injEq] at h
        rw [← h.2]
        rfl

theorem paced_cons (prev t : Nat) (ts : List Nat) :
    paced prev (t :: ts)
      = if prev < t then (t - prev) % 4294967296 :: paced t ts else 0 :: paced prev ts := rfl

theorem getD_take (d : List Nat) (n i : Nat) (h : i < n) : (d.take n).getD i 0 = d.getD i 0 := by
  rw [List.getD_eq_getElem?_getD, List.getD_eq_getElem?_getD, List.getElem?_take_of_lt h]

theorem parsedTimestamp_take (W : Nat) (d : List Nat) (n : Nat) (h : 8 ≤ n) :
    parsedTimestamp W (d.take n) = parsedTimestamp W d := by
  unfold parsedTimestamp be24
  rw [getD_take d n 4 (by omega), getD_take d n (4 + 1) (by omega),
    getD_take d n (4 + 2) (by omega), getD_take d n 7 (by omega)]

/-- When every write and `select` succeeds and no signal arrives, the `usleep` arguments per
record are those of `paced` on the parsed timestamps of the records. -/
theorem recLoop_sleeps (W : Nat) (env : Env)
    (hgood : ∀ i, env.writeOk i = true ∧ env.selectOk i = true ∧ env.signal i = false)
    (fuel : Nat) (p : RecState) (hrun : p.running = true) (ret : Nat) (events : List Event)
    (h : recLoop W env fuel p = some (ret, events)) :
    sleepPerRecord events
      = paced p.prevTimestamp ((splitRecords p.rest.length p.rest).map (parsedTimestamp W)) := by
  induction fuel generalizing p ret events with
  | zero => cases h
  | succ n ih =>
    unfold recLoop at h
    rw [if_neg (by simp [hrun])] at h
    by_cases hv : validHead p.rest
    · rw [recStep_valid W env p hv] at h
      rw [splitRecords_valid p.rest hv]
      simp only [(hgood p.iter).1, (hgood p.iter).2.1, (hgood p.iter).2.2, Bool.not_true,
        Bool.false_eq_true, ↓reduceIte, Bool.not_false, Bool.and_true] at h
      obtain ⟨r', hr', hf⟩ := map_eq_some_pair h
      have hz := recLoop_sleepAfter W env n _ r'.1 r'.2 hr'
      have := ih
        { rest := p.rest.drop (15 + be24 p.rest 1), eof := p.eof, endIsError := p.endIsError,
          prevTimestamp := if p.prevTimestamp < parsedTimestamp W p.rest then
            parsedTimestamp W p.rest else p.prevTimestamp,
          running := p.running, iter := p.iter + 1 } hrun r'.1 r'.2 hr'
      simp only [Prod.mk.injEq] at hf
      simp only at this
      rw [← hf.2, sleeps_accept _ _ _ _ _ hz, this, List.map_cons,
        parsedTimestamp_take W p.rest _ (by omega), paced_cons]
      by_cases c : p.prevTimestamp < parsedTimestamp W p.rest
      · simp only [c, ↓reduceIte]
      · simp only [c, ↓reduceIte]
    · rw [splitRecords_invalid _ _ hv]
      rcases recStep_invalid W env p hv with ⟨_, h1⟩ | ⟨d, h1⟩
      · rw [h1] at h
        obtain ⟨r', hr', hf⟩ := map_eq_some_pair h
        cases n with
        | zero => cases hr'
        | succ n =>
          unfold recLoop at hr'
          simp only [Bool.not_false, ↓reduceIte, Option.some.injEq] at hr'
          rw [← hr'] at hf
          simp only [List.append_nil, Prod.mk.injEq] at hf
          rw [← hf.2]
          rfl
      · rw [h1] at h
        simp only [Option.some.injEq, Prod.mk.injEq] at h
        rw [← h.2]
        rfl

/-- On non-decreasing timestamps below `2 ^ 32` the sleeps of `paced` are the differences of
consecutive timestamps. -/
theorem paced_sorted (prev : Nat) (ts : List Nat) (hs : (prev :: ts).Pairwise (· ≤ ·))
    (hlt : ∀ t ∈ ts, t < 4294967296) : paced prev ts = specSleeps prev ts := by
  induction ts generalizing prev with
  | nil => rfl
  | cons t ts ih =>
    have hle : prev ≤ t := (List.pairwise_cons.mp hs).1 t (List.mem_cons_self _ _)
    have hs' : (t :: ts).Pairwise (· ≤ ·) := (List.pairwise_cons.mp hs).2
    have ht : t < 4294967296 := hlt t (List.mem_cons_self _ _)
    have hlt' : ∀ x ∈ ts, x < 4294967296 := fun x hx => hlt x (List.mem_cons_of_mem _ hx)
    rw [paced_cons]
    show _ = (t - prev) :: specSleeps t ts
    by_cases c : prev < t
    · rw [if_pos c, ih t hs' hlt', Nat.mod_eq_of_lt (by omega)]
    · have e : prev = t := by omega
      subst e
      rw [if_neg c, ih prev hs' hlt', Nat.sub_self]

theorem paced_eq_excessSleeps (prev : Nat) (ts : List Nat) :
    paced prev ts = excessSleeps prev ts := by
  induction ts generalizing prev with
  | nil => rfl
  | cons t ts ih =>
    rw [paced_cons]
    show _ = (t - prev) % 4294967296 :: excessSleeps (max prev t) ts
    by_cases c : prev < t
    · rw [if_pos c, ih, Nat.max_eq_right (by omega)]
    · rw [if_neg c, ih, Nat.max_eq_left (by omega), show t - prev = 0 by omega]

end rtmpcast

/-! ## Claims on rtmpcast's `main` -/

theorem rtmpcast.memcpy_bytes (m : Mem) (hm : ∀ a, m a < 256) (p : Nat) (d : List Nat)
    (hd : ∀ b ∈ d, b < 256) (n a : Nat) : memcpy m p d n a < 256 := by
  rw [memcpy_apply]
  split
  · exact rtmpcast.getD_lt_256 d hd _
  · exact hm a

theorem take3_ne (d : List Nat) (hlen : 3 ≤ d.length) (h : d.take 3 ≠ [0x46, 0x4C, 0x56]) :
    ¬ (d.getD 0 0 = 0x46 ∧ d.getD 1 0 = 0x4C ∧ d.getD 2 0 = 0x56) := by
  match d, hlen with
  | a :: b :: c :: rest, _ =>
    intro hc
    apply h
    simp only [List.getD_cons_zero, List.getD_cons_succ] at hc
    simp [hc.1, hc.2.1, hc.2.2]

/-- C5: for every input file (read from its start, at least 3 bytes long) whose first 3 bytes
are not "FLV", `main` called with three arguments returns `EXIT_FAILURE`, and its events
contain neither `RTMP_Alloc`, nor a connection attempt (`RTMP_Connect`,
`RTMP_ConnectStream`), nor a call of `RTMP_Write`. -/
theorem C5_bad_signature_rejected (W : Nat) (hW : 32 ≤ W) (env : rtmpcast.Env)
    (flv : rtmpcast.FILE) (hargc : env.argc = 3) (hflv : env.flv = some flv)
    (hpos : flv.pos = 0) (hmem : ∀ a, env.mem a < 256) (hb : ∀ b ∈ flv.data, b < 256)
    (hlen : 3 ≤ flv.data.length) (hsig : flv.data.take 3 ≠ [0x46, 0x4C, 0x56]) :
    ∃ events, rtmpcast.main W env = some (rtmpcast.EXIT_FAILURE, events)
      ∧ rtmpcast.Event.rtmpAlloc ∉ events
      ∧ rtmpcast.Event.rtmpConnect ∉ events ∧ rtmpcast.Event.rtmpConnectStream ∉ events
      ∧ ∀ bytes, rtmpcast.Event.rtmpWrite bytes ∉ events := by
  unfold rtmpcast.main
  rw [if_neg (by simp [hargc])]
  by_cases h2 : (!env.mallocOk) = true
  · rw [if_pos h2]
    exact ⟨_, rfl, by simp, by simp, by simp, by simp⟩
  rw [if_neg h2, hflv]
  simp only
  have hsig' := take3_ne flv.data hlen hsig
  have hne : rtmpcast.u32be W (rtmpcast.fread flv env.mem env.tag 9).2.2 env.tag ≠ 0x464C5601 := by
    simp only [rtmpcast.fread, hpos, List.drop_zero, Nat.sub_zero]
    have hM : ∀ a, memcpy env.mem env.tag flv.data (min 9 flv.data.length) a < 256 :=
      rtmpcast.memcpy_bytes env.mem hmem env.tag flv.data hb _
    have hI : ∀ i, i < 3 →
        memcpy env.mem env.tag flv.data (min 9 flv.data.length) (env.tag + i)
          = flv.data.getD i 0 := by
      intro i hi
      rw [memcpy_apply, if_pos (by omega)]
      congr 1
      omega
    generalize memcpy env.mem env.tag flv.data (min 9 flv.data.length) = M at hM hI
    unfold rtmpcast.u32be
    rw [or_bytes4 _ _ _ _ (hM _) (hM _) (hM _)]
    intro hc
    have hlt : M env.tag * 16777216 + M (env.tag + 1) * 65536 + M (env.tag + 2) * 256
        + M (env.tag + 3) < 4294967296 := by
      have h0 := hM env.tag
      have h1 := hM (env.tag + 1)
      have h2 := hM (env.tag + 2)
      have h3 := hM (env.tag + 3)
      omega
    have hmod : (0x464C5601 : Nat) % 2 ^ W = 0x464C5601 := by
      apply Nat.mod_eq_of_lt
      calc (0x464C5601 : Nat) < 2 ^ 32 := by norm_num
        _ ≤ 2 ^ W := Nat.pow_le_pow_right (by norm_num) hW
    rw [← hmod] at hc
    have hv := (rtmpcast.intToULong_eq_iff W hW _ 0x464C5601 hlt (by norm_num)).mp hc
    apply hsig'
    have e0 := hI 0 (by omega)
    have e1 := hI 1 (by omega)
    have e2 := hI 2 (by omega)
    rw [Nat.add_zero] at e0
    have h0 := hM env.tag
    have h1 := hM (env.tag + 1)
    have h2 := hM (env.tag + 2)
    have h3 := hM (env.tag + 3)
    rw [← e0, ← e1, ← e2]
    omega
  rw [if_pos hne]
  exact ⟨_, rfl, by simp, by simp, by simp, by simp⟩

/-- Witness of C5: the sample file with its first byte changed from 0x46 to 0x47. -/
theorem C5_bad_signature_rejected_witness :
    rtmpcast.main 64 (sampleEnv (0x47 :: sampleFlv.tail))
        = some (rtmpcast.EXIT_FAILURE, [.malloc, .fopen, .diag .notFlv])
    ∧ ∃ events, rtmpcast.main 64 (sampleEnv (0x47 :: sampleFlv.tail))
        = some (rtmpcast.EXIT_FAILURE, events)
      ∧ rtmpcast.Event.rtmpAlloc ∉ events
      ∧ rtmpcast.Event.rtmpConnect ∉ events ∧ rtmpcast.Event.rtmpConnectStream ∉ events
      ∧ ∀ bytes, rtmpcast.Event.rtmpWrite bytes ∉ events :=
  ⟨by decide,
    C5_bad_signature_rejected 64 (by decide) (sampleEnv (0x47 :: sampleFlv.tail))
      ⟨0x47 :: sampleFlv.tail, 0, false, false⟩ rfl rfl rfl
      (fun _ => (by decide : (0 : Nat) < 256)) (by decide) (by decide) (by decide)⟩

/-- C4: in every run of the read loop (from any state, with any results of `RTMP_Write` and
`select` and any signals), the byte lists handed to `RTMP_Write` are, in order, the first
records found one after the other from the file position, each exactly its `11 + size + 4`
bytes as they stand in the file and each of them with a trailer equal to `11 + size`; when
every call succeeds and no signal arrives, every such record is written.  A complete record
whose trailer differs from `11 + size` is not written: the loop returns `EXIT_FAILURE` with
the size-mismatch diagnostic as its only event. -/
theorem C4_records_forwarded_verbatim (W : Nat) (hW : 32 ≤ W) (env : rtmpcast.Env) (fuel : Nat)
    (s : rtmpcast.LoopState) (hb : ∀ b ∈ s.flv.data, b < 256) :
    (∀ ret events, rtmpcast.loop W env fuel s = some (ret, events) →
        rtmpcast.writes events
            <+: rtmpcast.splitRecords (s.flv.data.drop s.flv.pos).length
              (s.flv.data.drop s.flv.pos)
          ∧ ((∀ i, env.writeOk i = true ∧ env.selectOk i = true ∧ env.signal i = false) →
              s.running = true →
              rtmpcast.writes events
                = rtmpcast.splitRecords (s.flv.data.drop s.flv.pos).length
                    (s.flv.data.drop s.flv.pos)))
      ∧ (s.running = true → 11 ≤ (s.flv.data.drop s.flv.pos).length →
          15 + rtmpcast.be24 (s.flv.data.drop s.flv.pos) 1 ≤ (s.flv.data.drop s.flv.pos).length →
          rtmpcast.be32 (s.flv.data.drop s.flv.pos)
              (11 + rtmpcast.be24 (s.flv.data.drop s.flv.pos) 1)
            ≠ 11 + rtmpcast.be24 (s.flv.data.drop s.flv.pos) 1 →
          rtmpcast.loop W env (fuel + 1) s
            = some (rtmpcast.EXIT_FAILURE, [.diag .sizeMismatch])) := by
  refine ⟨fun ret events h => ⟨?_, fun hgood hrun => ?_⟩, fun hrun h11 hlen htr => ?_⟩
  · rw [rtmpcast.loop_abs W hW env fuel s hb] at h
    exact rtmpcast.recLoop_writes_prefix W env fuel _ ret events h
  · rw [rtmpcast.loop_abs W hW env fuel s hb] at h
    exact rtmpcast.recLoop_writes_all W env hgood fuel _ hrun ret events h
  · rw [rtmpcast.loop_abs W hW env (fuel + 1) s hb]
    exact rtmpcast.recLoop_reject W env fuel _ hrun h11 hlen htr

/-- Witness of C4: the loop started after the header of the sample file writes its three
records, and with the last trailer byte changed it stops with `EXIT_FAILURE` at once when
started at that record. -/
theorem C4_records_forwarded_verbatim_witness :
    rtmpcast.writes
        [.rtmpWrite [9, 0, 0, 1, 0, 0, 0, 0, 0, 0, 0, 171, 0, 0, 0, 12],
          .rtmpWrite [8, 0, 0, 2, 0, 0, 40, 0, 0, 0, 0, 205, 239, 0, 0, 0, 13], .usleep 40,
          .rtmpWrite [9, 0, 0, 0, 0, 0, 90, 0, 0, 0, 0, 0, 0, 0, 11], .usleep 50]
      = rtmpcast.splitRecords 48 (sampleFlv.drop 13)
    ∧ rtmpcast.loop 64 (sampleEnv []) (0 + 1)
        ⟨⟨[9, 0, 0, 0, 0, 0, 90, 0, 0, 0, 0, 0, 0, 0, 12], 0, false, false⟩, fun _ => 0, 0,
          true, 0⟩
      = some (rtmpcast.EXIT_FAILURE, [.diag .sizeMismatch]) :=
  ⟨((C4_records_forwarded_verbatim 64 (by decide) (sampleEnv sampleFlv) 10
      ⟨⟨sampleFlv, 13, false, false⟩, fun _ => 0, 0, true, 0⟩ (by decide)).1 0 _
        (by decide)).2 (fun _ => ⟨rfl, rfl, rfl⟩) rfl,
    (C4_records_forwarded_verbatim 64 (by decide) (sampleEnv []) 0
      ⟨⟨[9, 0, 0, 0, 0, 0, 90, 0, 0, 0, 0, 0, 0, 0, 12], 0, false, false⟩, fun _ => 0, 0,
        true, 0⟩ (by decide)).2 rfl (by decide) (by decide) (by decide)⟩

/-- C6 (evaluation at the failing input): the sample file followed by the first 5 bytes of a
fourth record header.  `fread` returns 5, `feof` is true, so `running` is cleared and `main`
returns `EXIT_SUCCESS` after writing the three complete records; the partial record is not
written.  Cut inside a payload (41 bytes) or inside a trailer (44 bytes) the same file makes
`main` return `EXIT_FAILURE`. -/
theorem C6_partial_header_exits_success :
    rtmpcast.main 64 (sampleEnv (sampleFlv ++ [9, 0, 0, 5, 0]))
        = some (rtmpcast.EXIT_SUCCESS,
          [.malloc, .fopen, .containsVideo, .containsAudio, .startOffset 9, .rtmpAlloc,
            .rtmpConnect, .rtmpConnectStream,
            .rtmpWrite [9, 0, 0, 1, 0, 0, 0, 0, 0, 0, 0, 171, 0, 0, 0, 12],
            .rtmpWrite [8, 0, 0, 2, 0, 0, 40, 0, 0, 0, 0, 205, 239, 0, 0, 0, 13], .usleep 40,
            .rtmpWrite [9, 0, 0, 0, 0, 0, 90, 0, 0, 0, 0, 0, 0, 0, 11], .usleep 50])
      ∧ rtmpcast.main 64 (sampleEnv (sampleFlv.take 41))
        = some (rtmpcast.EXIT_FAILURE,
          [.malloc, .fopen, .containsVideo, .containsAudio, .startOffset 9, .rtmpAlloc,
            .rtmpConnect, .rtmpConnectStream,
            .rtmpWrite [9, 0, 0, 1, 0, 0, 0, 0, 0, 0, 0, 171, 0, 0, 0, 12],
            .diag .shortPayload])
      ∧ rtmpcast.main 64 (sampleEnv (sampleFlv.take 44))
        = some (rtmpcast.EXIT_FAILURE,
          [.malloc, .fopen, .containsVideo, .containsAudio, .startOffset 9, .rtmpAlloc,
            .rtmpConnect, .rtmpConnectStream,
            .rtmpWrite [9, 0, 0, 1, 0, 0, 0, 0, 0, 0, 0, 171, 0, 0, 0, 12],
            .diag .shortTagSize]) := by
  decide

/-- C7 (evaluation at the failing input): called with 0, 1, 2 or more than 3 arguments
(`argc ≠ 3`), in any environment, `main` of rtmpcast issues the usage text as its only event
and returns `EXIT_SUCCESS`: `ret` is initialised to `EXIT_SUCCESS` and the usage branch jumps
to `exit` without assigning it. -/
theorem C7_usage_returns_success (W : Nat) (env : rtmpcast.Env) (n : Nat) :
    rtmpcast.main W { env with argc := 0 } = some (rtmpcast.EXIT_SUCCESS, [.usage])
      ∧ rtmpcast.main W { env with argc := 1 } = some (rtmpcast.EXIT_SUCCESS, [.usage])
      ∧ rtmpcast.main W { env with argc := 2 } = some (rtmpcast.EXIT_SUCCESS, [.usage])
      ∧ rtmpcast.main W { env with argc := n + 4 } = some (rtmpcast.EXIT_SUCCESS, [.usage])
      ∧ rtmpcast.EXIT_SUCCESS = 0 := by
  refine ⟨rfl, rfl, rfl, ?_, rfl⟩
  unfold rtmpcast.main
  rw [if_pos (by simp)]

/-- C8: for the claim's own example, the file `sampleFlv` whose three records carry the
timestamps 0, 40 and 90 (every call succeeding), rtmpcast does not call `usleep` for record
1 and calls `usleep(40)` after record 2 and `usleep(50)` after record 3, the differences in
milliseconds passed unscaled.  The argument of `usleep` counts microseconds, so the run
sleeps 40 and 50 microseconds, 90 in all, where the claimed sleeps of 0, 40 and 50
milliseconds are the arguments 0, 40000 and 50000, 90000 in all.  The sibling programs
scale by 1000: a delay of 40 ms is `usleep(40000)` in testpattern and in waveform. -/
theorem C8_usleep_gets_milliseconds :
    (rtmpcast.splitRecords 48 (sampleFlv.drop 13)).map (rtmpcast.parsedTimestamp 64)
        = [0, 40, 90]
      ∧ rtmpcast.main 64 (sampleEnv sampleFlv)
        = some (rtmpcast.EXIT_SUCCESS,
            [.malloc, .fopen, .containsVideo, .containsAudio, .startOffset 9, .rtmpAlloc,
              .rtmpConnect, .rtmpConnectStream,
              .rtmpWrite [9, 0, 0, 1, 0, 0, 0, 0, 0, 0, 0, 171, 0, 0, 0, 12],
              .rtmpWrite [8, 0, 0, 2, 0, 0, 40, 0, 0, 0, 0, 205, 239, 0, 0, 0, 13],
              .usleep 40,
              .rtmpWrite [9, 0, 0, 0, 0, 0, 90, 0, 0, 0, 0, 0, 0, 0, 11],
              .usleep 50])
      ∧ (rtmpcast.main 64 (sampleEnv sampleFlv)).map (fun r => rtmpcast.usleeps r.2)
        = some [40, 50]
      ∧ (rtmpcast.main 64 (sampleEnv sampleFlv)).map (fun r => (rtmpcast.usleeps r.2).sum)
        = some 90
      ∧ rtmpcast.specSleeps 0 [0, 40, 90] = [0, 40, 50]
      ∧ (rtmpcast.specSleeps 0 [0, 40, 90]).map (fun ms => 1000 * ms) = [0, 40000, 50000]
      ∧ ((rtmpcast.specSleeps 0 [0, 40, 90]).map (fun ms => 1000 * ms)).sum = 90000
      ∧ testpattern.sleepEvents 40 = [.usleep 40000]
      ∧ waveform.sleepEvents 40 = [.usleep 40000] := by
  decide

/-- On a file whose records carry the timestamps 0, 40, 20, 90 (all writes succeeding) the
`usleep` calls are `usleep(40)` and `usleep(50)`, none for records 1 and 3: the fourth
record waits 50, its excess over the largest earlier timestamp 40, where the difference to
the previous record's timestamp is 70. -/
theorem unordered_sleeps_follow_running_maximum :
    (rtmpcast.main 64 (sampleEnv unorderedFlv)).map
        (fun r => (r.1, (rtmpcast.writes r.2).map (rtmpcast.parsedTimestamp 64)))
        = some (rtmpcast.EXIT_SUCCESS, [0, 40, 20, 90])
      ∧ (rtmpcast.main 64 (sampleEnv unorderedFlv)).map
          (fun r => rtmpcast.sleepPerRecord r.2) = some [0, 40, 0, 50]
      ∧ (rtmpcast.main 64 (sampleEnv unorderedFlv)).map
          (fun r => rtmpcast.usleeps r.2) = some [40, 50]
      ∧ rtmpcast.specSleeps 0 [0, 40, 20, 90] = [0, 40, 0, 70] := by
  decide

/-- In a run of the read loop in which every write and `select` succeeds and no signal
arrives, the argument of `usleep` for each record of the file (0 standing for a record
without a call) is the excess of its timestamp over the largest timestamp before it (over
`prevTimestamp` at the start, 0 in `main`); when the timestamps are non-decreasing and below
`2 ^ 32` that is `timestamp[n] - timestamp[n-1]`.  The calls themselves are given by
`pacer_running_maximum`. -/
theorem sleeps_excess_over_largest_earlier (W : Nat) (hW : 32 ≤ W) (env : rtmpcast.Env)
    (hgood : ∀ i, env.writeOk i = true ∧ env.selectOk i = true ∧ env.signal i = false)
    (fuel : Nat) (s : rtmpcast.LoopState) (hb : ∀ b ∈ s.flv.data, b < 256)
    (hrun : s.running = true) (ret : Nat) (events : List rtmpcast.Event)
    (h : rtmpcast.loop W env fuel s = some (ret, events)) :
    rtmpcast.sleepPerRecord events
        = rtmpcast.excessSleeps s.prevTimestamp
            ((rtmpcast.splitRecords (s.flv.data.drop s.flv.pos).length
              (s.flv.data.drop s.flv.pos)).map (rtmpcast.parsedTimestamp W))
      ∧ ((s.prevTimestamp :: (rtmpcast.splitRecords (s.flv.data.drop s.flv.pos).length
              (s.flv.data.drop s.flv.pos)).map (rtmpcast.parsedTimestamp W)).Pairwise (· ≤ ·) →
          (∀ t ∈ (rtmpcast.splitRecords (s.flv.data.drop s.flv.pos).length
              (s.flv.data.drop s.flv.pos)).map (rtmpcast.parsedTimestamp W), t < 4294967296) →
          rtmpcast.sleepPerRecord events
            = rtmpcast.specSleeps s.prevTimestamp
                ((rtmpcast.splitRecords (s.flv.data.drop s.flv.pos).length
                  (s.flv.data.drop s.flv.pos)).map (rtmpcast.parsedTimestamp W))) := by
  rw [rtmpcast.loop_abs W hW env fuel s hb] at h
  have := rtmpcast.recLoop_sleeps W env hgood fuel _ hrun ret events h
  refine ⟨?_, fun hs hlt => ?_⟩
  · rw [this, rtmpcast.paced_eq_excessSleeps]
    rfl
  · rw [this]
    exact rtmpcast.paced_sorted _ _ hs hlt

/-- The loop started after the header of the sample file, whose records carry the timestamps
0, 40, 90, passes the arguments 40 and 50 to `usleep`, none for the first record. -/
theorem sleeps_excess_over_largest_earlier_sample :
    rtmpcast.sleepPerRecord
        [.rtmpWrite [9, 0, 0, 1, 0, 0, 0, 0, 0, 0, 0, 171, 0, 0, 0, 12],
          .rtmpWrite [8, 0, 0, 2, 0, 0, 40, 0, 0, 0, 0, 205, 239, 0, 0, 0, 13], .usleep 40,
          .rtmpWrite [9, 0, 0, 0, 0, 0, 90, 0, 0, 0, 0, 0, 0, 0, 11], .usleep 50]
      = rtmpcast.specSleeps 0 [0, 40, 90]
    ∧ rtmpcast.specSleeps 0 [0, 40, 90] = [0, 40, 50] :=
  ⟨(sleeps_excess_over_largest_earlier 64 (by decide) (sampleEnv sampleFlv)
      (fun _ => ⟨rfl, rfl, rfl⟩) 10 ⟨⟨sampleFlv, 13, false, false⟩, fun _ => 0, 0, true, 0⟩
      (by decide) rfl 0 _ (by decide)).2 (by decide) (by decide), by decide⟩

/-- C10 (counterexample): the file `unorderedFlv` follows the record grammar from offset 13
to its end, its records carry the timestamps 0, 40, 20, 90, and `main` writes them in that
order, which is not non-decreasing. -/
theorem C10_unordered_file_written_unordered :
    (rtmpcast.splitRecords 63 (unorderedFlv.drop 13)).flatten = unorderedFlv.drop 13
      ∧ (rtmpcast.main 64 (sampleEnv unorderedFlv)).map
          (fun r => (rtmpcast.writes r.2).map (rtmpcast.parsedTimestamp 64))
          = some [0, 40, 20, 90]
      ∧ ¬ ([0, 40, 20, 90] : List Nat).Pairwise (· ≤ ·) := by
  decide

/-- C10 (amended): the loop writes the records in the order of the file: the timestamps of
the written records are an initial segment of the timestamps of the records in the file, so
they are non-decreasing whenever those of the file are. -/
theorem C10_writes_keep_file_order (W : Nat) (hW : 32 ≤ W) (env : rtmpcast.Env) (fuel : Nat)
    (s : rtmpcast.LoopState) (hb : ∀ b ∈ s.flv.data, b < 256) (ret : Nat)
    (events : List rtmpcast.Event) (h : rtmpcast.loop W env fuel s = some (ret, events)) :
    (rtmpcast.writes events).map (rtmpcast.parsedTimestamp W)
        <+: (rtmpcast.splitRecords (s.flv.data.drop s.flv.pos).length
              (s.flv.data.drop s.flv.pos)).map (rtmpcast.parsedTimestamp W)
      ∧ (((rtmpcast.splitRecords (s.flv.data.drop s.flv.pos).length
              (s.flv.data.drop s.flv.pos)).map (rtmpcast.parsedTimestamp W)).Pairwise (· ≤ ·) →
          ((rtmpcast.writes events).map (rtmpcast.parsedTimestamp W)).Pairwise (· ≤ ·)) := by
  rw [rtmpcast.loop_abs W hW env fuel s hb] at h
  have hp := (rtmpcast.recLoop_writes_prefix W env fuel _ ret events h).map
    (rtmpcast.parsedTimestamp W)
  exact ⟨hp, fun hs => hs.sublist hp.sublist⟩

/-- Witness of C10: the loop on the sample file writes records with the timestamps
0, 40, 90. -/
theorem C10_writes_keep_file_order_witness :
    ((rtmpcast.writes
        [.rtmpWrite [9, 0, 0, 1, 0, 0, 0, 0, 0, 0, 0, 171, 0, 0, 0, 12],
          .rtmpWrite [8, 0, 0, 2, 0, 0, 40, 0, 0, 0, 0, 205, 239, 0, 0, 0, 13], .usleep 40,
          .rtmpWrite [9, 0, 0, 0, 0, 0, 90, 0, 0, 0, 0, 0, 0, 0, 11], .usleep 50]).map
      (rtmpcast.parsedTimestamp 64)).Pairwise (· ≤ ·) :=
  (C10_writes_keep_file_order 64 (by decide) (sampleEnv sampleFlv) 10
    ⟨⟨sampleFlv, 13, false, false⟩, fun _ => 0, 0, true, 0⟩ (by decide) 0 _ (by decide)).2
    (by decide)

/-! ## Generation-driven pacing: `delay_time` in binary64 arithmetic -/

theorem shiftNeeded_spec (fuel n : Nat) (h : n ≤ fuel) :
    n < 2 ^ (53 + shiftNeeded fuel n)
      ∧ (shiftNeeded fuel n ≠ 0 → 2 ^ (52 + shiftNeeded fuel n) ≤ n) := by
  induction fuel generalizing n with
  | zero =>
    have : n = 0 := by omega
    subst this
    exact ⟨Nat.pow_pos (by norm_num), fun h => absurd rfl h⟩
  | succ k ih =>
    unfold shiftNeeded
    by_cases c : n < 9007199254740992
    · rw [if_pos c]
      exact ⟨by simpa using c, fun h => absurd rfl h⟩
    · rw [if_neg c]
      obtain ⟨h1, h2⟩ := ih (n / 2) (by omega)
      refine ⟨?_, fun _ => ?_⟩
      · rw [show 53 + (shiftNeeded k (n / 2) + 1) = (53 + shiftNeeded k (n / 2)) + 1 by omega,
          Nat.pow_succ]
        omega
      · rw [show 52 + (shiftNeeded k (n / 2) + 1) = (52 + shiftNeeded k (n / 2)) + 1 by omega,
          Nat.pow_succ]
        by_cases hz : shiftNeeded k (n / 2) = 0
        · rw [hz]
          norm_num
          omega
        · have := h2 hz
          omega

theorem roundNat_small (n : Nat) (b : Bool) (h : n < 9007199254740992) : roundNat n b = n := by
  unfold roundNat
  have : shiftNeeded n n = 0 := by
    cases n with
    | zero => rfl
    | succ k =>
      unfold shiftNeeded
      rw [if_pos h]
  simp [this]

/-- Rounding to 53 bits moves a value by at most `2 ^ -53` of itself. -/
theorem roundNat_err (n : Nat) (b : Bool) :
    (roundNat n b - n) * 9007199254740992 ≤ n ∧ (n - roundNat n b) * 9007199254740992 ≤ n := by
  unfold roundNat
  obtain ⟨_, h2⟩ := shiftNeeded_spec n n (Nat.le_refl n)
  generalize shiftNeeded n n = s at h2
  simp only
  by_cases hs : s = 0
  · rw [if_pos hs]
    simp
  rw [if_neg hs]
  have h2 := h2 hs
  obtain ⟨t, rfl⟩ : ∃ t, s = t + 1 := ⟨s - 1, by omega⟩
  have e1 : 2 ^ (52 + (t + 1)) = 9007199254740992 * 2 ^ t := by
    rw [show 52 + (t + 1) = 53 + t by omega, Nat.pow_add]
  have e2 : 2 ^ (t + 1) = 2 * 2 ^ t := by rw [Nat.pow_succ]; omega
  rw [e1] at h2
  simp only [Nat.add_sub_cancel, e2]
  have hdm := Nat.div_add_mod n (2 * 2 ^ t)
  have hlt : n % (2 * 2 ^ t) < 2 * 2 ^ t := Nat.mod_lt _ (by positivity)
  generalize n % (2 * 2 ^ t) = r at hdm hlt
  generalize n / (2 * 2 ^ t) = q at hdm
  generalize 2 ^ t = H at h2 hdm hlt
  have hq : (q + 1) * (2 * H) = 2 * H * q + 2 * H := by ring
  have hq' : q * (2 * H) = 2 * H * q := by ring
  generalize 2 * H * q = B at hdm hq hq'
  split_ifs with c
  · rw [hq]
    have : H ≤ r := by
      rcases c with c | c
      · omega
      · omega
    omega
  · rw [hq']
    have : r ≤ H := by
      by_contra hc
      exact c (Or.inl (by omega))
    omega

namespace testpattern

theorem TIMESTAMP_INCREMENT_eq :
    TIMESTAMP_INCREMENT = ⟨12895208742556043797191458816, 88⟩ := by decide

theorem F64_ofNat_small (n : Nat) (h : n < 9007199254740992) : F64.ofNat n = ⟨n, 0⟩ := by
  unfold F64.ofNat F64.round
  simp only
  rw [if_pos (by omega), Int.toNat_ofNat, roundNat_small n false h]

theorem F64_mul_nat (n : Nat) (M E : Nat) :
    F64.mul ⟨n, 0⟩ ⟨M, E⟩ = ⟨roundNat (n * M) false, E⟩ := by
  unfold F64.mul F64.round
  simp only [Nat.zero_add]
  rw [if_pos (by positivity)]
  have e1 : ((n : Int) * (M : Int)).toNat = n * M := by
    rw [show ((n : Int) * (M : Int)) = ((n * M : Nat) : Int) by push_cast; ring]
    exact Int.toNat_ofNat _
  rw [e1]

theorem F64_sub_nat (p d E : Nat) :
    F64.sub ⟨p, E⟩ ⟨d, 0⟩ =
      if d * 2 ^ E ≤ p then ⟨roundNat (p - d * 2 ^ E) false, E⟩
      else ⟨-(roundNat (d * 2 ^ E - p) false : Int), E⟩ := by
  unfold F64.sub F64.round
  simp only [Nat.add_zero, pow_zero, mul_one]
  have hc : ((d * 2 ^ E : Nat) : Int) = (d : Int) * 2 ^ E := by push_cast; ring
  by_cases c : d * 2 ^ E ≤ p
  · have c' : (0 : Int) ≤ (p : Int) - (d : Int) * 2 ^ E := by rw [← hc]; omega
    rw [if_pos c', if_pos c]
    have e2 : ((p : Int) - (d : Int) * 2 ^ E).toNat = p - d * 2 ^ E := by rw [← hc]; omega
    rw [e2]
  · have c' : ¬ (0 : Int) ≤ (p : Int) - (d : Int) * 2 ^ E := by rw [← hc]; omega
    rw [if_neg c', if_neg c]
    have e2 : (-((p : Int) - (d : Int) * 2 ^ E)).toNat = d * 2 ^ E - p := by rw [← hc]; omega
    rw [e2]

theorem F64_toInt_nat (x E : Nat) : F64.toInt ⟨x, E⟩ = ((x / 2 ^ E : Nat) : Int) := by
  unfold F64.toInt
  simp only
  rw [if_pos (by positivity), Int.toNat_ofNat]

theorem F64_toInt_neg (x E : Nat) : F64.toInt ⟨-(x : Int), E⟩ = -((x / 2 ^ E : Nat) : Int) := by
  unfold F64.toInt
  simp only
  by_cases c : x = 0
  · subst c
    simp
  · rw [if_neg (by omega), Int.neg_neg, Int.toNat_ofNat]

/-- The value of `delay_time` in terms of the two roundings it performs. -/
theorem delay_time_eq (n now start : Nat) (hn : n < 4294967296) :
    delay_time n now start =
      if ((now + 4294967296 - start) % 4294967296) * 2 ^ 88
          ≤ roundNat (n * 12895208742556043797191458816) false then
        ((roundNat (roundNat (n * 12895208742556043797191458816) false
          - ((now + 4294967296 - start) % 4294967296) * 2 ^ 88) false / 2 ^ 88 : Nat) : Int)
      else
        -((roundNat (((now + 4294967296 - start) % 4294967296) * 2 ^ 88
          - roundNat (n * 12895208742556043797191458816) false) false / 2 ^ 88 : Nat) : Int) := by
  have hd : (now + 4294967296 - start) % 4294967296 < 4294967296 := Nat.mod_lt _ (by norm_num)
  unfold delay_time
  generalize (now + 4294967296 - start) % 4294967296 = d at hd
  rw [TIMESTAMP_INCREMENT_eq, F64_ofNat_small n (by omega), F64_ofNat_small d (by omega)]
  have := F64_mul_nat n 12895208742556043797191458816 88
  simp only [Nat.cast_ofNat] at this
  rw [this, F64_sub_nat]
  split
  · rw [F64_toInt_nat]
  · rw [F64_toInt_neg]

/-- The computed delay, clamped at 0, is the delay of the spec formula or one millisecond
less, and one less only when `n * T - elapsed` is a whole number of milliseconds. -/
theorem delay_time_within_one (n now start : Nat) (hn : n < 4294967296) :
    (delay_time n now start).toNat
        = specDelay 24 n ((now + 4294967296 - start) % 4294967296)
      ∨ ((1000 * n - 24 * ((now + 4294967296 - start) % 4294967296)) % 24 = 0
        ∧ (delay_time n now start).toNat + 1
          = specDelay 24 n ((now + 4294967296 - start) % 4294967296)) := by
  rw [delay_time_eq n now start hn]
  have hd : (now + 4294967296 - start) % 4294967296 < 4294967296 := Nat.mod_lt _ (by norm_num)
  generalize (now + 4294967296 - start) % 4294967296 = d at hd
  unfold specDelay
  obtain ⟨hp1, hp2⟩ := roundNat_err (n * 12895208742556043797191458816) false
  generalize roundNat (n * 12895208742556043797191458816) false = p at hp1 hp2
  have e88 : (2 : Nat) ^ 88 = 309485009821345068724781056 := by norm_num
  rw [e88]
  by_cases c : d * 309485009821345068724781056 ≤ p
  · rw [if_pos c, Int.toNat_ofNat]
    obtain ⟨hx1, hx2⟩ := roundNat_err (p - d * 309485009821345068724781056) false
    generalize roundNat (p - d * 309485009821345068724781056) false = x at hx1 hx2
    omega
  · rw [if_neg c]
    obtain ⟨hx1, hx2⟩ := roundNat_err (d * 309485009821345068724781056 - p) false
    generalize roundNat (d * 309485009821345068724781056 - p) false = x at hx1 hx2
    have : (-((x / 309485009821345068724781056 : Nat) : Int)).toNat = 0 := by omega
    rw [this]
    omega

end testpattern

namespace testpattern

theorem step_next_shape (W : Nat) (env : Env) (start : Nat) (s s' : LoopState)
    (evs : List GenEvent) (h : step W env start s = .next s' evs) :
    s'.frame = (s.frame + 1) % 2 ^ W ∧ s'.iter = s.iter + 1
      ∧ ∃ pre, evs = pre ++ .gettimeofday :: sleepEvents (delay_time ((s.frame + 1) % 2 ^ W)
            (getTimestamp (env.clock s.iter).1 (env.clock s.iter).2) start)
          ∧ ∀ e ∈ pre, e ≠ .gettimeofday ∧ ∀ n, e ≠ .usleep n := by
  unfold step at h
  simp only at h
  split_ifs at h <;> injection h with h1 h2 <;> subst h1 <;> subst h2 <;>
    refine ⟨rfl, rfl, _, rfl, ?_⟩ <;> simp

theorem stateAfter_frame (W : Nat) (env : Env) (start k : Nat) (s0 s : LoopState)
    (h : stateAfter W env start k s0 = some s) :
    s.frame % 2 ^ W = (s0.frame + k) % 2 ^ W ∧ s.iter = s0.iter + k := by
  induction k generalizing s0 with
  | zero =>
    injection h with h
    subst h
    exact ⟨rfl, rfl⟩
  | succ k ih =>
    unfold stateAfter at h
    split_ifs at h
    cases hs : step W env start s0 with
    | exit r e => rw [hs] at h; cases h
    | next s1 e =>
      rw [hs] at h
      obtain ⟨hf, hi, _⟩ := step_next_shape W env start s0 s1 e hs
      obtain ⟨h1, h2⟩ := ih s1 h
      refine ⟨?_, by omega⟩
      rw [h1, hf, Nat.add_mod, Nat.mod_mod, ← Nat.add_mod]
      congr 1
      omega

end testpattern

namespace waveform

theorem wf_TIMESTAMP_INCREMENT_eq :
    TIMESTAMP_INCREMENT = ⟨3773471554167752422516417986822144, 107⟩ := by decide

/-- The value of `delay_time` of waveform.c in terms of the two roundings it performs. -/
theorem wf_delay_time_eq (n now start : Nat) (hn : n < 4294967296) :
    delay_time n now start =
      if ((now + 4294967296 - start) % 4294967296) * 2 ^ 107
          ≤ roundNat (n * 3773471554167752422516417986822144) false then
        ((roundNat (roundNat (n * 3773471554167752422516417986822144) false
          - ((now + 4294967296 - start) % 4294967296) * 2 ^ 107) false / 2 ^ 107 : Nat) : Int)
      else
        -((roundNat (((now + 4294967296 - start) % 4294967296) * 2 ^ 107
          - roundNat (n * 3773471554167752422516417986822144) false) false / 2 ^ 107 : Nat)
            : Int) := by
  have hd : (now + 4294967296 - start) % 4294967296 < 4294967296 := Nat.mod_lt _ (by norm_num)
  unfold delay_time
  generalize (now + 4294967296 - start) % 4294967296 = d at hd
  rw [wf_TIMESTAMP_INCREMENT_eq, testpattern.F64_ofNat_small n (by omega),
    testpattern.F64_ofNat_small d (by omega)]
  have := testpattern.F64_mul_nat n 3773471554167752422516417986822144 107
  simp only [Nat.cast_ofNat] at this
  rw [this, testpattern.F64_sub_nat]
  split
  · rw [testpattern.F64_toInt_nat]
  · rw [testpattern.F64_toInt_neg]

/-- In waveform too the computed delay, clamped at 0, is the delay of the spec formula (for
the tick `1000 / 43` ms of its `TIMESTAMP_INCREMENT`) or one millisecond less. -/
theorem wf_delay_time_within_one (n now start : Nat) (hn : n < 4294967296) :
    (delay_time n now start).toNat
        = specDelay 43 n ((now + 4294967296 - start) % 4294967296)
      ∨ ((1000 * n - 43 * ((now + 4294967296 - start) % 4294967296)) % 43 = 0
        ∧ (delay_time n now start).toNat + 1
          = specDelay 43 n ((now + 4294967296 - start) % 4294967296)) := by
  rw [wf_delay_time_eq n now start hn]
  have hd : (now + 4294967296 - start) % 4294967296 < 4294967296 := Nat.mod_lt _ (by norm_num)
  generalize (now + 4294967296 - start) % 4294967296 = d at hd
  unfold specDelay
  obtain ⟨hp1, hp2⟩ := roundNat_err (n * 3773471554167752422516417986822144) false
  generalize roundNat (n * 3773471554167752422516417986822144) false = p at hp1 hp2
  have e107 : (2 : Nat) ^ 107 = 162259276829213363391578010288128 := by norm_num
  rw [e107]
  by_cases c : d * 162259276829213363391578010288128 ≤ p
  · rw [if_pos c, Int.toNat_ofNat]
    obtain ⟨hx1, hx2⟩ := roundNat_err (p - d * 162259276829213363391578010288128) false
    generalize roundNat (p - d * 162259276829213363391578010288128) false = x at hx1 hx2
    omega
  · rw [if_neg c]
    obtain ⟨hx1, hx2⟩ := roundNat_err (d * 162259276829213363391578010288128 - p) false
    generalize roundNat (d * 162259276829213363391578010288128 - p) false = x at hx1 hx2
    have : (-((x / 162259276829213363391578010288128 : Nat) : Int)).toNat = 0 := by omega
    rw [this]
    omega

theorem wf_step_next_shape (W : Nat) (env : Env) (start : Nat) (s s' : LoopState)
    (evs : List GenEvent) (h : step W env start s = .next s' evs) :
    s'.frame = (s.frame + 1) % 2 ^ W ∧ s'.iter = s.iter + 1
      ∧ ∃ pre, evs = pre ++ .gettimeofday :: sleepEvents (delay_time ((s.frame + 1) % 2 ^ W)
            (getTimestamp (env.clock s.iter).1 (env.clock s.iter).2) start)
          ∧ ∀ e ∈ pre, e ≠ .gettimeofday ∧ ∀ n, e ≠ .usleep n := by
  unfold step at h
  simp only at h
  split_ifs at h <;> injection h with h1 h2 <;> subst h1 <;> subst h2 <;>
    refine ⟨rfl, rfl, _, rfl, ?_⟩ <;> simp

theorem wf_stateAfter_frame (W : Nat) (env : Env) (start k : Nat) (s0 s : LoopState)
    (h : stateAfter W env start k s0 = some s) :
    s.frame % 2 ^ W = (s0.frame + k) % 2 ^ W ∧ s.iter = s0.iter + k := by
  induction k generalizing s0 with
  | zero =>
    injection h with h
    subst h
    exact ⟨rfl, rfl⟩
  | succ k ih =>
    unfold stateAfter at h
    split_ifs at h
    cases hs : step W env start s0 with
    | exit r e => rw [hs] at h; cases h
    | next s1 e =>
      rw [hs] at h
      obtain ⟨hf, hi, _⟩ := wf_step_next_shape W env start s0 s1 e hs
      obtain ⟨h1, h2⟩ := ih s1 h
      refine ⟨?_, by omega⟩
      rw [h1, hf, Nat.add_mod, Nat.mod_mod, ← Nat.add_mod]
      congr 1
      omega

end waveform

/-! ## Claim on the generation-driven pacer -/

set_option maxRecDepth 4000 in
/-- C9 (counterexample): in testpattern, 8000 ms after the start, the delay computed after
tick 195 is 124 ms (`usleep(124000)`), while `195 * (1000 / 24) - 8000` is exactly 125 ms:
the `double` product `195 * (1000.0 / 24)` is `8125 - 2 ^ -40`, below 8125, and the
conversion to `int64_t` truncates. -/
theorem C9_delay_one_less_at_tick_195 :
    testpattern.delay_time 195 8000 0 = 124
      ∧ testpattern.sleepEvents (testpattern.delay_time 195 8000 0) = [.usleep 124000]
      ∧ specDelay 24 195 ((8000 + 4294967296 - 0) % 4294967296) = 125
      ∧ 24 * 125 = 1000 * 195 - 24 * 8000 := by
  decide

/-- C9 (amended): in testpattern and in waveform, the iteration of the generation loop that
completes tick `k + 1` (the loop having started with `frame = 0`) reads the clock once and
then issues exactly the sleep of `delay_time (k + 1) now start`, `now` being that reading: a
function of the tick number, the fixed `start` and the current clock only, whatever the
earlier iterations read, wrote or slept.  That delay, clamped at 0, is
`max(0, (k + 1) * T - ((now - start) mod 2 ^ 32))` in whole milliseconds (`T = 1000 / 24` in
testpattern, `1000 / 43` in waveform), or one millisecond less when that difference is a
whole number. -/
theorem C9_delay_from_fixed_origin (W : Nat) (hW : 32 ≤ W) (start k : Nat)
    (hk : k + 1 < 4294967296) :
    (∀ (env : testpattern.Env) (s0 s s' : testpattern.LoopState) (evs : List GenEvent),
        s0.frame = 0 → s0.iter = 0 → testpattern.stateAfter W env start k s0 = some s →
        testpattern.step W env start s = .next s' evs →
        ∃ pre, evs = pre ++ .gettimeofday :: testpattern.sleepEvents
              (testpattern.delay_time (k + 1)
                (testpattern.getTimestamp (env.clock k).1 (env.clock k).2) start)
          ∧ ∀ e ∈ pre, e ≠ .gettimeofday ∧ ∀ n, e ≠ .usleep n)
    ∧ (∀ (env : waveform.Env) (s0 s s' : waveform.LoopState) (evs : List GenEvent),
        s0.frame = 0 → s0.iter = 0 → waveform.stateAfter W env start k s0 = some s →
        waveform.step W env start s = .next s' evs →
        ∃ pre, evs = pre ++ .gettimeofday :: waveform.sleepEvents
              (waveform.delay_time (k + 1)
                (waveform.getTimestamp (env.clock k).1 (env.clock k).2) start)
          ∧ ∀ e ∈ pre, e ≠ .gettimeofday ∧ ∀ n, e ≠ .usleep n)
    ∧ (∀ now : Nat,
        (testpattern.delay_time (k + 1) now start).toNat
            = specDelay 24 (k + 1) ((now + 4294967296 - start) % 4294967296)
          ∨ ((1000 * (k + 1) - 24 * ((now + 4294967296 - start) % 4294967296)) % 24 = 0
            ∧ (testpattern.delay_time (k + 1) now start).toNat + 1
              = specDelay 24 (k + 1) ((now + 4294967296 - start) % 4294967296)))
    ∧ (∀ now : Nat,
        (waveform.delay_time (k + 1) now start).toNat
            = specDelay 43 (k + 1) ((now + 4294967296 - start) % 4294967296)
          ∨ ((1000 * (k + 1) - 43 * ((now + 4294967296 - start) % 4294967296)) % 43 = 0
            ∧ (waveform.delay_time (k + 1) now start).toNat + 1
              = specDelay 43 (k + 1) ((now + 4294967296 - start) % 4294967296))) := by
  have hpow : 4294967296 ≤ 2 ^ W := by
    calc 4294967296 = 2 ^ 32 := by norm_num
      _ ≤ 2 ^ W := Nat.pow_le_pow_right (by norm_num) hW
  have hmod : ∀ f : Nat, f % 2 ^ W = (0 + k) % 2 ^ W → (f + 1) % 2 ^ W = k + 1 := by
    intro f hf
    rw [Nat.add_mod, hf, Nat.zero_add, ← Nat.add_mod]
    exact Nat.mod_eq_of_lt (by omega)
  refine ⟨?_, ?_, fun now => testpattern.delay_time_within_one (k + 1) now start hk,
    fun now => waveform.wf_delay_time_within_one (k + 1) now start hk⟩
  · intro env s0 s s' evs hf hi hs hstep
    obtain ⟨h1, h2⟩ := testpattern.stateAfter_frame W env start k s0 s hs
    obtain ⟨_, _, pre, hev, hpre⟩ := testpattern.step_next_shape W env start s s' evs hstep
    rw [hf] at h1
    rw [hmod s.frame h1, h2, hi, Nat.zero_add] at hev
    exact ⟨pre, hev, hpre⟩
  · intro env s0 s s' evs hf hi hs hstep
    obtain ⟨h1, h2⟩ := waveform.wf_stateAfter_frame W env start k s0 s hs
    obtain ⟨_, _, pre, hev, hpre⟩ := waveform.wf_step_next_shape W env start s s' evs hstep
    rw [hf] at h1
    rw [hmod s.frame h1, h2, hi, Nat.zero_add] at hev
    exact ⟨pre, hev, hpre⟩

set_option maxRecDepth 4000 in
/-- Witness of C9 for testpattern with `start = 0`: the first iteration of the loop in
`sampleGenEnv` writes its record, reads the clock (60 ms) and issues the sleep of
`delay_time 1 60 0`, which is none; the formula gives 0 for tick 1 at 60 ms; and tick 2
completing at 70 ms sleeps 13 ms, to `2 * T` after the start. -/
theorem C9_delay_from_fixed_origin_witness :
    (∃ pre,
      [GenEvent.debugWrite [9, 0, 0, 8, 0, 0, 0, 0, 0, 0, 0, 23, 1, 0, 0, 0, 1, 2, 3, 0, 0, 0, 19],
        .rtmpWrite [9, 0, 0, 8, 0, 0, 0, 0, 0, 0, 0, 23, 1, 0, 0, 0, 1, 2, 3, 0, 0, 0, 19],
        .gettimeofday]
        = pre ++ .gettimeofday :: testpattern.sleepEvents
            (testpattern.delay_time (0 + 1)
              (testpattern.getTimestamp (sampleGenEnv.clock 0).1 (sampleGenEnv.clock 0).2) 0)
      ∧ ∀ e ∈ pre, e ≠ .gettimeofday ∧ ∀ n, e ≠ .usleep n)
    ∧ ((testpattern.delay_time (0 + 1) 60 0).toNat
        = specDelay 24 (0 + 1) ((60 + 4294967296 - 0) % 4294967296)
      ∨ ((1000 * (0 + 1) - 24 * ((60 + 4294967296 - 0) % 4294967296)) % 24 = 0
        ∧ (testpattern.delay_time (0 + 1) 60 0).toNat + 1
          = specDelay 24 (0 + 1) ((60 + 4294967296 - 0) % 4294967296)))
    ∧ testpattern.sleepEvents (testpattern.delay_time 1 60 0) = []
    ∧ testpattern.sleepEvents (testpattern.delay_time 2 70 0) = [.usleep 13000] :=
  ⟨(C9_delay_from_fixed_origin 64 (by decide) 0 0 (by decide)).1 sampleGenEnv
      ⟨fun _ => 0, 0, true, 0⟩ ⟨fun _ => 0, 0, true, 0⟩
      (match testpattern.step 64 sampleGenEnv 0 ⟨fun _ => 0, 0, true, 0⟩ with
        | .next s _ => s
        | .exit _ _ => ⟨fun _ => 0, 0, true, 0⟩) _ rfl rfl rfl rfl,
    (C9_delay_from_fixed_origin 64 (by decide) 0 0 (by decide)).2.2.1 60, by decide, by decide⟩

/-! ## Writers of the generators: AMF values, video packet header, decoder configuration -/

/-! ## Sequences of writes -/

theorem isWrite_congr {f g : Mem → Nat → Mem × Nat} {bs : List Nat}
    (h : ∀ m p, f m p = g m p) (hg : isWrite g bs) : isWrite f bs := by
  intro m p
  rw [h m p]
  exact hg m p

theorem isWrite_bytes {f : Mem → Nat → Mem × Nat} {a b : List Nat} (h : a = b)
    (hf : isWrite f a) : isWrite f b := h ▸ hf

theorem isWrite_nil : isWrite (fun m p => (m, p)) [] := by
  intro m p
  simp

theorem isWrite_store (v : Nat) : isWrite (fun m p => (store m p v, p + 1)) [v] := by
  intro m p
  refine ⟨rfl, ?_, ?_⟩
  · intro i hi
    simp only [List.length_singleton] at hi
    have : i = 0 := by omega
    subst this
    simp [store]
  · intro x hx
    simp only [List.length_singleton] at hx
    simp only [store]
    rw [if_neg (by omega)]

theorem isWrite_memcpy (src : List Nat) (n : Nat) :
    isWrite (fun m p => (memcpy m p src n, p + n))
      ((List.range n).map (fun i => src.getD i 0)) := by
  intro m p
  refine ⟨by simp, ?_, ?_⟩
  · intro i hi
    simp only [List.length_map, List.length_range] at hi
    simp only [memcpy]
    rw [if_pos (by omega)]
    simp [List.getD_eq_getElem?_getD, hi]
  · intro x hx
    simp only [List.length_map, List.length_range] at hx
    simp only [memcpy]
    rw [if_neg (by omega)]

theorem isWrite_seq {f g : Mem → Nat → Mem × Nat} {a b : List Nat}
    (hf : isWrite f a) (hg : isWrite g b) :
    isWrite (fun m p => g (f m p).1 (f m p).2) (a ++ b) := by
  intro m p
  obtain ⟨f1, f2, f3⟩ := hf m p
  obtain ⟨g1, g2, g3⟩ := hg (f m p).1 (f m p).2
  refine ⟨?_, ?_, ?_⟩
  · show (g (f m p).1 (f m p).2).2 = _
    rw [g1, f1, List.length_append]
    omega
  · intro i hi
    show (g (f m p).1 (f m p).2).1 (p + i) = _
    rw [List.length_append] at hi
    by_cases h : i < a.length
    · rw [g3 (p + i) (Or.inl (by omega)), f2 i h]
      simp [List.getD_eq_getElem?_getD, List.getElem?_append_left h]
    · have e : p + i = (f m p).2 + (i - a.length) := by omega
      rw [e, g2 (i - a.length) (by omega)]
      simp [List.getD_eq_getElem?_getD, List.getElem?_append_right (Nat.le_of_not_lt h)]
  · intro x hx
    show (g (f m p).1 (f m p).2).1 x = _
    rw [List.length_append] at hx
    rw [g3 x (by omega), f3 x (by omega)]

theorem isWrite_readBytes {f : Mem → Nat → Mem × Nat} {bs : List Nat} (h : isWrite f bs)
    (m : Mem) (p : Nat) : readBytes (f m p).1 p bs.length = bs := by
  apply List.ext_getElem
  · simp [readBytes_length]
  · intro i h1 h2
    rw [readBytes_getElem, (h m p).2.1 i h2]
    simp [List.getD_eq_getElem?_getD, h2]

theorem range_map_getD_take (src : List Nat) (n : Nat) (h : n ≤ src.length) :
    (List.range n).map (fun i => src.getD i 0) = src.take n := by
  apply List.ext_getElem
  · simp [h]
  · intro i h1 h2
    simp only [List.length_map, List.length_range] at h1
    simp [List.getD_eq_getElem?_getD, List.getElem?_eq_getElem (show i < src.length by omega)]

theorem beBytes_length (n v : Nat) : (beBytes n v).length = n := by
  induction n generalizing v with
  | zero => rfl
  | succ n ih => simp [beBytes, ih]

theorem beBytes_two (v : Nat) : beBytes 2 v = [v / 256 % 256, v % 256] := by
  simp [beBytes]

theorem fromBE_append (a : List Nat) (b : Nat) : fromBE (a ++ [b]) = fromBE a * 256 + b := by
  simp [fromBE, List.foldl_append]

theorem fromBE_beBytes (n v : Nat) (h : v < 256 ^ n) : fromBE (beBytes n v) = v := by
  induction n generalizing v with
  | zero =>
    simp at h
    subst h
    rfl
  | succ n ih =>
    rw [beBytes, fromBE_append, ih (v / 256) (by
      rw [Nat.div_lt_iff_lt_mul (by norm_num)]
      rw [pow_succ] at h
      exact h)]
    omega

theorem strlen_append_nul (s rest : List Nat) (h : ∀ c ∈ s, c ≠ 0) :
    strlen (s ++ 0 :: rest) = s.length := by
  unfold strlen
  induction s with
  | nil => simp
  | cons c s ih =>
    have hc : c ≠ 0 := h c (by simp)
    simp only [List.cons_append, List.takeWhile_cons]
    rw [if_pos (by simpa using hc)]
    simp only [List.length_cons]
    rw [ih (fun x hx => h x (by simp [hx]))]

theorem tp_u16be_isWrite (v : Nat) :
    isWrite (fun m p => testpattern.u16be m p v) (beBytes 2 v) := by
  refine isWrite_bytes (beBytes_two v).symm
    (isWrite_congr ?_ (isWrite_seq (isWrite_store (v / 256 % 256)) (isWrite_store (v % 256))))
  intro m p
  simp [testpattern.u16be, and_255, shr8]

theorem wf_u16be_isWrite (v : Nat) : isWrite (fun m p => waveform.u16be m p v) (beBytes 2 v) := by
  refine isWrite_bytes (beBytes_two v).symm
    (isWrite_congr ?_ (isWrite_seq (isWrite_store (v / 256 % 256)) (isWrite_store (v % 256))))
  intro m p
  simp [waveform.u16be, and_255, shr8]

theorem tp_u24be_isWrite (v : Nat) :
    isWrite (fun m p => testpattern.u24be m p v) (beBytes 3 v) := by
  refine isWrite_bytes (beBytes_three v).symm
    (isWrite_congr ?_ (isWrite_seq (isWrite_seq (isWrite_store (v / 65536 % 256))
      (isWrite_store (v / 256 % 256))) (isWrite_store (v % 256))))
  intro m p
  simp [testpattern.u24be, and_255, shr8, shr16]

theorem wf_u24be_isWrite (v : Nat) : isWrite (fun m p => waveform.u24be m p v) (beBytes 3 v) := by
  refine isWrite_bytes (beBytes_three v).symm
    (isWrite_congr ?_ (isWrite_seq (isWrite_seq (isWrite_store (v / 65536 % 256))
      (isWrite_store (v / 256 % 256))) (isWrite_store (v % 256))))
  intro m p
  simp [waveform.u24be, and_255, shr8, shr16]

theorem tp_u32be_isWrite (v : Nat) :
    isWrite (fun m p => testpattern.u32be m p v) (beBytes 4 v) := by
  refine isWrite_bytes (beBytes_four v).symm
    (isWrite_congr ?_ (isWrite_seq (isWrite_seq (isWrite_seq (isWrite_store (v / 16777216 % 256))
      (isWrite_store (v / 65536 % 256))) (isWrite_store (v / 256 % 256)))
      (isWrite_store (v % 256))))
  intro m p
  simp [testpattern.u32be, and_255, shr8, shr16, shr24]

/-! ## AMF writers -/

theorem hostBytes_reverse_getD (v i : Nat) (hi : i < 8) :
    (hostBytes false v).getD (7 - i) 0 = (beBytes 8 v).getD i 0 := by
  have h8 : (beBytes 8 v).length = 8 := beBytes_length 8 v
  simp only [hostBytes, Bool.false_eq_true, if_false, List.getD_eq_getElem?_getD]
  rw [List.getElem?_reverse (by omega)]
  congr 2
  omega

theorem range_eight : List.range 8 = [0, 1, 2, 3, 4, 5, 6, 7] := by decide

theorem f64be_isWrite (be : Bool) (v : Nat) :
    isWrite (fun m p => testpattern.f64be be m p v) (beBytes 8 v) := by
  have h8 : (beBytes 8 v).length = 8 := beBytes_length 8 v
  cases be with
  | true =>
    have ht : hostBytes true 0x3FF0000000000000 = [0x3F, 0xF0, 0, 0, 0, 0, 0, 0] := by decide
    refine isWrite_bytes ?_ (isWrite_congr ?_ (isWrite_memcpy (beBytes 8 v) 8))
    · rw [range_map_getD_take _ _ (by omega), List.take_of_length_le (by omega)]
    · intro m p
      simp only [testpattern.f64be, ht, if_true]
      simp [hostBytes]
  | false =>
    have ht : hostBytes false 0x3FF0000000000000 ≠ [0x3F, 0xF0, 0, 0, 0, 0, 0, 0] := by decide
    have hb : beBytes 8 v = (List.range 8).map (fun i => (beBytes 8 v).getD i 0) := by
      rw [range_map_getD_take _ _ (by omega), List.take_of_length_le (by omega)]
    rw [hb, range_eight]
    simp only [List.map_cons, List.map_nil]
    refine isWrite_congr ?_ (isWrite_seq (isWrite_seq (isWrite_seq (isWrite_seq (isWrite_seq
      (isWrite_seq (isWrite_seq (isWrite_store _) (isWrite_store _)) (isWrite_store _))
      (isWrite_store _)) (isWrite_store _)) (isWrite_store _)) (isWrite_store _))
      (isWrite_store _))
    intro m p
    simp only [testpattern.f64be, if_neg ht, range_eight, List.foldl_cons, List.foldl_nil]
    rw [← hostBytes_reverse_getD v 0 (by omega), ← hostBytes_reverse_getD v 1 (by omega),
      ← hostBytes_reverse_getD v 2 (by omega), ← hostBytes_reverse_getD v 3 (by omega),
      ← hostBytes_reverse_getD v 4 (by omega), ← hostBytes_reverse_getD v 5 (by omega),
      ← hostBytes_reverse_getD v 6 (by omega), ← hostBytes_reverse_getD v 7 (by omega)]
    rfl

theorem amf_number_isWrite (be : Bool) (v : Nat) :
    isWrite (fun m p => testpattern.amf_number be m p v) (0 :: beBytes 8 v) :=
  isWrite_congr (fun _ _ => rfl) (isWrite_seq (isWrite_store 0) (f64be_isWrite be v))

theorem tp_pstring_isWrite (str : List Nat) :
    isWrite (fun m p => testpattern.pstring m p str)
      (beBytes 2 (strlen str % 65536)
        ++ (List.range (strlen str % 65536)).map (fun i => str.getD i 0)) := by
  refine isWrite_congr ?_ (isWrite_seq (tp_u16be_isWrite (strlen str % 65536))
    (isWrite_memcpy str (strlen str % 65536)))
  intro m p
  simp only [testpattern.pstring, testpattern.u16be]

theorem wf_pstring_isWrite (str : List Nat) :
    isWrite (fun m p => waveform.pstring m p str)
      (beBytes 2 (strlen str % 65536)
        ++ (List.range (strlen str % 65536)).map (fun i => str.getD i 0)) :=
  isWrite_congr (fun _ _ => rfl) (isWrite_seq (wf_u16be_isWrite (strlen str % 65536))
    (isWrite_memcpy str (strlen str % 65536)))

theorem wf_pstring_eq (m : Mem) (p : Nat) (str : List Nat) :
    waveform.pstring m p str = testpattern.pstring m p str := rfl

theorem amf_string_isWrite (str : List Nat) :
    isWrite (fun m p => testpattern.amf_string m p str)
      (2 :: (beBytes 2 (strlen str % 65536)
        ++ (List.range (strlen str % 65536)).map (fun i => str.getD i 0))) :=
  isWrite_congr (fun _ _ => rfl) (isWrite_seq (isWrite_store 2) (tp_pstring_isWrite str))

/-- The bytes that `pstring` copies from a NUL-terminated string. -/
theorem cstring_copied (s rest : List Nat) (n : Nat) (h : n ≤ s.length) :
    (List.range n).map (fun i => (s ++ 0 :: rest).getD i 0) = s.take n := by
  rw [range_map_getD_take _ _ (by simp; omega), List.take_append_of_le_length h]

theorem isWrite_read {f : Mem → Nat → Mem × Nat} {bs : List Nat} (h : isWrite f bs)
    (m : Mem) (p n : Nat) (hn : n = bs.length) : readBytes (f m p).1 p n = bs := by
  subst hn
  exact isWrite_readBytes h m p

theorem pstring_cstring_isWrite (s rest : List Nat) (hs : ∀ c ∈ s, c ≠ 0) :
    isWrite (fun m p => testpattern.pstring m p (s ++ 0 :: rest))
      (beBytes 2 (s.length % 65536) ++ s.take (s.length % 65536)) := by
  have h := tp_pstring_isWrite (s ++ 0 :: rest)
  rw [strlen_append_nul s rest hs,
    cstring_copied s rest _ (Nat.mod_le _ _)] at h
  exact h

theorem amf_string_cstring_isWrite (s rest : List Nat) (hs : ∀ c ∈ s, c ≠ 0) :
    isWrite (fun m p => testpattern.amf_string m p (s ++ 0 :: rest))
      (2 :: (beBytes 2 (s.length % 65536) ++ s.take (s.length % 65536))) :=
  isWrite_congr (fun _ _ => rfl) (isWrite_seq (isWrite_store 2) (pstring_cstring_isWrite s rest hs))

/-- C13: for every 64-bit pattern `v` of a `double` and either byte order of the host,
`amf_number` returns `p + 9`, the 9 bytes from `p` on are the marker 0x00 and the 8 bytes of
`v` most significant first, no other address changes, the 8 bytes read back as a big-endian
number give `v`, and a pattern whose 9 bytes are the same is the same pattern. -/
theorem C13_amf_number_big_endian (bigEndian : Bool) (m : Mem) (p v : Nat) (hv : v < 2 ^ 64) :
    (testpattern.amf_number bigEndian m p v).2 = p + 9
      ∧ readBytes (testpattern.amf_number bigEndian m p v).1 p 9 = 0 :: beBytes 8 v
      ∧ (∀ x, x < p ∨ p + 9 ≤ x → (testpattern.amf_number bigEndian m p v).1 x = m x)
      ∧ fromBE (readBytes (testpattern.amf_number bigEndian m p v).1 (p + 1) 8) = v
      ∧ ∀ (bigEndian2 : Bool) (m2 : Mem) (p2 w : Nat), w < 2 ^ 64 →
          readBytes (testpattern.amf_number bigEndian2 m2 p2 w).1 p2 9
            = readBytes (testpattern.amf_number bigEndian m p v).1 p 9 → w = v := by
  have hlen : ∀ w : Nat, (0 :: beBytes 8 w).length = 9 := fun w => by simp [beBytes_length]
  have hw := amf_number_isWrite bigEndian v
  have hrd : ∀ (b : Bool) (m : Mem) (p w : Nat),
      readBytes (testpattern.amf_number b m p w).1 p 9 = 0 :: beBytes 8 w := fun b m p w =>
    isWrite_read (amf_number_isWrite b w) m p 9 (hlen w).symm
  have h256 : (256 : Nat) ^ 8 = 2 ^ 64 := by norm_num
  refine ⟨?_, hrd _ _ _ _, ?_, ?_, ?_⟩
  · rw [(hw m p).1, hlen]
  · intro x hx
    exact (hw m p).2.2 x (by rw [hlen]; exact hx)
  · have h := hrd bigEndian m p v
    rw [show (9 : Nat) = 1 + 8 from rfl, readBytes_add] at h
    have h2 : readBytes (testpattern.amf_number bigEndian m p v).1 (p + 1) 8 = beBytes 8 v := by
      have hl : (readBytes (testpattern.amf_number bigEndian m p v).1 p 1).length
          = ([0] : List Nat).length := by simp [readBytes_length]
      have h3 : readBytes (testpattern.amf_number bigEndian m p v).1 p 1
          ++ readBytes (testpattern.amf_number bigEndian m p v).1 (p + 1) 8
          = [0] ++ beBytes 8 v := h
      exact (List.append_inj h3 hl).2
    rw [h2]
    exact fromBE_beBytes 8 v (by rw [h256]; exact hv)
  · intro b2 m2 p2 w hw2 h
    rw [hrd, hrd] at h
    have h3 : beBytes 8 w = beBytes 8 v := by simpa using h
    rw [← fromBE_beBytes 8 w (by rw [h256]; exact hw2), h3,
      fromBE_beBytes 8 v (by rw [h256]; exact hv)]

/-- Witness of C13: the number 640.0 (pattern `40 84 00 00 00 00 00 00`) written on a
little-endian host. -/
theorem C13_amf_number_big_endian_witness :
    (0x4084000000000000 : Nat) < 2 ^ 64
      ∧ (testpattern.amf_number false (fun _ => 0) 0 0x4084000000000000).2 = 0 + 9
      ∧ readBytes (testpattern.amf_number false (fun _ => 0) 0 0x4084000000000000).1 0 9
          = 0 :: beBytes 8 0x4084000000000000
      ∧ beBytes 8 0x4084000000000000 = [0x40, 0x84, 0, 0, 0, 0, 0, 0] :=
  ⟨by decide,
    (C13_amf_number_big_endian false (fun _ => 0) 0 0x4084000000000000 (by decide)).1,
    (C13_amf_number_big_endian false (fun _ => 0) 0 0x4084000000000000 (by decide)).2.1,
    by decide⟩

/-- C14: for a NUL-free string `s` of at most 65535 bytes (stored with its terminating NUL,
whatever follows it in memory), `amf_string` returns `p + 3 + L` and the bytes from `p` on
are 0x02, `L` in 2 bytes big-endian and the bytes of `s`; `pstring` returns `p + 2 + L` and
writes the same without the marker; neither changes another address; and the `pstring` of
waveform.c gives the same memory and pointer as the one of testpattern.c. -/
theorem C14_string_length_prefixed (m : Mem) (p : Nat) (s rest : List Nat)
    (hs : ∀ c ∈ s, c ≠ 0) (hL : s.length ≤ 65535) :
    (testpattern.amf_string m p (s ++ 0 :: rest)).2 = p + 3 + s.length
      ∧ readBytes (testpattern.amf_string m p (s ++ 0 :: rest)).1 p (3 + s.length)
          = 0x02 :: (beBytes 2 s.length ++ s)
      ∧ (∀ x, x < p ∨ p + 3 + s.length ≤ x →
          (testpattern.amf_string m p (s ++ 0 :: rest)).1 x = m x)
      ∧ (testpattern.pstring m p (s ++ 0 :: rest)).2 = p + 2 + s.length
      ∧ readBytes (testpattern.pstring m p (s ++ 0 :: rest)).1 p (2 + s.length)
          = beBytes 2 s.length ++ s
      ∧ (∀ x, x < p ∨ p + 2 + s.length ≤ x →
          (testpattern.pstring m p (s ++ 0 :: rest)).1 x = m x)
      ∧ waveform.pstring m p (s ++ 0 :: rest) = testpattern.pstring m p (s ++ 0 :: rest) := by
  have hmod : s.length % 65536 = s.length := Nat.mod_eq_of_lt (by omega)
  have h1 := amf_string_cstring_isWrite s rest hs
  have h2 := pstring_cstring_isWrite s rest hs
  rw [hmod, List.take_length] at h1 h2
  have l1 : (2 :: (beBytes 2 s.length ++ s)).length = 3 + s.length := by
    simp [beBytes_length]; omega
  have l2 : (beBytes 2 s.length ++ s).length = 2 + s.length := by simp [beBytes_length]
  refine ⟨?_, isWrite_read h1 m p _ l1.symm, ?_, ?_, isWrite_read h2 m p _ l2.symm, ?_,
    wf_pstring_eq m p _⟩
  · rw [(h1 m p).1, l1]; omega
  · intro x hx
    exact (h1 m p).2.2 x (by rw [l1]; omega)
  · rw [(h2 m p).1, l2]; omega
  · intro x hx
    exact (h2 m p).2.2 x (by rw [l2]; omega)

/-- Witness of C14: the string "width" written at address 0. -/
theorem C14_string_length_prefixed_witness :
    (testpattern.amf_string (fun _ => 0) 0 ([0x77, 0x69, 0x64, 0x74, 0x68] ++ 0 :: [])).2
        = 0 + 3 + [0x77, 0x69, 0x64, 0x74, 0x68].length
      ∧ readBytes (testpattern.amf_string (fun _ => 0) 0
            ([0x77, 0x69, 0x64, 0x74, 0x68] ++ 0 :: [])).1 0
          (3 + [0x77, 0x69, 0x64, 0x74, 0x68].length)
          = 0x02 :: (beBytes 2 [0x77, 0x69, 0x64, 0x74, 0x68].length
              ++ [0x77, 0x69, 0x64, 0x74, 0x68]) :=
  ⟨(C14_string_length_prefixed (fun _ => 0) 0 [0x77, 0x69, 0x64, 0x74, 0x68] [] (by decide)
      (by decide)).1,
    (C14_string_length_prefixed (fun _ => 0) 0 [0x77, 0x69, 0x64, 0x74, 0x68] [] (by decide)
      (by decide)).2.1⟩

/-- C15 (counterexample): for the string of 65536 letters `A`, `pstring` of testpattern.c and
of waveform.c writes the length field `00 00`, copies no byte of the string (the two bytes
after the field keep their old value 0xEE) and returns `p + 2`; `amf_string` writes `02 00 00`
and returns `p + 3`.  The claim expects the field `FF FF` and 65535 letters. -/
theorem C15_length_wraps_at_65536 :
    (testpattern.pstring (fun _ => 0xEE) 0 (List.replicate 65536 0x41 ++ 0 :: [])).2 = 2
      ∧ readBytes (testpattern.pstring (fun _ => 0xEE) 0
          (List.replicate 65536 0x41 ++ 0 :: [])).1 0 4 = [0, 0, 0xEE, 0xEE]
      ∧ (waveform.pstring (fun _ => 0xEE) 0 (List.replicate 65536 0x41 ++ 0 :: [])).2 = 2
      ∧ readBytes (waveform.pstring (fun _ => 0xEE) 0
          (List.replicate 65536 0x41 ++ 0 :: [])).1 0 4 = [0, 0, 0xEE, 0xEE]
      ∧ (testpattern.amf_string (fun _ => 0xEE) 0 (List.replicate 65536 0x41 ++ 0 :: [])).2 = 3
      ∧ readBytes (testpattern.amf_string (fun _ => 0xEE) 0
          (List.replicate 65536 0x41 ++ 0 :: [])).1 0 5 = [2, 0, 0, 0xEE, 0xEE] := by
  have hs : ∀ c ∈ List.replicate 65536 0x41, c ≠ 0 := by
    intro c hc
    rw [List.eq_of_mem_replicate hc]
    decide
  have hl : (List.replicate 65536 0x41).length % 65536 = 0 := by
    rw [List.length_replicate]
  have h1 := pstring_cstring_isWrite (List.replicate 65536 0x41) [] hs
  have h2 := amf_string_cstring_isWrite (List.replicate 65536 0x41) [] hs
  rw [hl] at h1 h2
  have e1 : beBytes 2 0 ++ List.take 0 (List.replicate 65536 0x41) = [0, 0] := by
    simp [beBytes]
  rw [e1] at h1 h2
  have r1 : readBytes (testpattern.pstring (fun _ => 0xEE) 0
      (List.replicate 65536 0x41 ++ 0 :: [])).1 0 4 = [0, 0, 0xEE, 0xEE] := by
    rw [show (4 : Nat) = 2 + 2 from rfl, readBytes_add, isWrite_read h1 _ 0 2 rfl]
    simp only [readBytes, List.range, List.range.loop, List.map_cons, List.map_nil]
    rw [(h1 _ 0).2.2 (0 + 2 + 0) (Or.inr (by simp)), (h1 _ 0).2.2 (0 + 2 + 1) (Or.inr (by simp))]
    rfl
  refine ⟨(h1 _ 0).1, r1, (h1 _ 0).1, r1, (h2 _ 0).1, ?_⟩
  rw [show (5 : Nat) = 3 + 2 from rfl, readBytes_add, isWrite_read h2 _ 0 3 rfl]
  simp only [readBytes, List.range, List.range.loop, List.map_cons, List.map_nil]
  rw [(h2 _ 0).2.2 (0 + 3 + 0) (Or.inr (by simp)), (h2 _ 0).2.2 (0 + 3 + 1) (Or.inr (by simp))]
  rfl

/-- C15 (amended): the encoded length is not capped but reduced modulo 65536 by the
conversion to `uint16_t`: for every NUL-free string `s` of any length `L`, `pstring` (of
testpattern.c and of waveform.c) writes `L mod 65536` in 2 bytes big-endian followed by the
first `L mod 65536` bytes of `s`, returns `p + 2 + L mod 65536` and changes no other address;
`amf_string` writes the marker 0x02 before the same bytes. -/
theorem C15_length_field_modulo_65536 (m : Mem) (p : Nat) (s rest : List Nat)
    (hs : ∀ c ∈ s, c ≠ 0) :
    (testpattern.pstring m p (s ++ 0 :: rest)).2 = p + 2 + s.length % 65536
      ∧ readBytes (testpattern.pstring m p (s ++ 0 :: rest)).1 p (2 + s.length % 65536)
          = beBytes 2 (s.length % 65536) ++ s.take (s.length % 65536)
      ∧ (∀ x, x < p ∨ p + 2 + s.length % 65536 ≤ x →
          (testpattern.pstring m p (s ++ 0 :: rest)).1 x = m x)
      ∧ waveform.pstring m p (s ++ 0 :: rest) = testpattern.pstring m p (s ++ 0 :: rest)
      ∧ (testpattern.amf_string m p (s ++ 0 :: rest)).2 = p + 3 + s.length % 65536
      ∧ readBytes (testpattern.amf_string m p (s ++ 0 :: rest)).1 p (3 + s.length % 65536)
          = 0x02 :: (beBytes 2 (s.length % 65536) ++ s.take (s.length % 65536)) := by
  have hle : s.length % 65536 ≤ s.length := Nat.mod_le _ _
  have h1 := amf_string_cstring_isWrite s rest hs
  have h2 := pstring_cstring_isWrite s rest hs
  have l2 : (beBytes 2 (s.length % 65536) ++ s.take (s.length % 65536)).length
      = 2 + s.length % 65536 := by
    simp [beBytes_length, hle]
  have l1 : (2 :: (beBytes 2 (s.length % 65536) ++ s.take (s.length % 65536))).length
      = 3 + s.length % 65536 := by
    rw [List.length_cons, l2]; omega
  refine ⟨?_, isWrite_read h2 m p _ l2.symm, ?_, wf_pstring_eq m p _, ?_,
    isWrite_read h1 m p _ l1.symm⟩
  · rw [(h2 m p).1, l2]; omega
  · intro x hx
    exact (h2 m p).2.2 x (by rw [l2]; omega)
  · rw [(h1 m p).1, l1]; omega

/-- Witness of C15 (amended): the string "AB" written at address 0. -/
theorem C15_length_field_modulo_65536_witness :
    (testpattern.pstring (fun _ => 0) 0 ([0x41, 0x42] ++ 0 :: [])).2
        = 0 + 2 + [0x41, 0x42].length % 65536
      ∧ readBytes (testpattern.pstring (fun _ => 0) 0 ([0x41, 0x42] ++ 0 :: [])).1 0
          (2 + [0x41, 0x42].length % 65536)
          = beBytes 2 ([0x41, 0x42].length % 65536)
              ++ [0x41, 0x42].take ([0x41, 0x42].length % 65536) :=
  ⟨(C15_length_field_modulo_65536 (fun _ => 0) 0 [0x41, 0x42] [] (by decide)).1,
    (C15_length_field_modulo_65536 (fun _ => 0) 0 [0x41, 0x42] [] (by decide)).2.1⟩

theorem tp_AVCVideoPacket_isWrite (k t : Nat) (c : Int) :
    isWrite (fun m p => testpattern.flv_AVCVideoPacket m p k t c)
      ((if k ≠ 0 then 0x17 else 0x27) :: t % 256 :: beBytes 3 (toU32 c)) := by
  refine isWrite_congr ?_ (isWrite_seq (isWrite_seq (isWrite_store (if k ≠ 0 then 0x17 else 0x27))
    (isWrite_store (t % 256))) (tp_u24be_isWrite (toU32 c)))
  intro m p
  by_cases hk : k ≠ 0
  · simp only [testpattern.flv_AVCVideoPacket, if_pos hk]
  · simp only [testpattern.flv_AVCVideoPacket, if_neg hk]

theorem wf_AVCVideoPacket_isWrite (k t : Nat) (c : Int) :
    isWrite (fun m p => waveform.flv_AVCVideoPacket m p k t c)
      ((if k ≠ 0 then 0x17 else 0x27) :: t :: beBytes 3 (toU32 c)) := by
  refine isWrite_congr ?_ (isWrite_seq (isWrite_seq (isWrite_store (if k ≠ 0 then 0x17 else 0x27))
    (isWrite_store t)) (wf_u24be_isWrite (toU32 c)))
  intro m p
  by_cases hk : k ≠ 0
  · simp only [waveform.flv_AVCVideoPacket, if_pos hk]
  · simp only [waveform.flv_AVCVideoPacket, if_neg hk]

theorem toU32_small (c : Int) (h0 : 0 ≤ c) (h1 : c < 4294967296) : toU32 c = c.toNat := by
  unfold toU32
  omega

/-- C17: for every keyframe flag `k`, subtype byte and composition time `c` with
`0 ≤ c < 2 ^ 24`, `flv_AVCVideoPacket` of testpattern.c and of waveform.c returns `p + 5`, the
5 bytes from `p` on are 0x17 (`k` non-zero) or 0x27 (`k` zero), the subtype and `c` in 3 bytes
big-endian, and no other address changes. -/
theorem C17_video_packet_header (m : Mem) (p k subtype : Nat) (c : Int) (hs : subtype < 256)
    (h0 : 0 ≤ c) (h1 : c < 2 ^ 24) :
    (testpattern.flv_AVCVideoPacket m p k subtype c).2 = p + 5
      ∧ readBytes (testpattern.flv_AVCVideoPacket m p k subtype c).1 p 5
          = (if k ≠ 0 then 0x17 else 0x27) :: subtype :: beBytes 3 c.toNat
      ∧ (∀ x, x < p ∨ p + 5 ≤ x →
          (testpattern.flv_AVCVideoPacket m p k subtype c).1 x = m x)
      ∧ (waveform.flv_AVCVideoPacket m p k subtype c).2 = p + 5
      ∧ readBytes (waveform.flv_AVCVideoPacket m p k subtype c).1 p 5
          = (if k ≠ 0 then 0x17 else 0x27) :: subtype :: beBytes 3 c.toNat
      ∧ (∀ x, x < p ∨ p + 5 ≤ x →
          (waveform.flv_AVCVideoPacket m p k subtype c).1 x = m x) := by
  have h1 := tp_AVCVideoPacket_isWrite k subtype c
  have h2 := wf_AVCVideoPacket_isWrite k subtype c
  rw [toU32_small c h0 (by omega), Nat.mod_eq_of_lt hs] at h1
  rw [toU32_small c h0 (by omega)] at h2
  have l : ((if k ≠ 0 then 0x17 else 0x27) :: subtype :: beBytes 3 c.toNat).length = 5 := by
    simp [beBytes_length]
  refine ⟨?_, isWrite_read h1 m p 5 l.symm, ?_, ?_, isWrite_read h2 m p 5 l.symm, ?_⟩
  · rw [(h1 m p).1, l]
  · intro x hx
    exact (h1 m p).2.2 x (by rw [l]; exact hx)
  · rw [(h2 m p).1, l]
  · intro x hx
    exact (h2 m p).2.2 x (by rw [l]; exact hx)

/-- Witness of C17: a key frame of subtype 1 with composition time 0x012345 at address 7. -/
theorem C17_video_packet_header_witness :
    (testpattern.flv_AVCVideoPacket (fun _ => 0) 7 1 1 0x012345).2 = 7 + 5
      ∧ readBytes (testpattern.flv_AVCVideoPacket (fun _ => 0) 7 1 1 0x012345).1 7 5
          = (if 1 ≠ 0 then 0x17 else 0x27) :: 1 :: beBytes 3 (Int.toNat 0x012345)
      ∧ (if 1 ≠ 0 then 0x17 else 0x27) :: 1 :: beBytes 3 (Int.toNat 0x012345)
          = [0x17, 1, 0x01, 0x23, 0x45] :=
  ⟨(C17_video_packet_header (fun _ => 0) 7 1 1 0x012345 (by decide) (by decide) (by decide)).1,
    (C17_video_packet_header (fun _ => 0) 7 1 1 0x012345 (by decide) (by decide) (by decide)).2.1,
    by decide⟩

theorem memcpy_head_isWrite (a rest : List Nat) :
    isWrite (fun m p => (memcpy m p (a ++ rest) a.length, p + a.length)) a := by
  refine isWrite_bytes ?_ (isWrite_memcpy (a ++ rest) a.length)
  rw [range_map_getD_take _ _ (by simp), List.take_left' rfl]

theorem tp_configRecord_isWrite (sps rest1 pps rest2 : List Nat) (ha : 4 ≤ sps.length) :
    isWrite (fun m p => testpattern.h264_AVCDecoderConfigurationRecord m p (sps ++ rest1)
        sps.length (pps ++ rest2) pps.length)
      ([1, sps.getD 1 0, sps.getD 2 0, sps.getD 3 0, 0xFF, 0xE1] ++ beBytes 2 sps.length ++ sps
        ++ beBytes 2 pps.length ++ pps) := by
  have g : ∀ i, i < 4 → (sps ++ rest1).getD i 0 = sps.getD i 0 := by
    intro i hi
    simp [List.getD_eq_getElem?_getD, List.getElem?_append_left (show i < sps.length by omega)]
  refine isWrite_congr ?_ (isWrite_seq (isWrite_seq (isWrite_seq (isWrite_seq
    (isWrite_seq (isWrite_seq (isWrite_seq (isWrite_seq (isWrite_seq (isWrite_store 1)
      (isWrite_store (sps.getD 1 0))) (isWrite_store (sps.getD 2 0)))
      (isWrite_store (sps.getD 3 0))) (isWrite_store 0xFF)) (isWrite_store 0xE1))
    (tp_u16be_isWrite sps.length)) (memcpy_head_isWrite sps rest1))
    (tp_u16be_isWrite pps.length)) (memcpy_head_isWrite pps rest2))
  intro m p
  simp only [testpattern.h264_AVCDecoderConfigurationRecord, testpattern.u16be,
    g 1 (by omega), g 2 (by omega), g 3 (by omega)]
  rfl

theorem wf_configRecord_eq (m : Mem) (p : Nat) (sps : List Nat) (a : Nat) (pps : List Nat)
    (b : Nat) :
    waveform.h264_AVCDecoderConfigurationRecord m p sps a pps b
      = testpattern.h264_AVCDecoderConfigurationRecord m p sps a pps b := rfl

/-- C18: for an SPS of `a` bytes (`4 ≤ a ≤ 65535`) and a PPS of `b ≤ 65535` bytes (whatever
follows them in memory), `h264_AVCDecoderConfigurationRecord` of testpattern.c returns
`p + 10 + a + b`, the `10 + a + b` bytes from `p` on are 0x01, `sps[1]`, `sps[2]`, `sps[3]`,
0xFF, 0xE1, `a` in 2 bytes big-endian, the SPS, `b` in 2 bytes big-endian, the PPS, and no
other address changes; the function of waveform.c gives the same memory and pointer. -/
theorem C18_decoder_configuration_record (m : Mem) (p : Nat) (sps rest1 pps rest2 : List Nat)
    (ha : 4 ≤ sps.length) (ha2 : sps.length ≤ 65535) (hb : pps.length ≤ 65535) :
    (testpattern.h264_AVCDecoderConfigurationRecord m p (sps ++ rest1) sps.length
        (pps ++ rest2) pps.length).2 = p + 10 + sps.length + pps.length
      ∧ readBytes (testpattern.h264_AVCDecoderConfigurationRecord m p (sps ++ rest1) sps.length
          (pps ++ rest2) pps.length).1 p (10 + sps.length + pps.length)
          = [0x01, sps.getD 1 0, sps.getD 2 0, sps.getD 3 0, 0xFF, 0xE1]
              ++ [sps.length / 256, sps.length % 256] ++ sps
              ++ [pps.length / 256, pps.length % 256] ++ pps
      ∧ (∀ x, x < p ∨ p + 10 + sps.length + pps.length ≤ x →
          (testpattern.h264_AVCDecoderConfigurationRecord m p (sps ++ rest1) sps.length
            (pps ++ rest2) pps.length).1 x = m x)
      ∧ waveform.h264_AVCDecoderConfigurationRecord m p (sps ++ rest1) sps.length
          (pps ++ rest2) pps.length
        = testpattern.h264_AVCDecoderConfigurationRecord m p (sps ++ rest1) sps.length
          (pps ++ rest2) pps.length := by
  have h := tp_configRecord_isWrite sps rest1 pps rest2 ha
  have e1 : beBytes 2 sps.length = [sps.length / 256, sps.length % 256] := by
    rw [beBytes_two, Nat.mod_eq_of_lt (show sps.length / 256 < 256 by omega)]
  have e2 : beBytes 2 pps.length = [pps.length / 256, pps.length % 256] := by
    rw [beBytes_two, Nat.mod_eq_of_lt (show pps.length / 256 < 256 by omega)]
  rw [e1, e2] at h
  have l : ([0x01, sps.getD 1 0, sps.getD 2 0, sps.getD 3 0, 0xFF, 0xE1]
      ++ [sps.length / 256, sps.length % 256] ++ sps
      ++ [pps.length / 256, pps.length % 256] ++ pps).length
      = 10 + sps.length + pps.length := by
    simp; omega
  refine ⟨?_, isWrite_read h m p _ l.symm, ?_, wf_configRecord_eq _ _ _ _ _ _⟩
  · rw [(h m p).1, l]; omega
  · intro x hx
    exact (h m p).2.2 x (by rw [l]; omega)

/-- Witness of C18: the SPS `67 42 C0 1E` and the PPS `68 CE` written at address 0. -/
theorem C18_decoder_configuration_record_witness :
    readBytes (testpattern.h264_AVCDecoderConfigurationRecord (fun _ => 0) 0
        ([0x67, 0x42, 0xC0, 0x1E] ++ []) [0x67, 0x42, 0xC0, 0x1E].length
        ([0x68, 0xCE] ++ []) [0x68, 0xCE].length).1 0
        (10 + [0x67, 0x42, 0xC0, 0x1E].length + [0x68, 0xCE].length)
      = [0x01, [0x67, 0x42, 0xC0, 0x1E].getD 1 0, [0x67, 0x42, 0xC0, 0x1E].getD 2 0,
            [0x67, 0x42, 0xC0, 0x1E].getD 3 0, 0xFF, 0xE1]
          ++ [[0x67, 0x42, 0xC0, 0x1E].length / 256, [0x67, 0x42, 0xC0, 0x1E].length % 256]
          ++ [0x67, 0x42, 0xC0, 0x1E]
          ++ [[0x68, 0xCE].length / 256, [0x68, 0xCE].length % 256] ++ [0x68, 0xCE] :=
  (C18_decoder_configuration_record (fun _ => 0) 0 [0x67, 0x42, 0xC0, 0x1E] [] [0x68, 0xCE] []
    (by decide) (by decide) (by decide)).2.1

theorem entry_isWrite (be : Bool) (k rest : List Nat) (v : Nat) (hk : ∀ c ∈ k, c ≠ 0)
    (hL : k.length ≤ 65535) :
    isWrite (fun m p => testpattern.amf_ecma_array_entry be m p (k ++ 0 :: rest) v)
      (beBytes 2 k.length ++ k ++ 0 :: beBytes 8 v) := by
  have h := pstring_cstring_isWrite k rest hk
  rw [Nat.mod_eq_of_lt (show k.length < 65536 by omega), List.take_length] at h
  exact isWrite_congr (fun _ _ => rfl) (isWrite_seq h (amf_number_isWrite be v))

theorem entries_isWrite (be : Bool) (pairs : List (List Nat × Nat))
    (h : ∀ kv ∈ pairs, (∀ c ∈ kv.1, c ≠ 0) ∧ kv.1.length ≤ 65535)
    (f : Mem → Nat → Mem × Nat) (a : List Nat) (hf : isWrite f a) :
    isWrite (fun m p => (pairs.map (fun kv => (kv.1 ++ [0], kv.2))).foldl
        (fun r kv => testpattern.amf_ecma_array_entry be r.1 r.2 kv.1 kv.2) (f m p))
      (a ++ (pairs.map
        (fun kv => beBytes 2 kv.1.length ++ kv.1 ++ 0 :: beBytes 8 kv.2)).flatten) := by
  induction pairs generalizing f a with
  | nil => simpa using hf
  | cons kv rest ih =>
    have hkv := h kv (by simp)
    have hstep := isWrite_seq hf (entry_isWrite be kv.1 [] kv.2 hkv.1 hkv.2)
    have := ih (fun x hx => h x (by simp [hx])) _ _ hstep
    simpa [List.append_assoc] using this

theorem writeEcmaArray_isWrite (be : Bool) (pairs : List (List Nat × Nat))
    (h : ∀ kv ∈ pairs, (∀ c ∈ kv.1, c ≠ 0) ∧ kv.1.length ≤ 65535) :
    isWrite (fun m p => testpattern.writeEcmaArray be m p
        (pairs.map (fun kv => (kv.1 ++ [0], kv.2)))) (specEcmaBytes pairs) := by
  have h0 : isWrite (fun m p => testpattern.amf_ecma_array m p pairs.length)
      ([8] ++ beBytes 4 pairs.length) :=
    isWrite_congr (fun _ _ => rfl) (isWrite_seq (isWrite_store 8) (tp_u32be_isWrite pairs.length))
  have h1 := entries_isWrite be pairs h _ _ h0
  have h2 : isWrite (fun m p => testpattern.amf_ecma_array_end m p) [0, 0, 9] :=
    isWrite_bytes (by decide) (tp_u24be_isWrite 9)
  refine isWrite_congr ?_ (isWrite_seq h1 h2)
  intro m p
  simp only [testpattern.writeEcmaArray, List.length_map]

theorem specDecodePairs_entries (pairs : List (List Nat × Nat)) (tail : List Nat)
    (h : ∀ kv ∈ pairs, kv.1.length ≤ 65535 ∧ kv.2 < 2 ^ 64) :
    specDecodePairs pairs.length
      ((pairs.map (fun kv => beBytes 2 kv.1.length ++ kv.1 ++ 0 :: beBytes 8 kv.2)).flatten ++ tail)
      = some (pairs, tail) := by
  induction pairs with
  | nil => simp [specDecodePairs]
  | cons kv rest ih =>
    obtain ⟨hL, hv⟩ := h kv (by simp)
    have ih2 := ih (fun x hx => h x (by simp [hx]))
    obtain ⟨k, v⟩ := kv
    simp only at hL hv
    have h8 : (beBytes 8 v).length = 8 := beBytes_length 8 v
    have hlen : k.length / 256 % 256 * 256 + k.length % 256 = k.length := by omega
    have e : ((((k, v) :: rest).map
          (fun kv => beBytes 2 kv.1.length ++ kv.1 ++ 0 :: beBytes 8 kv.2)).flatten ++ tail)
        = (k.length / 256 % 256) :: (k.length % 256) ::
          (k ++ (0 :: (beBytes 8 v ++ ((rest.map
            (fun kv => beBytes 2 kv.1.length ++ kv.1 ++ 0 :: beBytes 8 kv.2)).flatten
              ++ tail)))) := by
      simp [beBytes_two, List.append_assoc]
    rw [e, List.length_cons, specDecodePairs]
    simp only [hlen]
    have d1 : ∀ X : List Nat, (k ++ (0 :: (beBytes 8 v ++ X))).drop k.length
        = 0 :: (beBytes 8 v ++ X) := fun X => List.drop_left' rfl
    have d2 : ∀ X : List Nat, (k ++ (0 :: (beBytes 8 v ++ X))).drop (k.length + 1)
        = beBytes 8 v ++ X := by
      intro X
      rw [← List.drop_drop, d1]
      rfl
    have d3 : ∀ X : List Nat, (k ++ (0 :: (beBytes 8 v ++ X))).drop (k.length + 9) = X := by
      intro X
      rw [show k.length + 9 = (k.length + 1) + 8 by omega, ← List.drop_drop, d2]
      exact List.drop_left' h8
    have t1 : ∀ X : List Nat, (k ++ (0 :: (beBytes 8 v ++ X))).take k.length = k :=
      fun X => List.take_left' rfl
    rw [if_neg (by simp [h8]), d1, d2, d3, t1, ih2]
    simp only [List.head?_cons, ne_eq, not_true_eq_false, if_false, Option.map_some',
      List.take_left' h8]
    rw [fromBE_beBytes 8 v (by norm_num; omega)]

/-- C16: for every list of (key, number) pairs with fewer than `2 ^ 32` pairs, NUL-free keys
of at most 65535 bytes and 64-bit number patterns, on a host of either byte order, the calls
`amf_ecma_array(p, n)`, `amf_ecma_array_entry` for each pair in list order and
`amf_ecma_array_end` write exactly: 0x08, `n` in 4 bytes big-endian, per pair in the same
order the key length in 2 bytes big-endian, the key bytes, 0x00 and the 8 bytes of the
number, then `00 00 09`; no other address changes; and a reader of that format gets back the
count `n` and the same list of pairs, duplicates included. -/
theorem C16_ecma_array_layout (bigEndian : Bool) (m : Mem) (p : Nat)
    (pairs : List (List Nat × Nat)) (hn : pairs.length < 2 ^ 32)
    (h : ∀ kv ∈ pairs, (∀ c ∈ kv.1, c ≠ 0) ∧ kv.1.length ≤ 65535 ∧ kv.2 < 2 ^ 64) :
    (testpattern.writeEcmaArray bigEndian m p (pairs.map (fun kv => (kv.1 ++ [0], kv.2)))).2
        = p + (specEcmaBytes pairs).length
      ∧ readBytes (testpattern.writeEcmaArray bigEndian m p
          (pairs.map (fun kv => (kv.1 ++ [0], kv.2)))).1 p (specEcmaBytes pairs).length
        = [8] ++ beBytes 4 pairs.length
            ++ (pairs.map
                (fun kv => beBytes 2 kv.1.length ++ kv.1 ++ 0 :: beBytes 8 kv.2)).flatten
            ++ [0, 0, 9]
      ∧ (∀ x, x < p ∨ p + (specEcmaBytes pairs).length ≤ x →
          (testpattern.writeEcmaArray bigEndian m p
            (pairs.map (fun kv => (kv.1 ++ [0], kv.2)))).1 x = m x)
      ∧ specDecodeEcmaArray (readBytes (testpattern.writeEcmaArray bigEndian m p
          (pairs.map (fun kv => (kv.1 ++ [0], kv.2)))).1 p (specEcmaBytes pairs).length)
        = some (pairs.length, pairs) := by
  have hw := writeEcmaArray_isWrite bigEndian pairs
    (fun kv hkv => ⟨(h kv hkv).1, (h kv hkv).2.1⟩)
  have hr := isWrite_read hw m p _ rfl
  refine ⟨(hw m p).1, hr, (hw m p).2.2, ?_⟩
  rw [hr]
  have e : specEcmaBytes pairs = 8 :: (pairs.length / 16777216 % 256)
      :: (pairs.length / 65536 % 256) :: (pairs.length / 256 % 256) :: (pairs.length % 256)
      :: ((pairs.map (fun kv => beBytes 2 kv.1.length ++ kv.1 ++ 0 :: beBytes 8 kv.2)).flatten
        ++ [0, 0, 9]) := by
    simp [specEcmaBytes, beBytes_four]
  have hc : fromBE [pairs.length / 16777216 % 256, pairs.length / 65536 % 256,
      pairs.length / 256 % 256, pairs.length % 256] = pairs.length := by
    rw [← beBytes_four]
    exact fromBE_beBytes 4 _ (by norm_num at hn ⊢; exact hn)
  rw [e, specDecodeEcmaArray, hc,
    specDecodePairs_entries pairs [0, 0, 9] (fun kv hkv => ⟨(h kv hkv).2.1, (h kv hkv).2.2⟩)]

/-- Witness of C16: the pairs ("w", 640.0), ("h", 360.0), ("w", 640.0), with a repeated key,
written at address 0 on a little-endian host. -/
theorem C16_ecma_array_layout_witness :
    specDecodeEcmaArray (readBytes (testpattern.writeEcmaArray false (fun _ => 0) 0
        ([([0x77], 0x4084000000000000), ([0x68], 0x4076800000000000),
          ([0x77], 0x4084000000000000)].map (fun kv => (kv.1 ++ [0], kv.2)))).1 0
        (specEcmaBytes [([0x77], 0x4084000000000000), ([0x68], 0x4076800000000000),
          ([0x77], 0x4084000000000000)]).length)
      = some ([([0x77], 0x4084000000000000), ([0x68], 0x4076800000000000),
          ([0x77], 0x4084000000000000)].length,
        [([0x77], 0x4084000000000000), ([0x68], 0x4076800000000000),
          ([0x77], 0x4084000000000000)]) :=
  (C16_ecma_array_layout false (fun _ => 0) 0
    [([0x77], 0x4084000000000000), ([0x68], 0x4076800000000000), ([0x77], 0x4084000000000000)]
    (by decide) (by decide)).2.2.2

namespace testpattern

theorem scanFrom_iff (l : List Nal) (i : Nat) (s p s2 p2 : Int) :
    scanFrom l i s p = .ok (s2, p2) ↔
      ((nalCount NAL_SPS l = 0 ∧ s2 = s)
          ∨ (¬ s > -1 ∧ nalCount NAL_SPS l = 1 ∧ s2 = (i : Int) + nalIndex NAL_SPS l))
        ∧ ((nalCount NAL_PPS l = 0 ∧ p2 = p)
          ∨ (¬ p > -1 ∧ nalCount NAL_PPS l = 1 ∧ p2 = (i : Int) + nalIndex NAL_PPS l)) := by
  induction l generalizing i s p with
  | nil =>
    have c : ∀ t, nalCount t [] = 0 := fun _ => rfl
    unfold scanFrom
    rw [c, c]
    constructor
    · intro h
      injection h with h
      injection h with h1 h2
      exact ⟨Or.inl ⟨rfl, h1.symm⟩, Or.inl ⟨rfl, h2.symm⟩⟩
    · rintro ⟨h1 | h1, h2 | h2⟩
      · rw [h1.2, h2.2]
      · omega
      · omega
      · omega
  | cons nal rest ih =>
    have hne : NAL_SPS ≠ NAL_PPS := by decide
    unfold scanFrom
    by_cases h1 : nal.i_type = NAL_SPS
    · have h2 : ¬ nal.i_type = NAL_PPS := fun h => hne (h1.symm.trans h)
      have c1 : nalCount NAL_SPS (nal :: rest) = nalCount NAL_SPS rest + 1 := by
        simp [nalCount, List.countP_cons, h1]
      have c2 : nalCount NAL_PPS (nal :: rest) = nalCount NAL_PPS rest := by
        simp [nalCount, List.countP_cons, h2]
      have i1 : nalIndex NAL_SPS (nal :: rest) = 0 := by
        simp [nalIndex, List.findIdx_cons, h1]
      have i2 : nalIndex NAL_PPS (nal :: rest) = nalIndex NAL_PPS rest + 1 := by
        have b2 : (nal.i_type == NAL_PPS) = false := by simpa using h2
        rw [nalIndex, List.findIdx_cons, b2]
        rfl
      rw [if_pos h1, c1, c2, i1, i2]
      by_cases hs : s > -1
      · rw [if_pos hs]
        constructor
        · intro h; cases h
        · rintro ⟨h | h, _⟩ <;> omega
      · rw [if_neg hs, ih]
        constructor
        · rintro ⟨h | h, h3 | h3⟩
          · exact ⟨Or.inr ⟨hs, by omega, by omega⟩, Or.inl h3⟩
          · exact ⟨Or.inr ⟨hs, by omega, by omega⟩, Or.inr ⟨h3.1, h3.2.1, by omega⟩⟩
          · omega
          · omega
        · rintro ⟨h | h, h3 | h3⟩
          · omega
          · omega
          · exact ⟨Or.inl ⟨by omega, by omega⟩, Or.inl h3⟩
          · exact ⟨Or.inl ⟨by omega, by omega⟩, Or.inr ⟨h3.1, h3.2.1, by omega⟩⟩
    · rw [if_neg h1]
      have c1 : nalCount NAL_SPS (nal :: rest) = nalCount NAL_SPS rest := by
        simp [nalCount, List.countP_cons, h1]
      have i1 : nalIndex NAL_SPS (nal :: rest) = nalIndex NAL_SPS rest + 1 := by
        have b1 : (nal.i_type == NAL_SPS) = false := by simpa using h1
        rw [nalIndex, List.findIdx_cons, b1]
        rfl
      by_cases h2 : nal.i_type = NAL_PPS
      · have c2 : nalCount NAL_PPS (nal :: rest) = nalCount NAL_PPS rest + 1 := by
          simp [nalCount, List.countP_cons, h2]
        have i2 : nalIndex NAL_PPS (nal :: rest) = 0 := by
          simp [nalIndex, List.findIdx_cons, h2]
        rw [if_pos h2, c1, c2, i1, i2]
        by_cases hp : p > -1
        · rw [if_pos hp]
          constructor
          · intro h; cases h
          · rintro ⟨_, h | h⟩ <;> omega
        · rw [if_neg hp, ih]
          constructor
          · rintro ⟨h3 | h3, h | h⟩
            · exact ⟨Or.inl h3, Or.inr ⟨hp, by omega, by omega⟩⟩
            · omega
            · exact ⟨Or.inr ⟨h3.1, h3.2.1, by omega⟩, Or.inr ⟨hp, by omega, by omega⟩⟩
            · omega
          · rintro ⟨h3 | h3, h | h⟩
            · omega
            · exact ⟨Or.inl h3, Or.inl ⟨by omega, by omega⟩⟩
            · omega
            · exact ⟨Or.inr ⟨h3.1, h3.2.1, by omega⟩, Or.inl ⟨by omega, by omega⟩⟩
      · have c2 : nalCount NAL_PPS (nal :: rest) = nalCount NAL_PPS rest := by
          simp [nalCount, List.countP_cons, h2]
        have i2 : nalIndex NAL_PPS (nal :: rest) = nalIndex NAL_PPS rest + 1 := by
          have b2 : (nal.i_type == NAL_PPS) = false := by simpa using h2
          rw [nalIndex, List.findIdx_cons, b2]
          rfl
        rw [if_neg h2, c1, c2, i1, i2, ih]
        constructor
        · rintro ⟨h3 | h3, h | h⟩
          · exact ⟨Or.inl h3, Or.inl h⟩
          · exact ⟨Or.inl h3, Or.inr ⟨h.1, h.2.1, by omega⟩⟩
          · exact ⟨Or.inr ⟨h3.1, h3.2.1, by omega⟩, Or.inl h⟩
          · exact ⟨Or.inr ⟨h3.1, h3.2.1, by omega⟩, Or.inr ⟨h.1, h.2.1, by omega⟩⟩
        · rintro ⟨h3 | h3, h | h⟩
          · exact ⟨Or.inl h3, Or.inl h⟩
          · exact ⟨Or.inl h3, Or.inr ⟨h.1, h.2.1, by omega⟩⟩
          · exact ⟨Or.inr ⟨h3.1, h3.2.1, by omega⟩, Or.inl h⟩
          · exact ⟨Or.inr ⟨h3.1, h3.2.1, by omega⟩, Or.inr ⟨h.1, h.2.1, by omega⟩⟩

theorem scan_iff (l : List Nal) (s p : Int) :
    scan l = .ok (s, p) ↔
      nalCount NAL_SPS l = 1 ∧ nalCount NAL_PPS l = 1
        ∧ s = nalIndex NAL_SPS l ∧ p = nalIndex NAL_PPS l := by
  unfold scan
  cases h : scanFrom l 0 (-1) (-1) with
  | error d =>
    simp only
    constructor
    · intro h2; cases h2
    · rintro ⟨c1, c2, e1, e2⟩
      have := (scanFrom_iff l 0 (-1) (-1) s p).2
        ⟨Or.inr ⟨by decide, c1, by omega⟩, Or.inr ⟨by decide, c2, by omega⟩⟩
      rw [h] at this
      cases this
  | ok r =>
    obtain ⟨s2, p2⟩ := r
    have h3 := (scanFrom_iff l 0 (-1) (-1) s2 p2).1 h
    simp only
    by_cases hc : s2 = -1 ∨ p2 = -1
    · rw [if_pos hc]
      constructor
      · intro h2; cases h2
      · rintro ⟨c1, c2, e1, e2⟩
        omega
    · rw [if_neg hc]
      constructor
      · intro h2
        injection h2 with h2
        injection h2 with e1 e2
        subst e1
        subst e2
        omega
      · rintro ⟨c1, c2, e1, e2⟩
        have e3 : s2 = s := by omega
        have e4 : p2 = p := by omega
        rw [e3, e4]

theorem scan_error (l : List Nal)
    (h : ¬ (nalCount NAL_SPS l = 1 ∧ nalCount NAL_PPS l = 1)) : ∃ d, scan l = .error d := by
  cases hs : scan l with
  | error d => exact ⟨d, rfl⟩
  | ok r =>
    obtain ⟨s, p⟩ := r
    have := (scan_iff l s p).1 hs
    exact absurd ⟨this.1, this.2.1⟩ h

end testpattern

theorem nalAt_index (t : Int) (l : List Nal) (h : nalCount t l = 1) :
    (nalAt l (nalIndex t l)).i_type = t := by
  have hpos : 0 < l.countP (fun n => n.i_type == t) := by
    unfold nalCount at h
    omega
  obtain ⟨x, hx, hp⟩ := List.countP_pos_iff.1 hpos
  have hlt : l.findIdx (fun n => n.i_type == t) < l.length :=
    List.findIdx_lt_length_of_exists ⟨x, hx, hp⟩
  have hg := List.findIdx_getElem (w := hlt)
  unfold nalAt nalIndex
  simp only [Int.toNat_ofNat, List.getD_eq_getElem?_getD, List.getElem?_eq_getElem hlt,
    Option.getD_some]
  simpa using hg

/-- C19: the loop of testpattern's `main` that locates the SPS and the PPS among the header
NALs ends with `sps_id` and `pps_id` set, and no error, if and only if the list holds exactly
one NAL of type `NAL_SPS` and exactly one of type `NAL_PPS`; `sps_id` and `pps_id` are then
the indices of these two NALs.  Otherwise (a second SPS, a second PPS, or one of them
missing) `main`, having connected and written the onMetaData record, prints the diagnostic
of the scan and returns `EXIT_FAILURE`; the onMetaData record is the only `RTMP_Write`, so no
sequence header is built from any candidate. -/
theorem C19_scan_requires_one_sps_one_pps (W : Nat) (env : testpattern.MainEnv) (fuel : Nat) :
    (∀ s p : Int, testpattern.scan env.pp_nal = .ok (s, p) ↔
        nalCount NAL_SPS env.pp_nal = 1 ∧ nalCount NAL_PPS env.pp_nal = 1
          ∧ s = nalIndex NAL_SPS env.pp_nal ∧ p = nalIndex NAL_PPS env.pp_nal)
      ∧ (nalCount NAL_SPS env.pp_nal = 1 → nalCount NAL_PPS env.pp_nal = 1 →
          (nalAt env.pp_nal (nalIndex NAL_SPS env.pp_nal)).i_type = NAL_SPS
            ∧ (nalAt env.pp_nal (nalIndex NAL_PPS env.pp_nal)).i_type = NAL_PPS)
      ∧ (¬ (nalCount NAL_SPS env.pp_nal = 1 ∧ nalCount NAL_PPS env.pp_nal = 1) →
          env.argc = 2 → env.mallocOk = true → env.rtmpAllocOk = true →
          env.connectOk = true → env.connectStreamOk = true → env.metaWriteOk = true →
          0 < env.header_size →
          ∃ d, testpattern.scan env.pp_nal = .error d
            ∧ testpattern.main W env fuel = some (testpattern.EXIT_FAILURE,
                [.debugOpen, .debugWrite testpattern.flvHeader, .malloc, .rtmpAlloc,
                  .rtmpConnect, .rtmpConnectStream,
                  .debugWrite (readBytes
                    (testpattern.metaDataTag env.bigEndian env.mem env.loopEnv.tag).1
                    env.loopEnv.tag
                    (testpattern.metaDataTag env.bigEndian env.mem env.loopEnv.tag).2),
                  .rtmpWrite (readBytes
                    (testpattern.metaDataTag env.bigEndian env.mem env.loopEnv.tag).1
                    env.loopEnv.tag
                    (testpattern.metaDataTag env.bigEndian env.mem env.loopEnv.tag).2),
                  .diag d])) := by
  refine ⟨fun s p => testpattern.scan_iff env.pp_nal s p,
    fun h1 h2 => ⟨nalAt_index _ _ h1, nalAt_index _ _ h2⟩, ?_⟩
  intro hc h1 h2 h3 h4 h5 h6 h7
  obtain ⟨d, hd⟩ := testpattern.scan_error env.pp_nal hc
  refine ⟨d, hd, ?_⟩
  have h8 : ¬ env.header_size ≤ 0 := by omega
  simp only [testpattern.main, h1, h2, h3, h4, h5, h6, h8, hd, ne_eq, not_true_eq_false,
    if_false, Bool.not_true, Bool.false_eq_true, List.cons_append, List.nil_append]

/-- Witness of C19: with the header NALs SPS, PPS, SPS the scan reports the second SPS, and
`main` returns `EXIT_FAILURE` after the onMetaData record. -/
theorem C19_scan_requires_one_sps_one_pps_witness :
    ∃ d, testpattern.scan twoSpsEnv.pp_nal = .error d
      ∧ testpattern.main 64 twoSpsEnv 5 = some (testpattern.EXIT_FAILURE,
          [.debugOpen, .debugWrite testpattern.flvHeader, .malloc, .rtmpAlloc,
            .rtmpConnect, .rtmpConnectStream,
            .debugWrite (readBytes
              (testpattern.metaDataTag twoSpsEnv.bigEndian twoSpsEnv.mem twoSpsEnv.loopEnv.tag).1
              twoSpsEnv.loopEnv.tag
              (testpattern.metaDataTag twoSpsEnv.bigEndian twoSpsEnv.mem
                twoSpsEnv.loopEnv.tag).2),
            .rtmpWrite (readBytes
              (testpattern.metaDataTag twoSpsEnv.bigEndian twoSpsEnv.mem twoSpsEnv.loopEnv.tag).1
              twoSpsEnv.loopEnv.tag
              (testpattern.metaDataTag twoSpsEnv.bigEndian twoSpsEnv.mem
                twoSpsEnv.loopEnv.tag).2),
            .diag d]) :=
  (C19_scan_requires_one_sps_one_pps 64 twoSpsEnv 5).2.2 (by decide) rfl rfl rfl rfl rfl rfl
    (by decide)

/-- C20: for the header NALs of `sampleHeaderNals` (SPS `67 42 C0 1E` and PPS `68 CE`, each
behind its 4-byte prefix, `i_payload` 8 and 6), the scan of testpattern selects NAL 0 and
NAL 1, and the sequence-header record of testpattern and of waveform carries the SPS length
field `00 08` followed by the 4 SPS bytes and the 4 bytes of the PPS prefix, then the PPS
length field `00 06` followed by the 2 PPS bytes and the 4 bytes `AA BB CC DD` that come
after the PPS in memory: both lengths are 4 more than the NAL sizes and both copies run 4
bytes past their NAL. -/
theorem C20_sequence_header_lengths_four_too_large :
    testpattern.scan sampleHeaderNals = .ok (0, 1)
      ∧ readBytes (testpattern.sequenceHeader (fun _ => 0) 0 (nalAt sampleHeaderNals 0)
          (nalAt sampleHeaderNals 1)).1 0 44
        = [9, 0, 0, 29, 0, 0, 0, 0, 0, 0, 0, 0x17, 0, 0, 0, 0]
            ++ [0x01, 0x42, 0xC0, 0x1E, 0xFF, 0xE1]
            ++ [0, 8, 0x67, 0x42, 0xC0, 0x1E, 0, 0, 0, 2]
            ++ [0, 6, 0x68, 0xCE, 0xAA, 0xBB, 0xCC, 0xDD]
            ++ [0, 0, 0, 40]
      ∧ (testpattern.sequenceHeader (fun _ => 0) 0 (nalAt sampleHeaderNals 0)
          (nalAt sampleHeaderNals 1)).2 = 44
      ∧ readBytes (waveform.sequenceHeader (fun _ => 0) 0 sampleHeaderNals).1 0 44
        = [9, 0, 0, 29, 0, 0, 0, 0, 0, 0, 0, 0x17, 0, 0, 0, 0]
            ++ [0x01, 0x42, 0xC0, 0x1E, 0xFF, 0xE1]
            ++ [0, 8, 0x67, 0x42, 0xC0, 0x1E, 0, 0, 0, 2]
            ++ [0, 6, 0x68, 0xCE, 0xAA, 0xBB, 0xCC, 0xDD]
            ++ [0, 0, 0, 40]
      ∧ (waveform.sequenceHeader (fun _ => 0) 0 sampleHeaderNals).2 = 44 :=
  ⟨(testpattern.scan_iff sampleHeaderNals 0 1).2 (by decide), by decide, by decide, by decide,
    by decide⟩

theorem rtmpWrites_append (a b : List GenEvent) :
    rtmpWrites (a ++ b) = rtmpWrites a ++ rtmpWrites b := by
  induction a with
  | nil => rfl
  | cons e a ih => cases e <;> simp [rtmpWrites, ih]

namespace testpattern

theorem eosTag_eq (m : Mem) (tag ts : Nat) :
    flv_TagFinish (flv_AVCVideoPacket (flv_TagHeader m tag 9 ts).1 (flv_TagHeader m tag 9 ts).2
        1 2 0).1 tag
        (flv_AVCVideoPacket (flv_TagHeader m tag 9 ts).1 (flv_TagHeader m tag 9 ts).2 1 2 0).2
      = ((u32be (u24be (flv_AVCVideoPacket (flv_TagHeader m tag 9 ts).1 (tag + 11) 1 2 0).1
          (tag + 1) 5).1 (tag + 11 + 5) 16).1, 20) := by
  have hd := toU32_diff tag 5
  show flv_TagFinish _ tag (tag + 11 + 5) = _
  simp only [flv_TagFinish, hd]
  rfl

theorem eosTag_bytes (m : Mem) (tag ts : Nat) :
    readBytes (flv_TagFinish (flv_AVCVideoPacket (flv_TagHeader m tag 9 ts).1
        (flv_TagHeader m tag 9 ts).2 1 2 0).1 tag
        (flv_AVCVideoPacket (flv_TagHeader m tag 9 ts).1 (flv_TagHeader m tag 9 ts).2
          1 2 0).2).1 tag 20 = specEosRecord ts := by
  rw [eosTag_eq]
  show [_, _, _, _, _, _, _, _, _, _, _, _, _, _, _, _, _, _, _, _] = _
  simp (disch := omega) only [flv_TagHeader, flv_AVCVideoPacket, u24be, u32be, store_apply,
    and_255, and_ffffff, shr8, shr16, shr24, if_pos, if_neg]
  simp [specEosRecord, beBytes_three, toU32]

theorem endOfStream_eq (m : Mem) (tag frame : Nat) (ok : Bool) :
    endOfStream m tag frame ok
      = (if ok then EXIT_SUCCESS else EXIT_FAILURE,
          [GenEvent.debugWrite (specEosRecord (tagTimestamp frame)),
            .rtmpWrite (specEosRecord (tagTimestamp frame))]
            ++ if ok then [] else [.diag .rtmpWrite]) := by
  have h1 := eosTag_eq m tag (tagTimestamp frame)
  have h2 := eosTag_bytes m tag (tagTimestamp frame)
  have h3 : (flv_TagFinish (flv_AVCVideoPacket (flv_TagHeader m tag 9 (tagTimestamp frame)).1
        (flv_TagHeader m tag 9 (tagTimestamp frame)).2 1 2 0).1 tag
        (flv_AVCVideoPacket (flv_TagHeader m tag 9 (tagTimestamp frame)).1
          (flv_TagHeader m tag 9 (tagTimestamp frame)).2 1 2 0).2).2 = 20 := by
    rw [h1]
  unfold endOfStream
  simp only [h3, h2]
  cases ok <;> rfl

theorem loop_done (W : Nat) (env : Env) (start fuel : Nat) (s : LoopState)
    (h : s.running = false) : loop W env start (fuel + 1) s = some (.done s, []) := by
  unfold loop
  simp [h]

theorem loop_next (W : Nat) (env : Env) (start fuel : Nat) (s s2 : LoopState)
    (ev : List GenEvent) (h : s.running = true) (hs : step W env start s = .next s2 ev) :
    loop W env start (fuel + 1) s
      = (loop W env start fuel s2).map (fun r => (r.1, ev ++ r.2)) := by
  rw [loop]
  simp only [h, Bool.not_true, Bool.false_eq_true, if_false, hs]

theorem loop_exit (W : Nat) (env : Env) (start fuel : Nat) (s : LoopState) (ret : Nat)
    (ev : List GenEvent) (h : s.running = true) (hs : step W env start s = .exit ret ev) :
    loop W env start (fuel + 1) s = some (.exit ret, ev) := by
  rw [loop]
  simp only [h, Bool.not_true, Bool.false_eq_true, if_false, hs]

theorem loop_of_stateAfter (W : Nat) (env : Env) (start k : Nat) (s0 s : LoopState)
    (h : stateAfter W env start k s0 = some s) (hr : s.running = false) :
    ∃ ev, ∀ j, loop W env start (k + j + 1) s0 = some (.done s, ev) := by
  induction k generalizing s0 with
  | zero =>
    injection h with h
    subst h
    exact ⟨[], fun j => loop_done W env start _ _ hr⟩
  | succ k ih =>
    unfold stateAfter at h
    split_ifs at h with hrun
    have hrun2 : s0.running = true := by simpa using hrun
    cases hs : step W env start s0 with
    | exit r e => rw [hs] at h; cases h
    | next s1 e =>
      rw [hs] at h
      obtain ⟨ev, hev⟩ := ih s1 h
      refine ⟨e ++ ev, fun j => ?_⟩
      rw [loop_next W env start _ s0 s1 e hrun2 hs,
        show k + 1 + j = k + j + 1 by omega, hev j]
      rfl

theorem stateAfter_frame_lt (W : Nat) (env : Env) (start k : Nat) (s0 s : LoopState)
    (h0 : s0.frame < 2 ^ W) (h : stateAfter W env start k s0 = some s) : s.frame < 2 ^ W := by
  induction k generalizing s0 with
  | zero =>
    injection h with h
    subst h
    exact h0
  | succ k ih =>
    unfold stateAfter at h
    split_ifs at h
    cases hs : step W env start s0 with
    | exit r e => rw [hs] at h; cases h
    | next s1 e =>
      rw [hs] at h
      obtain ⟨hf, _, _⟩ := step_next_shape W env start s0 s1 e hs
      exact ih s1 (by rw [hf]; exact Nat.mod_lt _ (Nat.pow_pos (by norm_num))) h

theorem sleepEvents_writes (d : Int) : rtmpWrites (sleepEvents d) = [] := by
  unfold sleepEvents
  split_ifs <;> rfl

set_option maxRecDepth 4000 in
theorem step_next_cancel (W : Nat) (env : Env) (start : Nat) (s s2 : LoopState)
    (ev : List GenEvent) (h : step W env start s = .next s2 ev) :
    s2.running = (s.running && !env.signal s.iter) ∧ (rtmpWrites ev).length ≤ 1 := by
  unfold step at h
  simp only at h
  split_ifs at h <;> injection h with h1 h2 <;> subst h1 <;> subst h2 <;>
    refine ⟨rfl, ?_⟩ <;>
    simp only [rtmpWrites_append, rtmpWrites, sleepEvents_writes, List.length_append,
      List.length_cons, List.length_nil, List.append_nil, List.nil_append] <;>
    omega

set_option maxRecDepth 4000 in
theorem step_exit_cancel (W : Nat) (env : Env) (start : Nat) (s : LoopState) (ret : Nat)
    (ev : List GenEvent) (h : step W env start s = .exit ret ev) :
    ret = EXIT_FAILURE ∧ (rtmpWrites ev).length ≤ 1 := by
  unfold step at h
  simp only at h
  split_ifs at h <;> injection h with h1 h2 <;> subst h1 <;> subst h2 <;>
    refine ⟨rfl, ?_⟩ <;>
    simp only [rtmpWrites_append, rtmpWrites, List.length_append,
      List.length_cons, List.length_nil, List.append_nil, List.nil_append] <;>
    omega

theorem stream_done (W : Nat) (env : Env) (start fuel : Nat) (ok : Bool) (s0 s : LoopState)
    (ev : List GenEvent) (h : loop W env start fuel s0 = some (.done s, ev)) :
    stream W env start ok fuel s0
      = some (if ok then EXIT_SUCCESS else EXIT_FAILURE,
          ev ++ ([GenEvent.debugWrite (specEosRecord (tagTimestamp s.frame)),
            .rtmpWrite (specEosRecord (tagTimestamp s.frame))]
            ++ if ok then [] else [.diag .rtmpWrite])) := by
  unfold stream
  rw [h]
  simp only [endOfStream_eq]

end testpattern

namespace waveform

theorem wf_eosTag_eq (m : Mem) (tag ts : Nat) :
    flv_TagFinish (flv_AVCVideoPacket (flv_TagHeader m tag 9 ts).1 (flv_TagHeader m tag 9 ts).2
        1 2 0).1 tag
        (flv_AVCVideoPacket (flv_TagHeader m tag 9 ts).1 (flv_TagHeader m tag 9 ts).2 1 2 0).2
      = ((u32be (u24be (flv_AVCVideoPacket (flv_TagHeader m tag 9 ts).1 (tag + 11) 1 2 0).1
          (tag + 1) 5).1 (tag + 11 + 5) 16).1, 20) := by
  have hd := toU32_diff tag 5
  show flv_TagFinish _ tag (tag + 11 + 5) = _
  simp only [flv_TagFinish, hd]
  rfl

theorem wf_eosTag_bytes (m : Mem) (tag ts : Nat) :
    readBytes (flv_TagFinish (flv_AVCVideoPacket (flv_TagHeader m tag 9 ts).1
        (flv_TagHeader m tag 9 ts).2 1 2 0).1 tag
        (flv_AVCVideoPacket (flv_TagHeader m tag 9 ts).1 (flv_TagHeader m tag 9 ts).2
          1 2 0).2).1 tag 20 = specEosRecord ts := by
  rw [wf_eosTag_eq]
  show [_, _, _, _, _, _, _, _, _, _, _, _, _, _, _, _, _, _, _, _] = _
  simp (disch := omega) only [flv_TagHeader, flv_AVCVideoPacket, u24be, u32be, store_apply,
    and_255, and_ffffff, shr8, shr16, shr24, if_pos, if_neg]
  simp [specEosRecord, beBytes_three, toU32]

theorem wf_endOfStream_eq (m : Mem) (tag frame : Nat) (ok : Bool) :
    endOfStream m tag frame ok
      = (if ok then EXIT_SUCCESS else EXIT_FAILURE,
          [GenEvent.debugWrite (specEosRecord (tagTimestamp frame)),
            .rtmpWrite (specEosRecord (tagTimestamp frame))]
            ++ if ok then [] else [.diag .rtmpWrite]) := by
  have h1 := wf_eosTag_eq m tag (tagTimestamp frame)
  have h2 := wf_eosTag_bytes m tag (tagTimestamp frame)
  have h3 : (flv_TagFinish (flv_AVCVideoPacket (flv_TagHeader m tag 9 (tagTimestamp frame)).1
        (flv_TagHeader m tag 9 (tagTimestamp frame)).2 1 2 0).1 tag
        (flv_AVCVideoPacket (flv_TagHeader m tag 9 (tagTimestamp frame)).1
          (flv_TagHeader m tag 9 (tagTimestamp frame)).2 1 2 0).2).2 = 20 := by
    rw [h1]
  unfold endOfStream
  simp only [h3, h2]
  cases ok <;> rfl

theorem wf_loop_done (W : Nat) (env : Env) (start fuel : Nat) (s : LoopState)
    (h : s.running = false) : loop W env start (fuel + 1) s = some (.done s, []) := by
  unfold loop
  simp [h]

theorem wf_loop_next (W : Nat) (env : Env) (start fuel : Nat) (s s2 : LoopState)
    (ev : List GenEvent) (h : s.running = true) (hs : step W env start s = .next s2 ev) :
    loop W env start (fuel + 1) s
      = (loop W env start fuel s2).map (fun r => (r.1, ev ++ r.2)) := by
  rw [loop]
  simp only [h, Bool.not_true, Bool.false_eq_true, if_false, hs]

theorem wf_loop_exit (W : Nat) (env : Env) (start fuel : Nat) (s : LoopState) (ret : Nat)
    (ev : List GenEvent) (h : s.running = true) (hs : step W env start s = .exit ret ev) :
    loop W env start (fuel + 1) s = some (.exit ret, ev) := by
  rw [loop]
  simp only [h, Bool.not_true, Bool.false_eq_true, if_false, hs]

theorem wf_loop_of_stateAfter (W : Nat) (env : Env) (start k : Nat) (s0 s : LoopState)
    (h : stateAfter W env start k s0 = some s) (hr : s.running = false) :
    ∃ ev, ∀ j, loop W env start (k + j + 1) s0 = some (.done s, ev) := by
  induction k generalizing s0 with
  | zero =>
    injection h with h
    subst h
    exact ⟨[], fun j => wf_loop_done W env start _ _ hr⟩
  | succ k ih =>
    unfold stateAfter at h
    split_ifs at h with hrun
    have hrun2 : s0.running = true := by simpa using hrun
    cases hs : step W env start s0 with
    | exit r e => rw [hs] at h; cases h
    | next s1 e =>
      rw [hs] at h
      obtain ⟨ev, hev⟩ := ih s1 h
      refine ⟨e ++ ev, fun j => ?_⟩
      rw [wf_loop_next W env start _ s0 s1 e hrun2 hs,
        show k + 1 + j = k + j + 1 by omega, hev j]
      rfl

theorem wf_stateAfter_frame_lt (W : Nat) (env : Env) (start k : Nat) (s0 s : LoopState)
    (h0 : s0.frame < 2 ^ W) (h : stateAfter W env start k s0 = some s) : s.frame < 2 ^ W := by
  induction k generalizing s0 with
  | zero =>
    injection h with h
    subst h
    exact h0
  | succ k ih =>
    unfold stateAfter at h
    split_ifs at h
    cases hs : step W env start s0 with
    | exit r e => rw [hs] at h; cases h
    | next s1 e =>
      rw [hs] at h
      obtain ⟨hf, _, _⟩ := wf_step_next_shape W env start s0 s1 e hs
      exact ih s1 (by rw [hf]; exact Nat.mod_lt _ (Nat.pow_pos (by norm_num))) h

theorem wf_sleepEvents_writes (d : Int) : rtmpWrites (sleepEvents d) = [] := by
  unfold sleepEvents
  split_ifs <;> rfl

set_option maxRecDepth 4000 in
theorem wf_step_next_cancel (W : Nat) (env : Env) (start : Nat) (s s2 : LoopState)
    (ev : List GenEvent) (h : step W env start s = .next s2 ev) :
    s2.running = (s.running && !env.signal s.iter) ∧ (rtmpWrites ev).length ≤ 2 := by
  unfold step at h
  simp only at h
  split_ifs at h <;> injection h with h1 h2 <;> subst h1 <;> subst h2 <;>
    refine ⟨rfl, ?_⟩ <;>
    simp only [rtmpWrites_append, rtmpWrites, wf_sleepEvents_writes, List.length_append,
      List.length_cons, List.length_nil, List.append_nil, List.nil_append] <;>
    omega

set_option maxRecDepth 4000 in
theorem wf_step_exit_cancel (W : Nat) (env : Env) (start : Nat) (s : LoopState) (ret : Nat)
    (ev : List GenEvent) (h : step W env start s = .exit ret ev) :
    ret = EXIT_FAILURE ∧ (rtmpWrites ev).length ≤ 2 := by
  unfold step at h
  simp only at h
  split_ifs at h <;> injection h with h1 h2 <;> subst h1 <;> subst h2 <;>
    refine ⟨rfl, ?_⟩ <;>
    simp only [rtmpWrites_append, rtmpWrites, List.length_append,
      List.length_cons, List.length_nil, List.append_nil, List.nil_append] <;>
    omega

theorem wf_stream_done (W : Nat) (env : Env) (start fuel : Nat) (ok : Bool) (s0 s : LoopState)
    (ev : List GenEvent) (h : loop W env start fuel s0 = some (.done s, ev)) :
    stream W env start ok fuel s0
      = some (if ok then EXIT_SUCCESS else EXIT_FAILURE,
          ev ++ ([GenEvent.debugWrite (specEosRecord (tagTimestamp s.frame)),
            .rtmpWrite (specEosRecord (tagTimestamp s.frame))]
            ++ if ok then [] else [.diag .rtmpWrite])) := by
  unfold stream
  rw [h]
  simp only [wf_endOfStream_eq]

end waveform

/-- C12: when the loop of testpattern or of waveform, started with `frame = 0`, reaches its
condition after `n` completed iterations with `running` cleared, the loop ends there (for
every sufficient bound on the iterations) and the program then builds, mirrors and writes
exactly one more record, the 20 bytes of `specEosRecord`: type 9, size 5, the timestamp of tick
`n`, stream id 0, payload `17 02 00 00 00`, trailer 16.  If that write succeeds the exit
status is `EXIT_SUCCESS`; if it fails the same record was attempted, the diagnostic is
printed and the status is `EXIT_FAILURE`. -/
theorem C12_end_of_stream_record (W start n j : Nat) (ok : Bool) (hn : n < 2 ^ W) :
    (∀ (env : testpattern.Env) (s0 s : testpattern.LoopState), s0.frame = 0 →
        testpattern.stateAfter W env start n s0 = some s → s.running = false →
        ∃ ev, testpattern.loop W env start (n + j + 1) s0 = some (.done s, ev)
          ∧ testpattern.stream W env start ok (n + j + 1) s0
            = some (if ok then testpattern.EXIT_SUCCESS else testpattern.EXIT_FAILURE,
                ev ++ ([GenEvent.debugWrite (specEosRecord (testpattern.tagTimestamp n)),
                  .rtmpWrite (specEosRecord (testpattern.tagTimestamp n))]
                  ++ if ok then [] else [.diag .rtmpWrite])))
      ∧ (∀ (env : waveform.Env) (s0 s : waveform.LoopState), s0.frame = 0 →
        waveform.stateAfter W env start n s0 = some s → s.running = false →
        ∃ ev, waveform.loop W env start (n + j + 1) s0 = some (.done s, ev)
          ∧ waveform.stream W env start ok (n + j + 1) s0
            = some (if ok then waveform.EXIT_SUCCESS else waveform.EXIT_FAILURE,
                ev ++ ([GenEvent.debugWrite (specEosRecord (waveform.tagTimestamp n)),
                  .rtmpWrite (specEosRecord (waveform.tagTimestamp n))]
                  ++ if ok then [] else [.diag .rtmpWrite])))
      ∧ (∀ ts, specEosRecord ts = [9, 0, 0, 5, ts % 16777216 / 65536 % 256,
          ts % 16777216 / 256 % 256, ts % 16777216 % 256, ts / 16777216 % 256, 0, 0, 0,
          0x17, 2, 0, 0, 0, 0, 0, 0, 16]) := by
  refine ⟨?_, ?_, fun ts => by simp [specEosRecord, beBytes_three]⟩
  · intro env s0 s h0 hs hr
    obtain ⟨ev, hev⟩ := testpattern.loop_of_stateAfter W env start n s0 s hs hr
    have hf := (testpattern.stateAfter_frame W env start n s0 s hs).1
    have hlt := testpattern.stateAfter_frame_lt W env start n s0 s
      (by rw [h0]; exact Nat.pow_pos (by norm_num)) hs
    rw [h0, Nat.zero_add, Nat.mod_eq_of_lt hlt, Nat.mod_eq_of_lt hn] at hf
    refine ⟨ev, hev j, ?_⟩
    rw [testpattern.stream_done W env start _ ok s0 s ev (hev j), hf]
  · intro env s0 s h0 hs hr
    obtain ⟨ev, hev⟩ := waveform.wf_loop_of_stateAfter W env start n s0 s hs hr
    have hf := (waveform.wf_stateAfter_frame W env start n s0 s hs).1
    have hlt := waveform.wf_stateAfter_frame_lt W env start n s0 s
      (by rw [h0]; exact Nat.pow_pos (by norm_num)) hs
    rw [h0, Nat.zero_add, Nat.mod_eq_of_lt hlt, Nat.mod_eq_of_lt hn] at hf
    refine ⟨ev, hev j, ?_⟩
    rw [waveform.wf_stream_done W env start _ ok s0 s ev (hev j), hf]

set_option maxRecDepth 4000 in
/-- Witness of C12: testpattern in `sampleCancelEnv` (signal during the second iteration),
from `frame = 0`: after 2 iterations the loop ends and the record with the timestamp of tick
2 (83 ms) is written. -/
theorem C12_end_of_stream_record_witness :
    2 < 2 ^ 64
      ∧ ∃ ev, testpattern.loop 64 sampleCancelEnv 0 (2 + 0 + 1) ⟨fun _ => 0, 0, true, 0⟩
          = some (.done (match testpattern.stateAfter 64 sampleCancelEnv 0 2
              ⟨fun _ => 0, 0, true, 0⟩ with
            | some s => s
            | none => ⟨fun _ => 0, 0, true, 0⟩), ev)
        ∧ testpattern.stream 64 sampleCancelEnv 0 true (2 + 0 + 1) ⟨fun _ => 0, 0, true, 0⟩
          = some (if true = true then testpattern.EXIT_SUCCESS else testpattern.EXIT_FAILURE,
              ev ++ ([GenEvent.debugWrite (specEosRecord (testpattern.tagTimestamp 2)),
                .rtmpWrite (specEosRecord (testpattern.tagTimestamp 2))]
                ++ if true = true then [] else [.diag .rtmpWrite])) :=
  ⟨by decide, (C12_end_of_stream_record 64 0 2 0 true (by decide)).1 sampleCancelEnv
    ⟨fun _ => 0, 0, true, 0⟩ _ rfl rfl rfl⟩

set_option maxRecDepth 4000 in
/-- C11 (counterexample): waveform in `sampleWaveEnv`, where the signal arrives during the
first iteration of the loop (at the latest point for the claim: right after the loop
condition was evaluated).  That iteration still writes its video record and its audio
record; then the loop ends and the end-of-stream record follows: two media records, not at
most one, are written after the flag was cleared. -/
theorem C11_waveform_writes_two_records_after_cancel :
    sampleWaveEnv.signal 0 = true
      ∧ waveform.stream 64 sampleWaveEnv 0 true 2 ⟨fun _ => 0, 0, true, 0⟩
        = some (0,
          [.frameLine 0 0,
            .debugWrite [9, 0, 0, 8, 0, 0, 0, 0, 0, 0, 0, 23, 1, 0, 0, 0, 1, 2, 3, 0, 0, 0, 19],
            .rtmpWrite [9, 0, 0, 8, 0, 0, 0, 0, 0, 0, 0, 23, 1, 0, 0, 0, 1, 2, 3, 0, 0, 0, 19],
            .debugWrite [8, 0, 0, 4, 0, 0, 0, 0, 0, 0, 0, 175, 1, 7, 7, 0, 0, 0, 15],
            .rtmpWrite [8, 0, 0, 4, 0, 0, 0, 0, 0, 0, 0, 175, 1, 7, 7, 0, 0, 0, 15],
            .gettimeofday,
            .debugWrite [9, 0, 0, 5, 0, 0, 23, 0, 0, 0, 0, 23, 2, 0, 0, 0, 0, 0, 0, 16],
            .rtmpWrite [9, 0, 0, 5, 0, 0, 23, 0, 0, 0, 0, 23, 2, 0, 0, 0, 0, 0, 0, 16]])
      ∧ ((waveform.stream 64 sampleWaveEnv 0 true 2 ⟨fun _ => 0, 0, true, 0⟩).map
          (fun r => rtmpWrites r.2))
        = some [[9, 0, 0, 8, 0, 0, 0, 0, 0, 0, 0, 23, 1, 0, 0, 0, 1, 2, 3, 0, 0, 0, 19],
          [8, 0, 0, 4, 0, 0, 0, 0, 0, 0, 0, 175, 1, 7, 7, 0, 0, 0, 15],
          [9, 0, 0, 5, 0, 0, 23, 0, 0, 0, 0, 23, 2, 0, 0, 0, 0, 0, 0, 16]] := by
  decide

/-- C11 (amended): in testpattern and in waveform, when a signal clears `running` during an
iteration of the loop, that iteration is completed and no other is started.  If its encoder
calls, its writes and `select` succeed, it writes its own media records (at most one in
testpattern, at most two in waveform: the video and the audio record), then the
end-of-stream record is written, and the exit status is `EXIT_SUCCESS` if that last write
succeeds.  If a call of the iteration fails, the program leaves the loop with a failure
status and without an end-of-stream record. -/
theorem C11_cancel_ends_after_current_iteration (W start fuel : Nat) (ok : Bool) :
    (∀ (env : testpattern.Env) (s : testpattern.LoopState),
        s.running = true → env.signal s.iter = true →
        (∀ s2 ev, testpattern.step W env start s = .next s2 ev →
          (rtmpWrites ev).length ≤ 1
            ∧ testpattern.stream W env start ok (fuel + 2) s
              = some (if ok then testpattern.EXIT_SUCCESS else testpattern.EXIT_FAILURE,
                  ev ++ ([GenEvent.debugWrite
                      (specEosRecord (testpattern.tagTimestamp ((s.frame + 1) % 2 ^ W))),
                    .rtmpWrite (specEosRecord (testpattern.tagTimestamp ((s.frame + 1) % 2 ^ W)))]
                    ++ if ok then [] else [.diag .rtmpWrite])))
          ∧ (∀ ret ev, testpattern.step W env start s = .exit ret ev →
            (rtmpWrites ev).length ≤ 1 ∧ ret = testpattern.EXIT_FAILURE
              ∧ testpattern.stream W env start ok (fuel + 2) s = some (ret, ev)))
      ∧ (∀ (env : waveform.Env) (s : waveform.LoopState),
        s.running = true → env.signal s.iter = true →
        (∀ s2 ev, waveform.step W env start s = .next s2 ev →
          (rtmpWrites ev).length ≤ 2
            ∧ waveform.stream W env start ok (fuel + 2) s
              = some (if ok then waveform.EXIT_SUCCESS else waveform.EXIT_FAILURE,
                  ev ++ ([GenEvent.debugWrite
                      (specEosRecord (waveform.tagTimestamp ((s.frame + 1) % 2 ^ W))),
                    .rtmpWrite (specEosRecord (waveform.tagTimestamp ((s.frame + 1) % 2 ^ W)))]
                    ++ if ok then [] else [.diag .rtmpWrite])))
          ∧ (∀ ret ev, waveform.step W env start s = .exit ret ev →
            (rtmpWrites ev).length ≤ 2 ∧ ret = waveform.EXIT_FAILURE
              ∧ waveform.stream W env start ok (fuel + 2) s = some (ret, ev))) := by
  refine ⟨?_, ?_⟩
  · intro env s hr hsig
    refine ⟨?_, ?_⟩
    · intro s2 ev hs
      obtain ⟨h1, h2⟩ := testpattern.step_next_cancel W env start s s2 ev hs
      have h3 : s2.running = false := by rw [h1, hr, hsig]; rfl
      have hl : testpattern.loop W env start (fuel + 1 + 1) s = some (.done s2, ev) := by
        rw [testpattern.loop_next W env start _ s s2 ev hr hs,
          testpattern.loop_done W env start fuel s2 h3]
        simp
      refine ⟨h2, ?_⟩
      rw [testpattern.stream_done W env start _ ok s s2 ev hl,
        (testpattern.step_next_shape W env start s s2 ev hs).1]
    · intro ret ev hs
      obtain ⟨h1, h2⟩ := testpattern.step_exit_cancel W env start s ret ev hs
      refine ⟨h2, h1, ?_⟩
      unfold testpattern.stream
      rw [testpattern.loop_exit W env start _ s ret ev hr hs]
  · intro env s hr hsig
    refine ⟨?_, ?_⟩
    · intro s2 ev hs
      obtain ⟨h1, h2⟩ := waveform.wf_step_next_cancel W env start s s2 ev hs
      have h3 : s2.running = false := by rw [h1, hr, hsig]; rfl
      have hl : waveform.loop W env start (fuel + 1 + 1) s = some (.done s2, ev) := by
        rw [waveform.wf_loop_next W env start _ s s2 ev hr hs,
          waveform.wf_loop_done W env start fuel s2 h3]
        simp
      refine ⟨h2, ?_⟩
      rw [waveform.wf_stream_done W env start _ ok s s2 ev hl,
        (waveform.wf_step_next_shape W env start s s2 ev hs).1]
    · intro ret ev hs
      obtain ⟨h1, h2⟩ := waveform.wf_step_exit_cancel W env start s ret ev hs
      refine ⟨h2, h1, ?_⟩
      unfold waveform.stream
      rw [waveform.wf_loop_exit W env start _ s ret ev hr hs]

set_option maxRecDepth 4000 in
/-- Witness of C11 (amended): testpattern in `sampleCancelEnv` at the start of the second
iteration (`frame = 1`), during which the signal arrives: the iteration writes its record,
reads the clock and sleeps, and the end-of-stream record of tick 2 follows. -/
theorem C11_cancel_ends_after_current_iteration_witness :
    (rtmpWrites [GenEvent.debugWrite
          [9, 0, 0, 8, 0, 0, 41, 0, 0, 0, 0, 23, 1, 0, 0, 0, 1, 2, 3, 0, 0, 0, 19],
        .rtmpWrite [9, 0, 0, 8, 0, 0, 41, 0, 0, 0, 0, 23, 1, 0, 0, 0, 1, 2, 3, 0, 0, 0, 19],
        .gettimeofday, .usleep 23000]).length ≤ 1
      ∧ testpattern.stream 64 sampleCancelEnv 0 true (0 + 2) ⟨fun _ => 0, 1, true, 1⟩
        = some (if true = true then testpattern.EXIT_SUCCESS else testpattern.EXIT_FAILURE,
            [GenEvent.debugWrite
                [9, 0, 0, 8, 0, 0, 41, 0, 0, 0, 0, 23, 1, 0, 0, 0, 1, 2, 3, 0, 0, 0, 19],
              .rtmpWrite [9, 0, 0, 8, 0, 0, 41, 0, 0, 0, 0, 23, 1, 0, 0, 0, 1, 2, 3, 0, 0, 0, 19],
              .gettimeofday, .usleep 23000]
            ++ ([GenEvent.debugWrite (specEosRecord (testpattern.tagTimestamp ((1 + 1) % 2 ^ 64))),
              .rtmpWrite (specEosRecord (testpattern.tagTimestamp ((1 + 1) % 2 ^ 64)))]
              ++ if true = true then [] else [.diag .rtmpWrite])) :=
  ((C11_cancel_ends_after_current_iteration 64 0 0 true).1 sampleCancelEnv
    ⟨fun _ => 0, 1, true, 1⟩ rfl rfl).1
    (match testpattern.step 64 sampleCancelEnv 0 ⟨fun _ => 0, 1, true, 1⟩ with
      | .next s _ => s
      | .exit _ _ => ⟨fun _ => 0, 1, true, 1⟩) _ rfl

/-! ## A complete run of testpattern -/

set_option maxRecDepth 8000 in
/-- The run `sampleMainEnv` of testpattern's `main` from the argument check to `return ret`:
the sidecar header, the onMetaData record, the sequence header record, two frames (the signal
arrives during the second iteration), the end-of-stream record, and the status
`EXIT_SUCCESS`. -/
theorem main_sample_run :
    testpattern.main 64 sampleMainEnv 3 = some (0,
      [.debugOpen, .debugWrite [70, 76, 86, 1, 1, 0, 0, 0, 9, 0, 0, 0, 0], .malloc, .rtmpAlloc,
        .rtmpConnect, .rtmpConnectStream,
        .debugWrite ([18, 0, 0, 97, 0, 0, 0, 0, 0, 0, 0]
          ++ [2, 0, 10, 111, 110, 77, 101, 116, 97, 68, 97, 116, 97, 8, 0, 0, 0, 4]
          ++ [0, 5, 119, 105, 100, 116, 104, 0, 64, 132, 0, 0, 0, 0, 0, 0]
          ++ [0, 6, 104, 101, 105, 103, 104, 116, 0, 64, 118, 128, 0, 0, 0, 0, 0]
          ++ [0, 9, 102, 114, 97, 109, 101, 114, 97, 116, 101, 0, 64, 56, 0, 0, 0, 0, 0, 0]
          ++ [0, 12, 118, 105, 100, 101, 111, 99, 111, 100, 101, 99, 105, 100]
          ++ [0, 64, 28, 0, 0, 0, 0, 0, 0, 0, 0, 9, 0, 0, 0, 108]),
        .rtmpWrite ([18, 0, 0, 97, 0, 0, 0, 0, 0, 0, 0]
          ++ [2, 0, 10, 111, 110, 77, 101, 116, 97, 68, 97, 116, 97, 8, 0, 0, 0, 4]
          ++ [0, 5, 119, 105, 100, 116, 104, 0, 64, 132, 0, 0, 0, 0, 0, 0]
          ++ [0, 6, 104, 101, 105, 103, 104, 116, 0, 64, 118, 128, 0, 0, 0, 0, 0]
          ++ [0, 9, 102, 114, 97, 109, 101, 114, 97, 116, 101, 0, 64, 56, 0, 0, 0, 0, 0, 0]
          ++ [0, 12, 118, 105, 100, 101, 111, 99, 111, 100, 101, 99, 105, 100]
          ++ [0, 64, 28, 0, 0, 0, 0, 0, 0, 0, 0, 9, 0, 0, 0, 108]),
        .debugWrite ([9, 0, 0, 29, 0, 0, 0, 0, 0, 0, 0, 23, 0, 0, 0, 0]
          ++ [1, 66, 192, 30, 255, 225, 0, 8, 103, 66, 192, 30, 0, 0, 0, 2]
          ++ [0, 6, 104, 206, 170, 187, 204, 221, 0, 0, 0, 40]),
        .rtmpWrite ([9, 0, 0, 29, 0, 0, 0, 0, 0, 0, 0, 23, 0, 0, 0, 0]
          ++ [1, 66, 192, 30, 255, 225, 0, 8, 103, 66, 192, 30, 0, 0, 0, 2]
          ++ [0, 6, 104, 206, 170, 187, 204, 221, 0, 0, 0, 40]),
        .gettimeofday,
        .debugWrite [9, 0, 0, 8, 0, 0, 0, 0, 0, 0, 0, 23, 1, 0, 0, 0, 1, 2, 3, 0, 0, 0, 19],
        .rtmpWrite [9, 0, 0, 8, 0, 0, 0, 0, 0, 0, 0, 23, 1, 0, 0, 0, 1, 2, 3, 0, 0, 0, 19],
        .gettimeofday,
        .debugWrite [9, 0, 0, 8, 0, 0, 41, 0, 0, 0, 0, 23, 1, 0, 0, 0, 1, 2, 3, 0, 0, 0, 19],
        .rtmpWrite [9, 0, 0, 8, 0, 0, 41, 0, 0, 0, 0, 23, 1, 0, 0, 0, 1, 2, 3, 0, 0, 0, 19],
        .gettimeofday, .usleep 23000,
        .debugWrite [9, 0, 0, 5, 0, 0, 83, 0, 0, 0, 0, 23, 2, 0, 0, 0, 0, 0, 0, 16],
        .rtmpWrite [9, 0, 0, 5, 0, 0, 83, 0, 0, 0, 0, 23, 2, 0, 0, 0, 0, 0, 0, 16]]) := by
  decide

/-! ## Buffer bounds and pacer invariant of rtmpcast, tick of waveform -/

namespace rtmpcast

theorem fread_header_bytes (f : FILE) (m : Mem) (tag : Nat) (h : 11 = (fread f m tag 11).1) :
    ∀ i, i < 11 → (fread f m tag 11).2.2 (tag + i) = (f.data.drop f.pos).getD i 0 := by
  intro i hi
  simp only [fread] at h ⊢
  rw [memcpy_apply, if_pos (by omega)]
  congr 1
  omega

theorem payloadSize_lt (W : Nat) (env : Env) (s : LoopState) (hb : ∀ b ∈ s.flv.data, b < 256)
    (h : 11 = (fread s.flv s.mem env.tag 11).1) :
    (parseHeader W (fread s.flv s.mem env.tag 11).2.2 env.tag).payloadSize < 16777216 := by
  have hd := drop_bytes s.flv.data hb s.flv.pos
  rw [parseHeader_of_bytes W _ env.tag (s.flv.data.drop s.flv.pos) hd
    (fread_header_bytes s.flv s.mem env.tag h)]
  exact be24_lt _ hd 1

theorem stepAccesses_bound (W : Nat) (env : Env) (s : LoopState)
    (hb : ∀ b ∈ s.flv.data, b < 256) :
    ∀ a ∈ stepAccesses W env s, a.1 + a.2 ≤ MAX_TAG_SIZE := by
  have hM : MAX_TAG_SIZE = 16777230 := rfl
  unfold stepAccesses
  simp only
  by_cases h11 : 11 ≠ (fread s.flv s.mem env.tag 11).1
  · rw [if_pos h11, hM]
    simp
  · rw [if_neg h11, hM]
    have hs := payloadSize_lt W env s hb (not_not.1 h11)
    generalize (parseHeader W (fread s.flv s.mem env.tag 11).2.2 env.tag).payloadSize = size
      at hs ⊢
    split_ifs <;>
      simp only [List.forall_mem_append, List.forall_mem_cons, List.not_mem_nil,
        false_implies, implies_true, and_true] <;>
      omega

end rtmpcast

namespace rtmpcast

theorem stateAfter_data (W : Nat) (env : Env) (k : Nat) (s s' : LoopState)
    (h : stateAfter W env k s = some s') : s'.flv.data = s.flv.data := by
  induction k generalizing s with
  | zero =>
    injection h with h
    rw [h]
  | succ k ih =>
    unfold stateAfter at h
    split_ifs at h
    cases hs : step W env s with
    | exit r e => rw [hs] at h; cases h
    | next s1 e =>
      rw [hs] at h
      rw [ih s1 h, (step_next_measure W env s s1 e hs).1]

theorem writes_append (a b : List Event) : writes (a ++ b) = writes a ++ writes b := by
  induction a with
  | nil => rfl
  | cons e a ih => cases e <;> simp [writes, ih]

theorem step_writes_bound (W : Nat) (env : Env) (s : LoopState)
    (hb : ∀ b ∈ s.flv.data, b < 256) :
    (∀ r e, step W env s = .exit r e → ∀ b ∈ writes e, b.length ≤ MAX_TAG_SIZE)
      ∧ (∀ s' e, step W env s = .next s' e →
          ∀ b ∈ writes e, b.length ≤ MAX_TAG_SIZE) := by
  have hM : MAX_TAG_SIZE = 16777230 := rfl
  rw [step_eq]
  simp only
  by_cases h11 : 11 ≠ (fread s.flv s.mem env.tag 11).1
  · rw [if_pos h11]
    constructor
    · intro r e h
      split_ifs at h
      injection h with h1 h2
      subst h2
      simp [writes]
    · intro s' e h
      split_ifs at h
      injection h with h1 h2
      subst h2
      simp [writes]
  · rw [if_neg h11]
    have hs := payloadSize_lt W env s hb (not_not.1 h11)
    generalize (parseHeader W (fread s.flv s.mem env.tag 11).2.2 env.tag).payloadSize = size
      at hs ⊢
    constructor
    · intro r e h
      split_ifs at h <;> injection h with h1 h2 <;> subst h2 <;>
        simp only [writes, List.mem_cons, List.mem_singleton, List.not_mem_nil, or_false,
          false_implies, implies_true, forall_eq, readBytes_length] <;>
        omega
    · intro s' e h
      split_ifs at h <;> injection h with h1 h2 <;> subst h2 <;>
        simp only [writes, writes_append, List.cons_append, List.nil_append, List.mem_cons,
          List.mem_singleton, List.not_mem_nil, or_false,
          false_implies, implies_true, forall_eq, readBytes_length] <;>
        omega

theorem loop_writes_bound (W : Nat) (env : Env) (fuel : Nat) (s : LoopState)
    (hb : ∀ b ∈ s.flv.data, b < 256) (ret : Nat) (ev : List Event)
    (h : loop W env fuel s = some (ret, ev)) : ∀ b ∈ writes ev, b.length ≤ MAX_TAG_SIZE := by
  induction fuel generalizing s ret ev with
  | zero => cases h
  | succ n ih =>
    unfold loop at h
    split_ifs at h with hr
    · injection h with h
      injection h with h1 h2
      subst h2
      simp [writes]
    · cases hs : step W env s with
      | exit r e =>
        rw [hs] at h
        injection h with h
        injection h with h1 h2
        subst h2
        exact (step_writes_bound W env s hb).1 r e hs
      | next s1 e =>
        rw [hs] at h
        simp only at h
        obtain ⟨r', hr', hf⟩ := map_eq_some_pair h
        have hd := (step_next_measure W env s s1 e hs).1
        have h1 := ih s1 (by rw [hd]; exact hb) r'.1 r'.2 hr'
        have h2 := (step_writes_bound W env s hb).2 s1 e hs
        injection hf with hf1 hf2
        subst hf2
        intro b hbm
        rw [writes_append, List.mem_append] at hbm
        rcases hbm with hbm | hbm
        · exact h2 b hbm
        · exact h1 b hbm

end rtmpcast

namespace rtmpcast

theorem fseek_data (W : Nat) (f : FILE) (o : Nat) : (fseek W f o).data = f.data := by
  unfold fseek
  split_ifs <;> rfl

theorem main_writes_bound (W : Nat) (env : Env)
    (hb : ∀ f, env.flv = some f → ∀ b ∈ f.data, b < 256) (r : Nat × List Event)
    (h : main W env = some r) : ∀ b ∈ writes r.2, b.length ≤ MAX_TAG_SIZE := by
  unfold main at h
  by_cases h1 : env.argc ≠ 3
  · rw [if_pos h1] at h
    injection h with h; subst h; simp [writes]
  · rw [if_neg h1] at h
    by_cases h2 : (!env.mallocOk) = true
    · rw [if_pos h2] at h
      injection h with h; subst h; simp [writes]
    · rw [if_neg h2] at h
      cases hf : env.flv with
      | none =>
        rw [hf] at h
        injection h with h; subst h; simp [writes]
      | some f =>
        rw [hf] at h
        simp only at h
        have hbf := hb f hf
        split_ifs at h <;>
          first
            | (injection h with h; subst h; simp [writes, writes_append])
            | (obtain ⟨r', hr', hfr⟩ := map_eq_some_pair h
               subst hfr
               have := loop_writes_bound W env _ _
                 (by simp only [fseek_data, fread]; exact hbf) r'.1 r'.2 hr'
               simpa [writes, writes_append] using this)

end rtmpcast

namespace rtmpcast

theorem usleeps_append (a b : List Event) : usleeps (a ++ b) = usleeps a ++ usleeps b := by
  induction a with
  | nil => rfl
  | cons e a ih => cases e <;> simp [usleeps, ih]

/-- An iteration that reads a whole header and reaches the next evaluation of the loop
condition has run the delay section: `prevTimestamp` becomes `timestamp` and `usleep` is
called once, with the difference converted to `useconds_t`, when `prevTimestamp < timestamp`;
otherwise `prevTimestamp` is kept and `usleep` is not called. -/
theorem step_record (W : Nat) (env : Env) (s s' : LoopState) (ev : List Event)
    (h : step W env s = .next s' ev) (h11 : ¬ 11 ≠ (fread s.flv s.mem env.tag 11).1) :
    s'.prevTimestamp
        = (if s.prevTimestamp < iterTimestamp W env s then iterTimestamp W env s
            else s.prevTimestamp)
      ∧ usleeps ev = (if s.prevTimestamp < iterTimestamp W env s then
          [(iterTimestamp W env s - s.prevTimestamp) % 4294967296] else []) := by
  rw [step_eq] at h
  simp only at h
  rw [if_neg h11] at h
  unfold iterTimestamp
  generalize (parseHeader W (fread s.flv s.mem env.tag 11).2.2 env.tag) = hd at h ⊢
  by_cases c : s.prevTimestamp < hd.timestamp
  · simp only [if_pos c] at h ⊢
    split_ifs at h <;> injection h with h1 h2 <;> subst h1 <;> subst h2 <;>
      exact ⟨rfl, by simp [usleeps, usleeps_append]⟩
  · simp only [if_neg c] at h ⊢
    split_ifs at h <;> injection h with h1 h2 <;> subst h1 <;> subst h2 <;>
      exact ⟨rfl, by simp [usleeps, usleeps_append]⟩

theorem foldl_max_le (m : Nat) (ts : List Nat) : m ≤ ts.foldl max m := by
  induction ts generalizing m with
  | nil => exact Nat.le_refl m
  | cons t ts ih => exact Nat.le_trans (Nat.le_max_left m t) (ih (max m t))

theorem specPacerCalls_sum (m : Nat) (ts : List Nat) :
    (specPacerCalls m ts).sum = ts.foldl max m - m := by
  induction ts generalizing m with
  | nil => simp [specPacerCalls]
  | cons t ts ih =>
    unfold specPacerCalls
    by_cases h : m < t
    · rw [if_pos h, List.sum_cons, ih t, List.foldl_cons, Nat.max_eq_right (Nat.le_of_lt h)]
      have := foldl_max_le t ts
      omega
    · rw [if_neg h, ih m, List.foldl_cons, Nat.max_eq_left (Nat.le_of_not_lt h)]

theorem specPacerCalls_small (m : Nat) (ts : List Nat) (h : ∀ t ∈ ts, t < 4294967296) :
    (specPacerCalls m ts).map (fun d => d % 4294967296) = specPacerCalls m ts := by
  induction ts generalizing m with
  | nil => rfl
  | cons t ts ih =>
    have ht := h t (by simp)
    have hr := fun m => ih m (fun x hx => h x (by simp [hx]))
    unfold specPacerCalls
    by_cases c : m < t
    · rw [if_pos c, List.map_cons, hr t, Nat.mod_eq_of_lt (by omega)]
    · rw [if_neg c, hr m]

/-- Running maximum of the pacer over any number of processed records: `prevTimestamp` is
the largest of its starting value and the values of `timestamp` seen, and the `usleep`
arguments are the excesses over the running maximum, each converted to `useconds_t`. -/
theorem pacer_running_maximum (W : Nat) (env : Env) (k : Nat) (s s' : LoopState)
    (ts : List Nat) (ev : List Event) (h : afterRecords W env k s = some (s', ts, ev)) :
    ts.length = k ∧ s'.prevTimestamp = ts.foldl max s.prevTimestamp
      ∧ usleeps ev = (specPacerCalls s.prevTimestamp ts).map (fun d => d % 4294967296) := by
  induction k generalizing s ts ev with
  | zero =>
    injection h with h
    injection h with h1 h2
    injection h2 with h2 h3
    subst h1; subst h2; subst h3
    exact ⟨rfl, rfl, rfl⟩
  | succ k ih =>
    unfold afterRecords at h
    by_cases hrun : (!s.running) = true
    · rw [if_pos hrun] at h; cases h
    rw [if_neg hrun] at h
    cases hs : step W env s with
    | exit r e => rw [hs] at h; cases h
    | next s1 e =>
      rw [hs] at h
      simp only at h
      by_cases h11 : 11 ≠ (fread s.flv s.mem env.tag 11).1
      · rw [if_pos h11] at h; cases h
      rw [if_neg h11] at h
      cases hr : afterRecords W env k s1 with
      | none => rw [hr] at h; cases h
      | some r =>
        obtain ⟨s2, ts2, ev2⟩ := r
        rw [hr] at h
        injection h with h
        injection h with h1 h2
        injection h2 with h2 h3
        subst h1; subst h2; subst h3
        obtain ⟨i0, i1, i2⟩ := ih s1 ts2 ev2 hr
        obtain ⟨p1, p2⟩ := step_record W env s s1 e hs h11
        refine ⟨by simp [i0], ?_, ?_⟩
        · rw [i1, p1, List.foldl_cons]
          by_cases c : s.prevTimestamp < iterTimestamp W env s
          · rw [if_pos c, Nat.max_eq_right (Nat.le_of_lt c)]
          · rw [if_neg c, Nat.max_eq_left (Nat.le_of_not_lt c)]
        · have e0 : ∀ (m t : Nat) (l : List Nat), specPacerCalls m (t :: l)
              = if m < t then (t - m) :: specPacerCalls t l else specPacerCalls m l :=
            fun _ _ _ => rfl
          rw [usleeps_append, i2, p1, p2, e0]
          by_cases c : s.prevTimestamp < iterTimestamp W env s
          · rw [if_pos c, if_pos c, if_pos c]
            rfl
          · rw [if_neg c, if_neg c, if_neg c]
            rfl

/-- When every timestamp seen is below `2 ^ 32` (always the case with a 32-bit
`unsigned long`, and with a 64-bit one when no timestamp has its top bit set), the `usleep`
arguments are exactly the excesses, and from `prevTimestamp = 0` they sum to the largest
timestamp seen, which is `prevTimestamp`. -/
theorem pacer_sum (W : Nat) (env : Env) (k : Nat) (s s' : LoopState)
    (ts : List Nat) (ev : List Event) (h : afterRecords W env k s = some (s', ts, ev))
    (h0 : s.prevTimestamp = 0) (hlt : ∀ t ∈ ts, t < 4294967296) :
    usleeps ev = specPacerCalls 0 ts ∧ (usleeps ev).sum = ts.foldl max 0
      ∧ s'.prevTimestamp = ts.foldl max 0 := by
  obtain ⟨_, i1, i2⟩ := pacer_running_maximum W env k s s' ts ev h
  rw [h0] at i1 i2
  rw [specPacerCalls_small 0 ts hlt] at i2
  refine ⟨i2, ?_, i1⟩
  rw [i2, specPacerCalls_sum]
  rfl

end rtmpcast

namespace waveform

/-- The timestamp of tick `n` in waveform is the truncated `double` product of `n` and the
`double` nearest to 1000/43. -/
theorem wf_tagTimestamp_eq (n : Nat) (hn : n < 9007199254740992) :
    tagTimestamp n
      = roundNat (n * 3773471554167752422516417986822144) false / 2 ^ 107 % 4294967296 := by
  unfold tagTimestamp
  rw [wf_TIMESTAMP_INCREMENT_eq, testpattern.F64_ofNat_small n hn]
  have h := testpattern.F64_mul_nat n 3773471554167752422516417986822144 107
  simp only [Nat.cast_ofNat] at h
  rw [h, testpattern.F64_toInt_nat, Int.toNat_ofNat]

/-- From tick 28 on (and as long as the timestamp fits 32 bits) the timestamp of tick `n` is
ahead of the playing time, in whole milliseconds, of `n` blocks of 1024 samples at
44100 Hz. -/
theorem wf_tagTimestamp_ahead (n : Nat) (hmin : 28 ≤ n) (hmax : n ≤ 184000000) :
    n * (1000 * SAMPLE_COUNT) / SAMPLE_RATE < tagTimestamp n := by
  rw [wf_tagTimestamp_eq n (by omega)]
  have he := roundNat_err (n * 3773471554167752422516417986822144) false
  generalize roundNat (n * 3773471554167752422516417986822144) false = r at he ⊢
  have e1 : (2 : Nat) ^ 107 = 162259276829213363391578010288128 := by norm_num
  have e2 : 1000 * SAMPLE_COUNT = 1024000 := rfl
  have e3 : SAMPLE_RATE = 44100 := rfl
  rw [e1, e2, e3]
  have hlt : r / 162259276829213363391578010288128 < 4294967296 := by omega
  rw [Nat.mod_eq_of_lt hlt]
  omega

end waveform

namespace rtmpcast

theorem intToULong_lt_32 (n : Nat) : intToULong 32 n < 4294967296 := by
  unfold intToULong
  split_ifs
  · omega
  · exact Nat.mod_lt _ (by norm_num)

/-- With a 32-bit `unsigned long` every parsed timestamp is below `2 ^ 32`. -/
theorem iterTimestamp_lt_32 (env : Env) (s : LoopState) (hb : ∀ b ∈ s.flv.data, b < 256)
    (h : 11 = (fread s.flv s.mem env.tag 11).1) : iterTimestamp 32 env s < 4294967296 := by
  have hd := drop_bytes s.flv.data hb s.flv.pos
  unfold iterTimestamp
  rw [parseHeader_of_bytes 32 _ env.tag (s.flv.data.drop s.flv.pos) hd
    (fread_header_bytes s.flv s.mem env.tag h)]
  show parsedTimestamp 32 _ < 2 ^ 32
  unfold parsedTimestamp
  exact Nat.or_lt_two_pow (Nat.lt_trans (be24_lt _ hd 4) (by norm_num))
    (intToULong_lt_32 _)

theorem afterRecords_lt_32 (env : Env) (k : Nat) (s s' : LoopState) (ts : List Nat)
    (ev : List Event) (hb : ∀ b ∈ s.flv.data, b < 256)
    (h : afterRecords 32 env k s = some (s', ts, ev)) : ∀ t ∈ ts, t < 4294967296 := by
  induction k generalizing s ts ev with
  | zero =>
    injection h with h
    injection h with h1 h2
    injection h2 with h2 h3
    subst h2
    simp
  | succ k ih =>
    unfold afterRecords at h
    by_cases hrun : (!s.running) = true
    · rw [if_pos hrun] at h; cases h
    rw [if_neg hrun] at h
    cases hs : step 32 env s with
    | exit r e => rw [hs] at h; cases h
    | next s1 e =>
      rw [hs] at h
      simp only at h
      by_cases h11 : 11 ≠ (fread s.flv s.mem env.tag 11).1
      · rw [if_pos h11] at h; cases h
      rw [if_neg h11] at h
      cases hr : afterRecords 32 env k s1 with
      | none => rw [hr] at h; cases h
      | some r =>
        obtain ⟨s2, ts2, ev2⟩ := r
        rw [hr] at h
        injection h with h
        injection h with h1 h2
        injection h2 with h2 h3
        subst h2
        have hd := (step_next_measure 32 env s s1 e hs).1
        have h1 := ih s1 ts2 ev2 (by rw [hd]; exact hb) (by rw [hr, ← h1])
        intro t ht
        rcases List.mem_cons.1 ht with ht | ht
        · rw [ht]
          exact iterTimestamp_lt_32 env s hb (not_not.1 h11)
        · exact h1 t ht

/-- With a 32-bit `unsigned long`, after any number of records processed from
`prevTimestamp = 0`, `prevTimestamp` is the largest timestamp seen, each `usleep` argument is
the excess of a timestamp over the largest before it, and the arguments sum to
`prevTimestamp`. -/
theorem pacer_sum_32 (env : Env) (k : Nat) (s s' : LoopState) (ts : List Nat)
    (ev : List Event) (hb : ∀ b ∈ s.flv.data, b < 256) (h0 : s.prevTimestamp = 0)
    (h : afterRecords 32 env k s = some (s', ts, ev)) :
    usleeps ev = specPacerCalls 0 ts ∧ (usleeps ev).sum = ts.foldl max 0
      ∧ s'.prevTimestamp = ts.foldl max 0 :=
  pacer_sum 32 env k s s' ts ev h h0 (afterRecords_lt_32 env k s s' ts ev hb h)

end rtmpcast

set_option maxRecDepth 4000 in
/-- C21: in waveform.c the quotient `SAMPLE_RATE / SAMPLE_COUNT` of `TIMESTAMP_INCREMENT` is
an `int` division with the value 43, so the tick is the `double` nearest to 1000/43 ms
(23.2558 ms, 43 ticks per second), which is longer than a block of 1024 samples at 44100 Hz
(1024000/44100 = 23.2200 ms).  The timestamp of tick 4 is 93 ms while 4 blocks play for
92 ms; tick 43 is stamped 1000 ms while 43 blocks play for 998 ms; tick 1000 is stamped
23255 ms while 1000 blocks play for 23219 ms. -/
theorem C21_waveform_tick_is_1000_over_43 :
    waveform.SAMPLE_RATE / waveform.SAMPLE_COUNT = 43
      ∧ waveform.TIMESTAMP_INCREMENT = F64.div (F64.ofNat 1000) (F64.ofNat 43)
      ∧ waveform.TIMESTAMP_INCREMENT = ⟨3773471554167752422516417986822144, 107⟩
      ∧ 1000 * waveform.SAMPLE_COUNT * 2 ^ 107
          < waveform.SAMPLE_RATE * 3773471554167752422516417986822144
      ∧ waveform.tagTimestamp 4 = 93
      ∧ 4 * (1000 * waveform.SAMPLE_COUNT) / waveform.SAMPLE_RATE = 92
      ∧ waveform.tagTimestamp 43 = 1000
      ∧ 43 * (1000 * waveform.SAMPLE_COUNT) / waveform.SAMPLE_RATE = 998
      ∧ waveform.tagTimestamp 1000 = 23255
      ∧ 1000 * (1000 * waveform.SAMPLE_COUNT) / waveform.SAMPLE_RATE = 23219 := by
  decide

/-- C22: the tag buffer of rtmpcast has `MAX_TAG_SIZE = 16777230` bytes.  For every input
file (its bytes below 256) the run of `main` returns, and every list handed to `RTMP_Write`
has at most `MAX_TAG_SIZE` bytes.  In every iteration of the read loop, started in any state
`s` whose stream holds bytes and reached after any number `k` of iterations, every region
of the tag buffer that is handed to `fread`, parsed, or handed to `RTMP_Write` lies below
index `MAX_TAG_SIZE`. -/
theorem C22_tag_buffer_bounds (W : Nat) (env : rtmpcast.Env)
    (hb : ∀ f, env.flv = some f → ∀ b ∈ f.data, b < 256) :
    rtmpcast.MAX_TAG_SIZE = 16777230
      ∧ (∃ r, rtmpcast.main W env = some r
          ∧ ∀ b ∈ rtmpcast.writes r.2, b.length ≤ rtmpcast.MAX_TAG_SIZE)
      ∧ (∀ (s : rtmpcast.LoopState), (∀ b ∈ s.flv.data, b < 256) →
          ∀ (k : Nat) (s2 : rtmpcast.LoopState), rtmpcast.stateAfter W env k s = some s2 →
          ∀ a ∈ rtmpcast.stepAccesses W env s2, ∀ i, i < a.2 →
            a.1 + i < rtmpcast.MAX_TAG_SIZE) := by
  refine ⟨rfl, ?_, ?_⟩
  · obtain ⟨r, hr⟩ := rtmpcast.main_total W env
    exact ⟨r, hr, rtmpcast.main_writes_bound W env hb r hr⟩
  · intro s hs k s2 hk a ha i hi
    have hd := rtmpcast.stateAfter_data W env k s s2 hk
    have := rtmpcast.stepAccesses_bound W env s2 (by rw [hd]; exact hs) a ha
    omega

/-- Witness of C22: the sample file; the first iteration of the read loop started after its
header touches the regions listed, all below `MAX_TAG_SIZE`. -/
theorem C22_tag_buffer_bounds_witness :
    rtmpcast.MAX_TAG_SIZE = 16777230
      ∧ (∃ r, rtmpcast.main 64 (sampleEnv sampleFlv) = some r
          ∧ ∀ b ∈ rtmpcast.writes r.2, b.length ≤ rtmpcast.MAX_TAG_SIZE)
      ∧ rtmpcast.stepAccesses 64 (sampleEnv sampleFlv)
          ⟨⟨sampleFlv, 13, false, false⟩, fun _ => 0, 0, true, 0⟩
        = [(0, 11), (0, 1), (1, 3), (4, 3), (7, 1), (8, 3), (11, 1), (12, 4), (12, 4), (0, 16)]
      ∧ ∀ a ∈ rtmpcast.stepAccesses 64 (sampleEnv sampleFlv)
          ⟨⟨sampleFlv, 13, false, false⟩, fun _ => 0, 0, true, 0⟩, ∀ i, i < a.2 →
            a.1 + i < rtmpcast.MAX_TAG_SIZE :=
  ⟨(C22_tag_buffer_bounds 64 (sampleEnv sampleFlv)
      (fun f hf => Option.some.inj hf ▸ (by decide))).1,
    (C22_tag_buffer_bounds 64 (sampleEnv sampleFlv)
      (fun f hf => Option.some.inj hf ▸ (by decide))).2.1,
    by decide,
    (C22_tag_buffer_bounds 64 (sampleEnv sampleFlv)
      (fun f hf => Option.some.inj hf ▸ (by decide))).2.2
      ⟨⟨sampleFlv, 13, false, false⟩, fun _ => 0, 0, true, 0⟩ (by decide) 0 _ rfl⟩

/-- C23: on a platform with a 64-bit `unsigned long`, for the file `highTimestampFlv` whose
two records carry the timestamps 0x80000000 and 0x80000005, the variable `timestamp` takes
the values 0xFFFFFFFF80000000 and 0xFFFFFFFF80000005, `prevTimestamp` ends as the larger of
them, and the two `usleep` calls get the arguments 2147483648 and 5: the first is not
`timestamp - prevTimestamp` (that difference is 0xFFFFFFFF80000000, cut to the 32 bits of
`useconds_t`), and the arguments sum to 2147483653, which is not `prevTimestamp`.  With a
32-bit `unsigned long` the same file gives the timestamps 2147483648 and 2147483653, the
same `usleep` arguments, and `prevTimestamp = 2147483653`, their sum. -/
theorem C23_usleep_sum_differs_from_prevTimestamp :
    (rtmpcast.afterRecords 64 (sampleEnv highTimestampFlv) 2
        ⟨⟨highTimestampFlv, 13, false, false⟩, fun _ => 0, 0, true, 0⟩).map
        (fun r => (r.1.prevTimestamp, r.2.1, rtmpcast.usleeps r.2.2))
      = some (18446744071562067973, [18446744071562067968, 18446744071562067973],
          [2147483648, 5])
      ∧ rtmpcast.specPacerCalls 0 [18446744071562067968, 18446744071562067973]
        = [18446744071562067968, 5]
      ∧ (rtmpcast.main 64 (sampleEnv highTimestampFlv)).map (fun r => rtmpcast.usleeps r.2)
        = some [2147483648, 5]
      ∧ ([2147483648, 5] : List Nat).sum = 2147483653
      ∧ (rtmpcast.afterRecords 32 (sampleEnv highTimestampFlv) 2
          ⟨⟨highTimestampFlv, 13, false, false⟩, fun _ => 0, 0, true, 0⟩).map
          (fun r => (r.1.prevTimestamp, r.2.1, rtmpcast.usleeps r.2.2))
        = some (2147483653, [2147483648, 2147483653], [2147483648, 5]) := by
  decide
